import Mathlib

/-!
# KubeGame: a verification development

Shallow embedding of the two variants of the die-rolling puzzle:

* `Simple` : `src/main.go` (fixed 12x8 level given by a list of wall coordinates);
* `Maze`   : `src/game/main.go` (procedurally generated maze on a grid of cells).

Go `int` values are modelled by `Int`; the code adds and subtracts small constants
to coordinates and sizes, and the one product, `Width*Height`, is wrapped to 64 bits.
A Go run-time panic (slice index out of range, `rand.Intn` called with a non-positive
bound, `make` with a negative length) is modelled by `none`.  A method with a pointer
receiver becomes a function from the old value to the new one; the loops `for x <
targetX || y < targetY` and `for len(queue) > 0` take a fuel and return `none` when it
runs out, and are proved to end within the fuel they are given.
-/

/-! ## Data model shared by both variants

Both source files declare `Die`, `Direction` and `Player` with the same fields. -/

/-- The struct `Die`: six faces and the redundant read accessor `CurrentTop`. -/
structure Die where
  Top : Int
  Bottom : Int
  Front : Int
  Back : Int
  Left : Int
  Right : Int
  CurrentTop : Int
deriving DecidableEq, Repr

/-- The type `Direction` is a Go `int` with four named constants. -/
abbrev Direction := Int

/-- Constant `Up` (iota 0). -/
def Up : Direction := 0

/-- Constant `Down` (iota 1). -/
def Down : Direction := 1

/-- Constant `Left` (iota 2). -/
def Left : Direction := 2

/-- Constant `Right` (iota 3). -/
def Right : Direction := 3

/-- Function `NewDie` (same value in both files). -/
def NewDie : Die :=
  { Top := 1, Bottom := 6, Front := 2, Back := 5, Left := 3, Right := 4, CurrentTop := 1 }

/-- The struct `Player`. -/
structure Player where
  X : Int
  Y : Int
  Die : Die
deriving DecidableEq, Repr

/-- The anonymous struct of the field `Level.Finish`. -/
structure FinishCell where
  X : Int
  Y : Int
  Number : Int
deriving DecidableEq, Repr

/-- Opposite faces sum to seven. -/
def OppositeSum7 (d : Die) : Prop :=
  d.Top + d.Bottom = 7 ∧ d.Front + d.Back = 7 ∧ d.Left + d.Right = 7

instance (d : Die) : Decidable (OppositeSum7 d) := by
  unfold OppositeSum7; infer_instance

/-- The six faces are pairwise distinct. -/
def FacesDistinct (d : Die) : Prop :=
  [d.Top, d.Bottom, d.Front, d.Back, d.Left, d.Right].Nodup

instance (d : Die) : Decidable (FacesDistinct d) := by
  unfold FacesDistinct; infer_instance

/-- Number of faces among the six whose value differs between `a` and `b`. -/
def changedFaces (a b : Die) : Nat :=
  (if a.Top = b.Top then 0 else 1) + (if a.Bottom = b.Bottom then 0 else 1)
    + (if a.Front = b.Front then 0 else 1) + (if a.Back = b.Back then 0 else 1)
    + (if a.Left = b.Left then 0 else 1) + (if a.Right = b.Right then 0 else 1)

/-- The direction is one of the four named constants. -/
def IsNamedDirection (d : Direction) : Prop :=
  d = Up ∨ d = Down ∨ d = Left ∨ d = Right

/-- The die after the successive rolls `dirs`, for the `Roll` function `roll` of one of
the two variants. -/
def rollSeq (roll : Die → Direction → Die) (d : Die) (dirs : List Direction) : Die :=
  dirs.foldl roll d

/-- Each of the six faces lies in `[1,6]`. -/
def FacesInRange (d : Die) : Prop :=
  ∀ f ∈ [d.Top, d.Bottom, d.Front, d.Back, d.Left, d.Right], 1 ≤ f ∧ f ≤ 6

/-- Each value of `1..6` is on one of the six faces. -/
def FacesCover (d : Die) : Prop :=
  ∀ v : Int, 1 ≤ v ∧ v ≤ 6 → v ∈ [d.Top, d.Bottom, d.Front, d.Back, d.Left, d.Right]

/-! ## The random source

The process-global source of `math/rand` is modelled by the stream of its future raw
outcomes; every call consumes one outcome.  A call of `rand.Float64()` yields a value of
`[0,1)`, represented by the numerator `k` of `k / 2^53`; the code only compares it with
the thresholds `0.3`, `0.5` and `0.7`, taken as exact tenths, and both results of each
comparison are possible.  A call of `rand.Intn(n)` yields any value of `[0,n)`. -/

/-- The random source: the stream of raw outcomes still to come. -/
structure RandSource where
  draws : Nat → Nat

/-- Consume one raw outcome. -/
def RandSource.next (r : RandSource) : Nat × RandSource :=
  (r.draws 0, ⟨fun n => r.draws (n + 1)⟩)

/-- Library call `rand.Float64()`: the numerator `k < 2^53` of the result `k / 2^53`. -/
def Float64 (r : RandSource) : Nat × RandSource :=
  (r.next.1 % 2 ^ 53, r.next.2)

/-- Library call `rand.Intn(n)`: panics when `n ≤ 0`, else a value of `[0,n)`. -/
def Intn (n : Int) (r : RandSource) : Option (Int × RandSource) :=
  if n ≤ 0 then none else some ((r.next.1 : Int) % n, r.next.2)

/-- Comparison `f < num/10` for the `Float64` outcome `f = k / 2^53`. -/
def ltTenths (k : Nat) (num : Nat) : Bool :=
  decide (10 * k < num * 2 ^ 53)

/-- The random source whose raw outcomes are all `v`. -/
def constRand (v : Nat) : RandSource := ⟨fun _ => v⟩

namespace Simple

/-- Method `Die.Roll` of `src/main.go`, as a function from the old die to the new one. -/
def Roll (d : Die) (dir : Direction) : Die :=
  let d1 : Die :=
    if dir = Up then
      { d with Front := d.Bottom, Bottom := d.Back, Back := d.Top, Top := d.Front }
    else if dir = Down then
      { d with Back := d.Bottom, Bottom := d.Front, Front := d.Top, Top := d.Back }
    else if dir = Left then
      { d with Right := d.Bottom, Bottom := d.Left, Left := d.Top, Top := d.Right }
    else if dir = Right then
      { d with Left := d.Bottom, Bottom := d.Right, Right := d.Top, Top := d.Left }
    else d
  { d1 with CurrentTop := d1.Top }

/-- Constant `GridCols`. -/
def GridCols : Int := 12

/-- Constant `GridRows`. -/
def GridRows : Int := 8

/-- The struct `Level` of `src/main.go`. -/
structure Level where
  Player : Player
  Finish : FinishCell
  Walls : List (Int × Int)
  Won : Bool
deriving DecidableEq, Repr

/-- Function `NewLevel` of `src/main.go`: the fixed 12x8 level, the player at `(1,1)`,
the finish at `(GridCols-2, GridRows-2)` with a random target of `1..6`. -/
def NewLevel (rng : RandSource) : Option (Level × RandSource) :=
  match Intn 6 rng with
  | none => none
  | some rn =>
    some
      ({ Player := { X := 1, Y := 1, Die := NewDie }
         Finish := { X := GridCols - 2, Y := GridRows - 2, Number := rn.1 + 1 }
         Walls :=
           [(0, 0), (1, 0), (2, 0), (3, 0), (4, 0), (5, 0), (6, 0), (7, 0), (8, 0), (9, 0),
            (10, 0), (11, 0),
            (0, 7), (1, 7), (2, 7), (3, 7), (4, 7), (5, 7), (6, 7), (7, 7), (8, 7), (9, 7),
            (10, 7), (11, 7),
            (0, 1), (0, 2), (0, 3), (0, 4), (0, 5), (0, 6),
            (11, 1), (11, 2), (11, 3), (11, 4), (11, 5), (11, 6),
            (3, 2), (3, 3), (3, 4),
            (7, 4), (7, 5), (7, 6),
            (5, 1), (6, 1), (8, 1),
            (2, 5), (4, 5), (9, 5)]
         Won := false }, rn.2)

/-- Method `Level.IsWall`: linear search of the wall list. -/
def IsWall (l : Level) (x y : Int) : Bool :=
  l.Walls.any (fun wall => wall.1 == x && wall.2 == y)

/-- Method `Level.IsValidMove` of `src/main.go`. -/
def IsValidMove (l : Level) (x y : Int) : Bool :=
  if x < 0 || x ≥ GridCols || y < 0 || y ≥ GridRows then false
  else if IsWall l x y then false
  else true

/-- Method `Level.CheckWin` of `src/main.go`. -/
def CheckWin (l : Level) : Bool :=
  l.Player.X == l.Finish.X && l.Player.Y == l.Finish.Y
    && l.Player.Die.CurrentTop == l.Finish.Number

end Simple

/-! ## Generic loop combinators -/

/-- The values taken by `i` in `for i := lo; i < hi; i++`. -/
def intRange (lo hi : Int) : List Int :=
  (List.range (hi - lo).toNat).map (fun (k : Nat) => lo + (k : Int))

/-- The values taken by `i` in `for i := lo; i < hi; i += step`, for `step ≥ 1`;
`fuel` bounds the number of iterations. -/
def rangeStepAux (hi step : Int) : Nat → Int → List Int
  | 0, _ => []
  | n + 1, i => if i < hi then i :: rangeStepAux hi step n (i + step) else []

/-- The values taken by `i` in `for i := lo; i < hi; i += step`, for `step ≥ 1`. -/
def rangeStep (lo hi step : Int) : List Int :=
  rangeStepAux hi step (hi - lo).toNat lo

/-- Run a loop body that may panic over the successive values of the loop variable. -/
def forEach {α σ : Type} (body : α → σ → Option σ) : List α → σ → Option σ
  | [], s => some s
  | i :: rest, s =>
    match body i s with
    | none => none
    | some s1 => forEach body rest s1

/-- Go `int` multiplication: the product wraps around to 64-bit two's complement. -/
def wrapInt64 (n : Int) : Int :=
  (n + 2 ^ 63) % 2 ^ 64 - 2 ^ 63

namespace Maze

/-- Constant `WallDensity = 0.3`, in tenths. -/
def WallDensity : Nat := 3

/-! ## Data model of `src/game/main.go` -/

/-- The struct `Cell`. -/
structure Cell where
  X : Int
  Y : Int
  Visited : Bool
  IsWall : Bool
deriving DecidableEq, Repr

/-- The struct `LevelSize`. -/
structure LevelSize where
  Width : Int
  Height : Int
  MinWidth : Int
  MaxWidth : Int
  MinHeight : Int
  MaxHeight : Int
deriving DecidableEq, Repr

/-- The grid `[][]Cell`: a slice of rows. -/
abbrev Grid := List (List Cell)

/-- The struct `Level` of `src/game/main.go`. -/
structure Level where
  Player : Player
  Finish : FinishCell
  Cells : Grid
  Size : LevelSize
  Won : Bool
deriving DecidableEq, Repr

/-- Read `cells[y][x]`; `none` is the index-out-of-range panic. -/
def cellAt (cells : Grid) (x y : Int) : Option Cell :=
  if x < 0 ∨ y < 0 then none
  else
    match cells[y.toNat]? with
    | none => none
    | some row => row[x.toNat]?

/-- Assign to fields of `cells[y][x]`; `none` is the index-out-of-range panic. -/
def updateCell (cells : Grid) (x y : Int) (f : Cell → Cell) : Option Grid :=
  if x < 0 ∨ y < 0 then none
  else
    match cells[y.toNat]? with
    | none => none
    | some row =>
      match row[x.toNat]? with
      | none => none
      | some c => some (cells.set y.toNat (row.set x.toNat (f c)))

/-- Statement `l.Cells[y][x].IsWall = b`. -/
def setWall (l : Level) (x y : Int) (b : Bool) : Option Level :=
  match updateCell l.Cells x y (fun c => { c with IsWall := b }) with
  | none => none
  | some g => some { l with Cells := g }

/-- Statement `l.Cells[y][x].Visited = b`. -/
def setVisited (l : Level) (x y : Int) (b : Bool) : Option Level :=
  match updateCell l.Cells x y (fun c => { c with Visited := b }) with
  | none => none
  | some g => some { l with Cells := g }

/-- Method `Die.Roll` of `src/game/main.go`, as a function from the old die to the new one. -/
def Roll (d : Die) (dir : Direction) : Die :=
  let d1 : Die :=
    if dir = Up then
      { d with Back := d.Bottom, Bottom := d.Front, Front := d.Top, Top := d.Back }
    else if dir = Down then
      { d with Front := d.Bottom, Bottom := d.Back, Back := d.Top, Top := d.Front }
    else if dir = Left then
      { d with Right := d.Bottom, Bottom := d.Left, Left := d.Top, Top := d.Right }
    else if dir = Right then
      { d with Left := d.Bottom, Bottom := d.Right, Right := d.Top, Top := d.Left }
    else d
  { d1 with CurrentTop := d1.Top }

/-- Function `NewPlayer`. -/
def NewPlayer (x y : Int) : Player :=
  { X := x, Y := y, Die := NewDie }

/-- Method `Level.IsValidMove` of `src/game/main.go`; `none` is the panic of `l.Cells[y][x]`. -/
def IsValidMove (l : Level) (x y : Int) : Option Bool :=
  if x < 0 || x ≥ l.Size.Width || y < 0 || y ≥ l.Size.Height then some false
  else
    match cellAt l.Cells x y with
    | none => none
    | some c => if c.IsWall then some false else some true

/-- Method `Level.CheckWin` of `src/game/main.go`. -/
def CheckWin (l : Level) : Bool :=
  l.Player.X == l.Finish.X && l.Player.Y == l.Finish.Y
    && l.Player.Die.CurrentTop == l.Finish.Number

end Maze

namespace Maze

/-! ## Maze generation (`GenerateMaze` and its passes) -/

/-- The grid built by the first loop nest of `GenerateMaze`: row `y` holds at index `x`
the cell `Cell{X: x, Y: y, Visited: false, IsWall: false}`. -/
def freshGrid (W H : Int) : Grid :=
  (intRange 0 H).map (fun y =>
    (intRange 0 W).map (fun x =>
      ({ X := x, Y := y, Visited := false, IsWall := false } : Cell)))

/-- First loop nest of `GenerateMaze`: allocate `Height` rows of `Width` cells, all open
and unvisited.  `make` panics on a negative length. -/
def initCells (l : Level) : Option Level :=
  if l.Size.Height < 0 then none
  else if 0 < l.Size.Height ∧ l.Size.Width < 0 then none
  else some { l with Cells := freshGrid l.Size.Width l.Size.Height }

/-- Body of the loop over `x` that walls the top and the bottom row. -/
def outerWallsRowStep (x : Int) (l : Level) : Option Level :=
  match setWall l x 0 true with
  | none => none
  | some l1 => setWall l1 x (l1.Size.Height - 1) true

/-- Body of the loop over `y` that walls the left and the right column. -/
def outerWallsColStep (y : Int) (l : Level) : Option Level :=
  match setWall l 0 y true with
  | none => none
  | some l1 => setWall l1 (l1.Size.Width - 1) y true

/-- The two loops of `GenerateMaze` that add the outer walls. -/
def addOuterWalls (l : Level) : Option Level :=
  match forEach outerWallsRowStep (intRange 0 l.Size.Width) l with
  | none => none
  | some l1 => forEach outerWallsColStep (intRange 0 l1.Size.Height) l1

/-- Innermost statement of the lattice loops: with probability `WallDensity` wall `(x,y)`. -/
def seedWallStep (x y : Int) (s : Level × RandSource) : Option (Level × RandSource) :=
  let r := Float64 s.2
  if ltTenths r.1 WallDensity then
    match setWall s.1 x y true with
    | none => none
    | some l1 => some (l1, r.2)
  else some (s.1, r.2)

/-- Loop nest `for y := 2; y < Height-2; y += 3 { for x := 1; x < Width-1; x++ }`. -/
def seedRowWalls (s : Level × RandSource) : Option (Level × RandSource) :=
  forEach
    (fun y s1 => forEach (fun x s2 => seedWallStep x y s2) (intRange 1 (s1.1.Size.Width - 1)) s1)
    (rangeStep 2 (s.1.Size.Height - 2) 3) s

/-- Loop nest `for x := 2; x < Width-2; x += 3 { for y := 1; y < Height-1; y++ }`. -/
def seedColWalls (s : Level × RandSource) : Option (Level × RandSource) :=
  forEach
    (fun x s1 => forEach (fun y s2 => seedWallStep x y s2) (intRange 1 (s1.1.Size.Height - 1)) s1)
    (rangeStep 2 (s.1.Size.Width - 2) 3) s

/-- The seeding phase of `GenerateMaze`: everything before `createGuaranteedPath`. -/
def seedWalls (l : Level) (rng : RandSource) : Option (Level × RandSource) :=
  match initCells l with
  | none => none
  | some l1 =>
    match addOuterWalls l1 with
    | none => none
    | some l2 =>
      match seedRowWalls (l2, rng) with
      | none => none
      | some s3 => seedColWalls s3

/-- Inner loop `for dx := 0; dx < 2 && x+dx < Width; dx++ { Cells[y][x+dx].IsWall = false }`. -/
def carveRight (x y : Int) (l : Level) : Option Level :=
  forEach (fun dx l1 => setWall l1 (x + dx) y false)
    ((intRange 0 2).takeWhile (fun dx => decide (x + dx < l.Size.Width))) l

/-- Inner loop `for dy := 0; dy < 2 && y+dy < Height; dy++ { Cells[y+dy][x].IsWall = false }`. -/
def carveDown (x y : Int) (l : Level) : Option Level :=
  forEach (fun dy l1 => setWall l1 x (y + dy) false)
    ((intRange 0 2).takeWhile (fun dy => decide (y + dy < l.Size.Height))) l

/-- The `for x < targetX || y < targetY` loop of `createGuaranteedPath`, from the
position `(x,y)`; `none` when the fuel runs out before the loop condition fails
(or on a panic).  The random number is drawn only when both coordinates are short
of the target (short-circuit evaluation). -/
def guaranteedPathLoop : Nat → Int → Int → Level → RandSource → Option (Level × RandSource)
  | 0, x, y, l, rng =>
    if x < l.Finish.X ∨ y < l.Finish.Y then none else some (l, rng)
  | n + 1, x, y, l, rng =>
    if x < l.Finish.X ∨ y < l.Finish.Y then
      let draw : Bool × RandSource :=
        if x < l.Finish.X then
          if y ≥ l.Finish.Y then (true, rng)
          else (ltTenths (Float64 rng).1 5, (Float64 rng).2)
        else (false, rng)
      if draw.1 then
        match carveRight x y l with
        | none => none
        | some l1 => guaranteedPathLoop n (x + 1) y l1 draw.2
      else if y < l.Finish.Y then
        match carveDown x y l with
        | none => none
        | some l1 => guaranteedPathLoop n x (y + 1) l1 draw.2
      else guaranteedPathLoop n x y l draw.2
    else some (l, rng)

/-- Method `Level.createGuaranteedPath`.  Every iteration advances `x` or `y` by one
towards the target, so `Finish.X + Finish.Y` iterations are enough. -/
def createGuaranteedPath (l : Level) (rng : RandSource) : Option (Level × RandSource) :=
  guaranteedPathLoop (l.Finish.X.toNat + l.Finish.Y.toNat) 0 0 l rng

/-- Innermost body of `connectIsolatedAreas` for the centre `(x,y)` and offset `(dx,dy)`. -/
def crossStep (x y dy dx : Int) (s : Level × RandSource) : Option (Level × RandSource) :=
  if dx = 0 ∨ dy = 0 then
    let nx := x + dx
    let ny := y + dy
    if nx ≥ 0 ∧ nx < s.1.Size.Width ∧ ny ≥ 0 ∧ ny < s.1.Size.Height then
      let r := Float64 s.2
      if ltTenths r.1 5 then
        match setWall s.1 nx ny false with
        | none => none
        | some l1 => some (l1, r.2)
      else some (s.1, r.2)
    else some s
  else some s

/-- One iteration of the outer loop of `connectIsolatedAreas`. -/
def connectStep (_i : Int) (s : Level × RandSource) : Option (Level × RandSource) :=
  match Intn (s.1.Size.Width - 2) s.2 with
  | none => none
  | some rx =>
    match Intn (s.1.Size.Height - 2) rx.2 with
    | none => none
    | some ry =>
      forEach
        (fun dy s1 => forEach (fun dx s2 => crossStep (rx.1 + 1) (ry.1 + 1) dy dx s2)
          (intRange (-1) 2) s1)
        (intRange (-1) 2) (s.1, ry.2)

/-- Method `Level.connectIsolatedAreas`; `/` is Go's truncating division. -/
def connectIsolatedAreas (l : Level) (rng : RandSource) : Option (Level × RandSource) :=
  forEach connectStep
    (intRange 0 ((wrapInt64 (l.Size.Width * l.Size.Height)).tdiv 10)) (l, rng)

/-- Innermost body of the first loop nest of `createOpenSpace2x2`. -/
def openBlockStep (x y dy dx : Int) (l : Level) : Option Level :=
  if y + dy < l.Size.Height ∧ x + dx < l.Size.Width then setWall l (x + dx) (y + dy) false
  else some l

/-- Innermost body of the second loop nest of `createOpenSpace2x2`. -/
def openRingStep (x y dy dx : Int) (s : Level × RandSource) : Option (Level × RandSource) :=
  let nx := x + dx
  let ny := y + dy
  if nx ≥ 0 ∧ nx < s.1.Size.Width ∧ ny ≥ 0 ∧ ny < s.1.Size.Height then
    if dx = -1 ∨ dx = 2 ∨ dy = -1 ∨ dy = 2 then
      let r := Float64 s.2
      if ltTenths r.1 7 then
        match setWall s.1 nx ny false with
        | none => none
        | some l1 => some (l1, r.2)
      else some (s.1, r.2)
    else some s
  else some s

/-- Method `Level.createOpenSpace2x2`. -/
def createOpenSpace2x2 (l : Level) (rng : RandSource) : Option (Level × RandSource) :=
  match Intn (l.Size.Width - 4) rng with
  | none => none
  | some rx =>
    match Intn (l.Size.Height - 4) rx.2 with
    | none => none
    | some ry =>
      match forEach
          (fun dy l1 => forEach (fun dx l2 => openBlockStep (rx.1 + 2) (ry.1 + 2) dy dx l2)
            (intRange 0 2) l1)
          (intRange 0 2) l with
      | none => none
      | some l1 =>
        forEach
          (fun dy s1 => forEach (fun dx s2 => openRingStep (rx.1 + 2) (ry.1 + 2) dy dx s2)
            (intRange (-1) 3) s1)
          (intRange (-1) 3) (l1, ry.2)

/-- The last two statements of `GenerateMaze` and of `NewLevel`: reopen start and finish. -/
def openStartFinish (l : Level) : Option Level :=
  match setWall l 0 0 false with
  | none => none
  | some l1 => setWall l1 l1.Finish.X l1.Finish.Y false

/-- Method `Level.GenerateMaze`. -/
def GenerateMaze (l : Level) (rng : RandSource) : Option (Level × RandSource) :=
  match seedWalls l rng with
  | none => none
  | some s1 =>
    match createGuaranteedPath s1.1 s1.2 with
    | none => none
    | some s2 =>
      match connectIsolatedAreas s2.1 s2.2 with
      | none => none
      | some s3 =>
        match createOpenSpace2x2 s3.1 s3.2 with
        | none => none
        | some s4 =>
          match openStartFinish s4.1 with
          | none => none
          | some l5 => some (l5, s4.2)

/-! ## Connectivity repair (`EnsureConnectivity`) -/

/-- First loop nest of `EnsureConnectivity`: mark every cell unvisited. -/
def resetVisited (l : Level) : Option Level :=
  forEach
    (fun y l1 => forEach (fun x l2 => setVisited l2 x y false) (intRange 0 l1.Size.Width) l1)
    (intRange 0 l.Size.Height) l

/-- The slice `directions` of the search loop. -/
def directions : List (Int × Int) := [(0, -1), (0, 1), (-1, 0), (1, 0)]

/-- Body of `for _, dir := range directions` for the dequeued cell `cur`; the state is
the level together with the queue. -/
def visitNeighbor (cur : Int × Int) (dir : Int × Int) (s : Level × List (Int × Int)) :
    Option (Level × List (Int × Int)) :=
  let nx := cur.1 + dir.1
  let ny := cur.2 + dir.2
  if nx ≥ 0 ∧ nx < s.1.Size.Width ∧ ny ≥ 0 ∧ ny < s.1.Size.Height then
    match cellAt s.1.Cells nx ny with
    | none => none
    | some c =>
      if !c.IsWall && !c.Visited then
        match setVisited s.1 nx ny true with
        | none => none
        | some l1 => some (l1, s.2 ++ [(nx, ny)])
      else some s
  else some s

/-- The loop `for len(queue) > 0` of `EnsureConnectivity`; `none` when the fuel runs out
with a non-empty queue (or on a panic). -/
def searchLoop : Nat → Level → List (Int × Int) → Option Level
  | _, l, [] => some l
  | 0, _, _ :: _ => none
  | n + 1, l, cur :: rest =>
    match forEach (visitNeighbor cur) directions (l, rest) with
    | none => none
    | some s => searchLoop n s.1 s.2

/-- Method `Level.createDirectPathToFinish`. -/
def createDirectPathToFinish (l : Level) : Option Level :=
  match forEach (fun x l1 => setWall l1 x 0 false) (intRange 0 l.Size.Width) l with
  | none => none
  | some l1 =>
    forEach (fun y l2 => setWall l2 (l2.Size.Width - 1) y false) (intRange 0 l1.Size.Height) l1

/-- Number of cells of the grid. -/
def cellCount (cells : Grid) : Nat :=
  (cells.map List.length).sum

/-- The search of `EnsureConnectivity`, up to the end of the loop `for len(queue) > 0`:
reset the visited flags, mark the start cell and run the loop from the queue `[(0,0)]`.
Every cell enters the queue at most once, so the loop runs at most once per cell of the
grid, plus once for the start cell. -/
def searchFromStart (l : Level) : Option Level :=
  match resetVisited l with
  | none => none
  | some l1 =>
    match setVisited l1 0 0 true with
    | none => none
    | some l2 => searchLoop (cellCount l2.Cells + 1) l2 [(0, 0)]

/-- Method `Level.EnsureConnectivity`: the search, then the fallback corridor when the
finish cell was not reached. -/
def EnsureConnectivity (l : Level) : Option Level :=
  match searchFromStart l with
  | none => none
  | some l3 =>
    match cellAt l3.Cells l3.Finish.X l3.Finish.Y with
    | none => none
    | some c => if !c.Visited then createDirectPathToFinish l3 else some l3

/-- The first statements of `NewLevel`: the zero `Level{}` with `Size`, the player at
`(0,0)` and the finish in the bottom-right corner with target `number`; no grid yet. -/
def blankLevel (size : LevelSize) (number : Int) : Level :=
  { Player := NewPlayer 0 0
    Finish := { X := size.Width - 1, Y := size.Height - 1, Number := number }
    Cells := []
    Size := size
    Won := false }

/-- Function `NewLevel` of `src/game/main.go`. -/
def NewLevel (size : LevelSize) (rng : RandSource) : Option (Level × RandSource) :=
  match Intn 6 rng with
  | none => none
  | some rn =>
    match GenerateMaze (blankLevel size (rn.1 + 1)) rn.2 with
    | none => none
    | some s1 =>
      match EnsureConnectivity s1.1 with
      | none => none
      | some l2 =>
        match openStartFinish l2 with
        | none => none
        | some l3 => some ({ l3 with Won := false }, s1.2)

/-! ## Predicates used in the statements -/

/-- The cell `(x,y)` exists and is not a wall. -/
def isOpen (cells : Grid) (x y : Int) : Bool :=
  match cellAt cells x y with
  | some c => !c.IsWall
  | none => false

/-- The cell `(x,y)` exists and is a wall. -/
def isWallAt (cells : Grid) (x y : Int) : Bool :=
  match cellAt cells x y with
  | some c => c.IsWall
  | none => false

/-- The cell `(x,y)` exists and is marked visited. -/
def isVisited (cells : Grid) (x y : Int) : Bool :=
  match cellAt cells x y with
  | some c => c.Visited
  | none => false

/-- Two cells are 4-adjacent. -/
def adjacent (p q : Int × Int) : Bool :=
  (p.1 == q.1 && (p.2 == q.2 + 1 || q.2 == p.2 + 1))
    || (p.2 == q.2 && (p.1 == q.1 + 1 || q.1 == p.1 + 1))

/-- The cells `a :: rest` form a path of 4-adjacent non-wall cells that ends in `b`. -/
def validPath (cells : Grid) : Int × Int → List (Int × Int) → Int × Int → Bool
  | a, [], b => a == b && isOpen cells a.1 a.2
  | a, p :: rest, b => isOpen cells a.1 a.2 && adjacent a p && validPath cells p rest b

/-- There is a path of 4-adjacent non-wall cells from `a` to `b`. -/
def Connected (cells : Grid) (a b : Int × Int) : Prop :=
  ∃ rest, validPath cells a rest b = true

/-- The grid has `H` rows of `W` cells. -/
def RowsCols (cells : Grid) (W H : Int) : Prop :=
  (cells.length : Int) = H ∧ ∀ row ∈ cells, (row.length : Int) = W

/-- A level size with the bounds set in `main`. -/
def presetSize (w h : Int) : LevelSize :=
  { Width := w, Height := h, MinWidth := 5, MaxWidth := 50, MinHeight := 5, MaxHeight := 40 }

/-- A 2x1 level whose left cell is open and whose right cell is a wall. -/
def twoCellLevel : Level :=
  { Player := NewPlayer 0 0
    Finish := { X := 1, Y := 0, Number := 1 }
    Cells := [[{ X := 0, Y := 0, Visited := false, IsWall := false },
               { X := 1, Y := 0, Visited := false, IsWall := true }]]
    Size := presetSize 2 1
    Won := false }

/-- The coordinate `(x,y)` lies inside `[0,W) x [0,H)`. -/
def InGrid (W H x y : Int) : Prop :=
  0 ≤ x ∧ x < W ∧ 0 ≤ y ∧ y < H

/-- The coordinate `(x,y)` lies on the outer border of a `W x H` grid. -/
def OnBorder (W H x y : Int) : Prop :=
  InGrid W H x y ∧ (x = 0 ∨ x = W - 1 ∨ y = 0 ∨ y = H - 1)

/-- Indexing `cells[y][x]` succeeds exactly inside `[0,W) x [0,H)`. -/
def Dims (cells : Grid) (W H : Int) : Prop :=
  ∀ x y, (cellAt cells x y).isSome = true ↔ InGrid W H x y

/-- The grid of the level has the dimensions recorded in `Size`. -/
def WellFormed (l : Level) : Prop :=
  Dims l.Cells l.Size.Width l.Size.Height

/-- The two levels agree on every field other than `Cells`. -/
def SameFrame (l l1 : Level) : Prop :=
  l1.Size = l.Size ∧ l1.Finish = l.Finish ∧ l1.Player = l.Player ∧ l1.Won = l.Won

/-- Every cell that is non-wall in `g` is non-wall in `g1`. -/
def OpenMono (g g1 : Grid) : Prop :=
  ∀ x y, isOpen g x y = true → isOpen g1 x y = true

/-- Every cell that is a wall in `g` is a wall in `g1`. -/
def WallMono (g g1 : Grid) : Prop :=
  ∀ x y, isWallAt g x y = true → isWallAt g1 x y = true

/-- The level `l1` is `l` with some walls cleared: same frame, a well-formed grid, and
no cell turned into a wall. -/
def Carves (l l1 : Level) : Prop :=
  SameFrame l l1 ∧ WellFormed l1 ∧ OpenMono l.Cells l1.Cells

/-- Number of cells of the grid that are neither wall nor visited. -/
def unvisitedOpen (cells : Grid) : Nat :=
  (cells.map (fun row => row.countP (fun c => !c.IsWall && !c.Visited))).sum

/-- The level `l1` is `l` with some walls added: same frame, a well-formed grid, and no
wall cleared. -/
def Seeds (l l1 : Level) : Prop :=
  SameFrame l l1 ∧ WellFormed l1 ∧ WallMono l.Cells l1.Cells

/-- The level `l1` is `l` with some visited flags cleared: no wall flag changed and no
cell newly marked. -/
def Unmarks (l l1 : Level) : Prop :=
  Carves l l1 ∧ (∀ x y, isOpen l1.Cells x y = isOpen l.Cells x y) ∧
    ∀ x y, isVisited l1.Cells x y = true → isVisited l.Cells x y = true

/-- Progress of the search from the level `l` and queue `q` to `l1` and `q1`: no wall
flag changed, marks are kept, every newly marked cell is in the queue, and the queue
only grew. -/
def SearchStep (l : Level) (q : List (Int × Int)) (l1 : Level) (q1 : List (Int × Int)) :
    Prop :=
  Carves l l1 ∧ (∀ x y, isOpen l1.Cells x y = isOpen l.Cells x y) ∧
    (∀ x y, isVisited l.Cells x y = true → isVisited l1.Cells x y = true) ∧
    (∀ x y, isVisited l1.Cells x y = true → isVisited l.Cells x y = true ∨ (x, y) ∈ q1) ∧
    ∀ p ∈ q, p ∈ q1

/-- Every marked cell outside the queue has all its open neighbours marked. -/
def SearchClosed (l : Level) (q : List (Int × Int)) : Prop :=
  ∀ x y, isVisited l.Cells x y = true → (x, y) ∉ q →
    ∀ d ∈ directions, isOpen l.Cells (x + d.1) (y + d.2) = true →
      isVisited l.Cells (x + d.1) (y + d.2) = true

end Maze

/-! ## Input handling (`HandleInput`)

The external call `rl.IsKeyPressed(k)` is a read of the input state of the current
frame; a frame is modelled by the function that gives its answer for every key. -/

/-- The keys that the two `HandleInput` functions poll. -/
inductive Key where
  | KeyOne | KeyTwo | KeyThree | KeyFour | KeyFive | KeySix | KeySeven | KeyEight | KeyNine
  | KeyQ | KeyW | KeyE | KeyT | KeyY | KeyU | KeyI | KeyR
  | KeyUp | KeyS | KeyDown | KeyA | KeyLeft | KeyD | KeyRight
deriving DecidableEq, Repr

/-- The answers of `rl.IsKeyPressed` during one frame. -/
abbrev Keys := Key → Bool

/-- The frame in which exactly the keys of the list are pressed. -/
def pressedKeys (ks : List Key) : Keys :=
  fun k => decide (k ∈ ks)

/-- The frame asks for a move in the direction `dir`: one of the two keys that
`HandleInput` polls for it is pressed. -/
def wantsMove (keys : Keys) (dir : Direction) : Bool :=
  if dir = Up then keys Key.KeyW || keys Key.KeyUp
  else if dir = Down then keys Key.KeyS || keys Key.KeyDown
  else if dir = Left then keys Key.KeyA || keys Key.KeyLeft
  else if dir = Right then keys Key.KeyD || keys Key.KeyRight
  else false

/-- The frame asks for a move in the named direction `dir` and in no other direction. -/
def OnlyMove (keys : Keys) (dir : Direction) : Prop :=
  IsNamedDirection dir ∧ ∀ d, IsNamedDirection d → (wantsMove keys d = true ↔ d = dir)

/-- The offsets `(dx, dy)` that `HandleInput` passes to `Move` for each direction. -/
def moveOffset (dir : Direction) : Int × Int :=
  if dir = Up then (0, -1)
  else if dir = Down then (0, 1)
  else if dir = Left then (-1, 0)
  else if dir = Right then (1, 0)
  else (0, 0)

namespace Simple

/-- Method `Player.Move` of `src/main.go`. -/
def Move (p : Player) (dx dy : Int) (dir : Direction) : Player :=
  { X := p.X + dx, Y := p.Y + dy, Die := Roll p.Die dir }

/-- The block of `HandleInput` for the keys W / Up. -/
def moveUp (keys : Keys) (l : Level) : Level :=
  if keys Key.KeyW || keys Key.KeyUp then
    if IsValidMove l l.Player.X (l.Player.Y - 1) then { l with Player := Move l.Player 0 (-1) Up }
    else l
  else l

/-- The block of `HandleInput` for the keys S / Down. -/
def moveDown (keys : Keys) (l : Level) : Level :=
  if keys Key.KeyS || keys Key.KeyDown then
    if IsValidMove l l.Player.X (l.Player.Y + 1) then { l with Player := Move l.Player 0 1 Down }
    else l
  else l

/-- The block of `HandleInput` for the keys A / Left. -/
def moveLeft (keys : Keys) (l : Level) : Level :=
  if keys Key.KeyA || keys Key.KeyLeft then
    if IsValidMove l (l.Player.X - 1) l.Player.Y then { l with Player := Move l.Player (-1) 0 Left }
    else l
  else l

/-- The block of `HandleInput` for the keys D / Right. -/
def moveRight (keys : Keys) (l : Level) : Level :=
  if keys Key.KeyD || keys Key.KeyRight then
    if IsValidMove l (l.Player.X + 1) l.Player.Y then { l with Player := Move l.Player 1 0 Right }
    else l
  else l

/-- The four movement blocks of `HandleInput`, in the order of the source. -/
def movePhase (keys : Keys) (l : Level) : Level :=
  moveRight keys (moveLeft keys (moveDown keys (moveUp keys l)))

/-- Function `HandleInput` of `src/main.go`. -/
def HandleInput (keys : Keys) (l : Level) (rng : RandSource) : Option (Level × RandSource) :=
  if l.Won then
    if keys Key.KeyR then NewLevel rng else some (l, rng)
  else some (movePhase keys l, rng)

end Simple

namespace Maze

/-- Constant `ScreenWidth`. -/
def ScreenWidth : Int := 1200

/-- Constant `ScreenHeight`. -/
def ScreenHeight : Int := 800

/-- Constant `GridSize`. -/
def GridSize : Int := 40

/-- The variables of `main` that `HandleInput` receives by pointer. -/
structure Game where
  level : Level
  gridSize : Int
  offsetX : Int
  offsetY : Int
  currentSize : LevelSize
deriving DecidableEq, Repr

/-- Method `Player.Move` of `src/game/main.go`. -/
def Move (p : Player) (dx dy : Int) (dir : Direction) : Player :=
  { X := p.X + dx, Y := p.Y + dy, Die := Roll p.Die dir }

/-- The size-selection blocks of `HandleInput`: keys 1..9 set the width, keys Q, W, E, T,
Y, U, I the height, a later block overriding an earlier one. -/
def sizeKeys (keys : Keys) (size : LevelSize) : LevelSize :=
  let s1 := if keys Key.KeyOne then { size with Width := 10 } else size
  let s2 := if keys Key.KeyTwo then { s1 with Width := 12 } else s1
  let s3 := if keys Key.KeyThree then { s2 with Width := 15 } else s2
  let s4 := if keys Key.KeyFour then { s3 with Width := 18 } else s3
  let s5 := if keys Key.KeyFive then { s4 with Width := 20 } else s4
  let s6 := if keys Key.KeySix then { s5 with Width := 25 } else s5
  let s7 := if keys Key.KeySeven then { s6 with Width := 30 } else s6
  let s8 := if keys Key.KeyEight then { s7 with Width := 35 } else s7
  let s9 := if keys Key.KeyNine then { s8 with Width := 40 } else s8
  let h1 := if keys Key.KeyQ then { s9 with Height := 8 } else s9
  let h2 := if keys Key.KeyW then { h1 with Height := 10 } else h1
  let h3 := if keys Key.KeyE then { h2 with Height := 12 } else h2
  let h4 := if keys Key.KeyT then { h3 with Height := 15 } else h3
  let h5 := if keys Key.KeyY then { h4 with Height := 18 } else h4
  let h6 := if keys Key.KeyU then { h5 with Height := 20 } else h5
  if keys Key.KeyI then { h6 with Height := 25 } else h6

/-- The block of `HandleInput` for the keys W / Up; `none` is the panic of `IsValidMove`. -/
def moveUp (keys : Keys) (l : Level) : Option Level :=
  if keys Key.KeyW || keys Key.KeyUp then
    match IsValidMove l l.Player.X (l.Player.Y - 1) with
    | none => none
    | some ok => if ok then some { l with Player := Move l.Player 0 (-1) Up } else some l
  else some l

/-- The block of `HandleInput` for the keys S / Down. -/
def moveDown (keys : Keys) (l : Level) : Option Level :=
  if keys Key.KeyS || keys Key.KeyDown then
    match IsValidMove l l.Player.X (l.Player.Y + 1) with
    | none => none
    | some ok => if ok then some { l with Player := Move l.Player 0 1 Down } else some l
  else some l

/-- The block of `HandleInput` for the keys A / Left. -/
def moveLeft (keys : Keys) (l : Level) : Option Level :=
  if keys Key.KeyA || keys Key.KeyLeft then
    match IsValidMove l (l.Player.X - 1) l.Player.Y with
    | none => none
    | some ok => if ok then some { l with Player := Move l.Player (-1) 0 Left } else some l
  else some l

/-- The block of `HandleInput` for the keys D / Right. -/
def moveRight (keys : Keys) (l : Level) : Option Level :=
  if keys Key.KeyD || keys Key.KeyRight then
    match IsValidMove l (l.Player.X + 1) l.Player.Y with
    | none => none
    | some ok => if ok then some { l with Player := Move l.Player 1 0 Right } else some l
  else some l

/-- The four movement blocks of `HandleInput`, in the order of the source. -/
def movePhase (keys : Keys) (l : Level) : Option Level :=
  match moveUp keys l with
  | none => none
  | some l1 =>
    match moveDown keys l1 with
    | none => none
    | some l2 =>
      match moveLeft keys l2 with
      | none => none
      | some l3 => moveRight keys l3

/-- The last block of `HandleInput`: latch `Won` when `CheckWin` holds. -/
def latchWin (l : Level) : Level :=
  if CheckWin l then { l with Won := true } else l

/-- Function `HandleInput` of `src/game/main.go`; `/` is Go's truncating division. -/
def HandleInput (keys : Keys) (g : Game) (rng : RandSource) : Option (Game × RandSource) :=
  let size := sizeKeys keys g.currentSize
  if keys Key.KeyR then
    match NewLevel size rng with
    | none => none
    | some s =>
      some ({ level := s.1
              gridSize := GridSize
              offsetX := (ScreenWidth - size.Width * GridSize).tdiv 2
              offsetY := (ScreenHeight - size.Height * GridSize).tdiv 2
              currentSize := size }, s.2)
  else if g.level.Won then some ({ g with currentSize := size }, rng)
  else
    match movePhase keys g.level with
    | none => none
    | some m => some ({ g with currentSize := size, level := latchWin m }, rng)

/-- A 2x2 level without walls, the finish at `(1,1)` with target 2, the player at `(1,0)`
with the die of `NewDie`. -/
def openSquareLevel : Level :=
  { Player := NewPlayer 1 0
    Finish := { X := 1, Y := 1, Number := 2 }
    Cells := freshGrid 2 2
    Size := presetSize 2 2
    Won := false }

/-- The level of size `w x h` with the grid of the allocation loops of `GenerateMaze`: no
walls, the finish in the bottom-right corner with target 1. -/
def freshLevel (w h : Int) : Level :=
  { blankLevel (presetSize w h) 1 with Cells := freshGrid w h }

/-- The search of `EnsureConnectivity` reaches `b`: it marks the start `(0,0)` whether or
not it is a wall, so `b` is the start, or a path of non-wall cells joins a neighbour of
the start to `b`. -/
def ReachedFromStart (cells : Grid) (b : Int × Int) : Prop :=
  b = (0, 0) ∨ ∃ n, adjacent (0, 0) n = true ∧ Connected cells n b

/-- The cell `(x,y)` lies on the fallback corridor of `createDirectPathToFinish`: the top
row or the right column. -/
def OnCorridor (W H x y : Int) : Prop :=
  InGrid W H x y ∧ (y = 0 ∨ x = W - 1)

/-- Soundness invariant of the search over the walls `g0`: the walls are those of `g0`,
every queued cell is marked, and every marked cell is reached from the start. -/
def SearchSound (g0 : Grid) (l : Level) (q : List (Int × Int)) : Prop :=
  WellFormed l ∧ (∀ x y, isOpen l.Cells x y = isOpen g0 x y) ∧
    (∀ p ∈ q, isVisited l.Cells p.1 p.2 = true) ∧
    ∀ x y, isVisited l.Cells x y = true → ReachedFromStart g0 (x, y)

/-- A 2x2 level whose start cell `(0,0)` is a wall and whose other cells are open; the
finish is `(1,1)`. -/
def wallStartLevel : Level :=
  { Player := NewPlayer 0 0
    Finish := { X := 1, Y := 1, Number := 1 }
    Cells := [[{ X := 0, Y := 0, Visited := false, IsWall := true },
               { X := 1, Y := 0, Visited := false, IsWall := false }],
              [{ X := 0, Y := 1, Visited := false, IsWall := false },
               { X := 1, Y := 1, Visited := false, IsWall := false }]]
    Size := presetSize 2 2
    Won := false }

/-- A 3x3 level whose middle row is all wall and whose other cells are open; the finish
is `(2,2)`. -/
def blockedLevel : Level :=
  { Player := NewPlayer 0 0
    Finish := { X := 2, Y := 2, Number := 1 }
    Cells := [[{ X := 0, Y := 0, Visited := false, IsWall := false },
               { X := 1, Y := 0, Visited := false, IsWall := false },
               { X := 2, Y := 0, Visited := false, IsWall := false }],
              [{ X := 0, Y := 1, Visited := false, IsWall := true },
               { X := 1, Y := 1, Visited := false, IsWall := true },
               { X := 2, Y := 1, Visited := false, IsWall := true }],
              [{ X := 0, Y := 2, Visited := false, IsWall := false },
               { X := 1, Y := 2, Visited := false, IsWall := false },
               { X := 2, Y := 2, Visited := false, IsWall := false }]]
    Size := presetSize 3 3
    Won := false }

/-- The variables of `main` around the level `l`, at the start values of `main`. -/
def gameOf (l : Level) : Game :=
  { level := l
    gridSize := GridSize
    offsetX := (ScreenWidth - 15 * GridSize).tdiv 2
    offsetY := (ScreenHeight - 10 * GridSize).tdiv 2
    currentSize := presetSize 15 10 }

end Maze

/-! ## Playing a sequence of moves in the simple variant -/

namespace Simple

/-- One move in the direction `dir`, as in the movement blocks of `HandleInput`: when
`IsValidMove` accepts the cell next to the player, `Player.Move` is called with the offset
of `dir`; `none` when `IsValidMove` rejects the cell. -/
def tryMove (l : Level) (dir : Direction) : Option Level :=
  if IsValidMove l (l.Player.X + (moveOffset dir).1) (l.Player.Y + (moveOffset dir).2) then
    some { l with Player := Move l.Player (moveOffset dir).1 (moveOffset dir).2 dir }
  else none

/-- The level after the successive moves `dirs`; `none` when one of them is rejected. -/
def play : List Direction → Level → Option Level
  | [], l => some l
  | dir :: rest, l =>
    match tryMove l dir with
    | none => none
    | some l1 => play rest l1

/-- The moves `dirs` are all accepted and lead to a level in which `CheckWin` holds. -/
def winsBy (dirs : List Direction) (l : Level) : Bool :=
  match play dirs l with
  | none => false
  | some t => CheckWin t

/-- A sequence of moves that wins the fixed level for the target `n` of `1..6`: each
leads from `(1,1)` to the finish `(10,6)` in fourteen moves to the right and down. -/
def winningMoves (n : Int) : List Direction :=
  if n = 1 then
    [Right, Right, Right, Down, Right, Down, Right,
      Right, Right, Right, Right, Down, Down, Down]
  else if n = 2 then
    [Right, Right, Right, Down, Down, Right, Right,
      Right, Right, Down, Down, Down, Right, Right]
  else if n = 3 then
    [Right, Right, Right, Down, Down, Right, Right,
      Right, Right, Right, Down, Right, Down, Down]
  else if n = 4 then
    [Right, Right, Right, Down, Right, Right, Down,
      Right, Right, Right, Down, Right, Down, Down]
  else if n = 5 then
    [Right, Right, Right, Down, Down, Right, Right,
      Right, Right, Right, Right, Down, Down, Down]
  else
    [Right, Right, Right, Down, Right, Down, Right,
      Right, Right, Down, Down, Down, Right, Right]

end Simple

/-! ## The walk of `createGuaranteedPath` -/

namespace Maze

/-- The loop of `createGuaranteedPath` from the position `(x,y)`, as `guaranteedPathLoop`,
with two ghost results that the code does not compute: the number of iterations that the
loop runs from `(x,y)` on, and the successive positions `(x,y)` of the walk, from the
current one to the one at which the loop ends. -/
def guaranteedPathTrace :
    Nat → Int → Int → Level → RandSource → Option ((Level × RandSource) × Nat × List (Int × Int))
  | 0, x, y, l, rng =>
    if x < l.Finish.X ∨ y < l.Finish.Y then none else some ((l, rng), 0, [(x, y)])
  | n + 1, x, y, l, rng =>
    if x < l.Finish.X ∨ y < l.Finish.Y then
      let draw : Bool × RandSource :=
        if x < l.Finish.X then
          if y ≥ l.Finish.Y then (true, rng)
          else (ltTenths (Float64 rng).1 5, (Float64 rng).2)
        else (false, rng)
      if draw.1 then
        match carveRight x y l with
        | none => none
        | some l1 =>
          (guaranteedPathTrace n (x + 1) y l1 draw.2).map
            (fun r => (r.1, r.2.1 + 1, (x, y) :: r.2.2))
      else if y < l.Finish.Y then
        match carveDown x y l with
        | none => none
        | some l1 =>
          (guaranteedPathTrace n x (y + 1) l1 draw.2).map
            (fun r => (r.1, r.2.1 + 1, (x, y) :: r.2.2))
      else (guaranteedPathTrace n x y l draw.2).map (fun r => (r.1, r.2.1 + 1, r.2.2))
    else some ((l, rng), 0, [(x, y)])

/-- One step of the walk: one cell to the right or one cell down. -/
def walkStep (p q : Int × Int) : Prop :=
  (q.1 = p.1 + 1 ∧ q.2 = p.2) ∨ (q.1 = p.1 ∧ q.2 = p.2 + 1)

instance (p q : Int × Int) : Decidable (walkStep p q) := by
  unfold walkStep; infer_instance

/-- A 1x1 level whose only cell, the start and the finish `(0,0)`, is a wall. -/
def wallCellLevel : Level :=
  { Player := NewPlayer 0 0
    Finish := { X := 0, Y := 0, Number := 1 }
    Cells := [[{ X := 0, Y := 0, Visited := false, IsWall := true }]]
    Size := presetSize 1 1
    Won := false }

end Maze

/-! ## The frames of the main loop -/

/-- The keys that the movement blocks of `HandleInput` poll. -/
def movementKeys : List Key :=
  [Key.KeyW, Key.KeyUp, Key.KeyS, Key.KeyDown, Key.KeyA, Key.KeyLeft, Key.KeyD, Key.KeyRight]

/-- In the frame no key other than a movement key is pressed. -/
def MovementOnly (keys : Keys) : Prop :=
  ∀ k, keys k = true → k ∈ movementKeys

namespace Simple

/-- The update part of one iteration of the loop of `main` in `src/main.go`: the call of
`HandleInput`, then the statement `if !level.Won && level.CheckWin() { level.Won = true }`. -/
def mainStep (keys : Keys) (s : Level × RandSource) : Option (Level × RandSource) :=
  match HandleInput keys s.1 s.2 with
  | none => none
  | some t => some (if !t.1.Won && CheckWin t.1 then { t.1 with Won := true } else t.1, t.2)

/-- The successive iterations of the loop of `main`, one for each frame of the list. -/
def runFrames (frames : List Keys) (s : Level × RandSource) : Option (Level × RandSource) :=
  forEach mainStep frames s

/-- The player stands inside the grid on a cell that is not a wall, and `IsValidMove`
accepts the position of the player. -/
def PlayerOnFloor (l : Level) : Prop :=
  0 ≤ l.Player.X ∧ l.Player.X < GridCols ∧ 0 ≤ l.Player.Y ∧ l.Player.Y < GridRows ∧
    IsWall l l.Player.X l.Player.Y = false ∧ IsValidMove l l.Player.X l.Player.Y = true

end Simple

namespace Maze

/-- The successive iterations of the loop of `main` in `src/game/main.go`, one call of
`HandleInput` for each frame of the list. -/
def runFrames (frames : List Keys) (s : Game × RandSource) : Option (Game × RandSource) :=
  forEach (fun keys t => HandleInput keys t.1 t.2) frames s

/-- The player stands inside the grid on a cell that is not a wall, and `IsValidMove`
accepts the position of the player. -/
def PlayerOnFloor (l : Level) : Prop :=
  InGrid l.Size.Width l.Size.Height l.Player.X l.Player.Y ∧
    isOpen l.Cells l.Player.X l.Player.Y = true ∧
    isWallAt l.Cells l.Player.X l.Player.Y = false ∧
    IsValidMove l l.Player.X l.Player.Y = some true

end Maze

/-! # Theorems

## The die -/

/-- C1: in both variants, for each of the four named directions, a roll of a die whose
opposite faces sum to seven gives a die whose opposite faces sum to seven. -/
theorem Roll_preserves_opposite_sum (d : Die) (dir : Direction)
    (hdir : IsNamedDirection dir) (h : OppositeSum7 d) :
    OppositeSum7 (Maze.Roll d dir) ∧ OppositeSum7 (Simple.Roll d dir) := by
  obtain ⟨h1, h2, h3⟩ := h
  rcases hdir with rfl | rfl | rfl | rfl <;>
    simp [Maze.Roll, Simple.Roll, OppositeSum7, Up, Down, Left, Right] <;> omega

/-- Witness of C1: the die of `NewDie` rolled `Up`. -/
theorem Roll_preserves_opposite_sum_witness :
    IsNamedDirection Up ∧ OppositeSum7 NewDie ∧
      OppositeSum7 (Maze.Roll NewDie Up) ∧ OppositeSum7 (Simple.Roll NewDie Up) :=
  ⟨Or.inl rfl, by decide,
    Roll_preserves_opposite_sum NewDie Up (Or.inl rfl) (by decide)⟩

/-- C6, as stated, fails: on a die whose `CurrentTop` differs from `Top`, rolling `Up`
then `Down` does not give back the same seven fields. -/
theorem Roll_up_down_counterexample :
    Maze.Roll (Maze.Roll { NewDie with CurrentTop := 2 } Up) Down
        ≠ { NewDie with CurrentTop := 2 } ∧
      Simple.Roll (Simple.Roll { NewDie with CurrentTop := 2 } Up) Down
        ≠ { NewDie with CurrentTop := 2 } := by
  decide

/-- C6, amended: in both variants, rolling `Up` then `Down`, or `Left` then `Right`,
restores the six faces and leaves `CurrentTop` equal to the original `Top`; the die is
exactly the original one whenever its `CurrentTop` was equal to its `Top`. -/
theorem Roll_inverse_pairs (s : Die) :
    Maze.Roll (Maze.Roll s Up) Down = { s with CurrentTop := s.Top } ∧
    Maze.Roll (Maze.Roll s Left) Right = { s with CurrentTop := s.Top } ∧
    Simple.Roll (Simple.Roll s Up) Down = { s with CurrentTop := s.Top } ∧
    Simple.Roll (Simple.Roll s Left) Right = { s with CurrentTop := s.Top } ∧
    (s.CurrentTop = s.Top →
      Maze.Roll (Maze.Roll s Up) Down = s ∧ Maze.Roll (Maze.Roll s Left) Right = s ∧
      Simple.Roll (Simple.Roll s Up) Down = s ∧ Simple.Roll (Simple.Roll s Left) Right = s) := by
  cases s
  simp [Maze.Roll, Simple.Roll, Up, Down, Left, Right]
  intro h
  simp [h]

/-- Witness of the amended C6 at the die of `NewDie`. -/
theorem Roll_inverse_pairs_witness :
    NewDie.CurrentTop = NewDie.Top ∧
      Maze.Roll (Maze.Roll NewDie Up) Down = NewDie ∧
      Maze.Roll (Maze.Roll NewDie Left) Right = NewDie ∧
      Simple.Roll (Simple.Roll NewDie Up) Down = NewDie ∧
      Simple.Roll (Simple.Roll NewDie Left) Right = NewDie :=
  ⟨rfl, (Roll_inverse_pairs NewDie).2.2.2.2 rfl⟩

/-- C7, as stated, fails: on a die whose `CurrentTop` differs from `Top`, four rolls
`Left` do not give back the same seven fields. -/
theorem Roll_four_times_counterexample :
    Maze.Roll (Maze.Roll (Maze.Roll (Maze.Roll { NewDie with CurrentTop := 5 } Left) Left)
        Left) Left ≠ { NewDie with CurrentTop := 5 } ∧
      Simple.Roll (Simple.Roll (Simple.Roll (Simple.Roll { NewDie with CurrentTop := 5 } Left)
        Left) Left) Left ≠ { NewDie with CurrentTop := 5 } := by
  decide

/-- C7, amended: in both variants, for each of the four named directions, four rolls in
a row restore the six faces and leave `CurrentTop` equal to the original `Top`; the die
is exactly the original one whenever its `CurrentTop` was equal to its `Top`. -/
theorem Roll_four_times (s : Die) (dir : Direction) (hdir : IsNamedDirection dir) :
    Maze.Roll (Maze.Roll (Maze.Roll (Maze.Roll s dir) dir) dir) dir
        = { s with CurrentTop := s.Top } ∧
    Simple.Roll (Simple.Roll (Simple.Roll (Simple.Roll s dir) dir) dir) dir
        = { s with CurrentTop := s.Top } ∧
    (s.CurrentTop = s.Top →
      Maze.Roll (Maze.Roll (Maze.Roll (Maze.Roll s dir) dir) dir) dir = s ∧
      Simple.Roll (Simple.Roll (Simple.Roll (Simple.Roll s dir) dir) dir) dir = s) := by
  cases s
  rcases hdir with rfl | rfl | rfl | rfl <;>
    simp [Maze.Roll, Simple.Roll, Up, Down, Left, Right] <;>
    (intro h; simp [h])

/-- Witness of the amended C7 at the die of `NewDie`, rolled `Right`. -/
theorem Roll_four_times_witness :
    IsNamedDirection Right ∧ NewDie.CurrentTop = NewDie.Top ∧
      Maze.Roll (Maze.Roll (Maze.Roll (Maze.Roll NewDie Right) Right) Right) Right = NewDie ∧
      Simple.Roll (Simple.Roll (Simple.Roll (Simple.Roll NewDie Right) Right) Right) Right
        = NewDie :=
  ⟨Or.inr (Or.inr (Or.inr rfl)), rfl,
    (Roll_four_times NewDie Right (Or.inr (Or.inr (Or.inr rfl)))).2.2 rfl⟩

/-- C8, as stated, fails: the die with Top = Front = 1 and Bottom = Back = 6 satisfies
opposite-faces-sum-to-seven, and a roll `Up` changes the value of only two faces. -/
theorem Roll_changed_faces_counterexample :
    IsNamedDirection Up ∧
      OppositeSum7 { NewDie with Front := 1, Back := 6 } ∧
      changedFaces { NewDie with Front := 1, Back := 6 }
        (Maze.Roll { NewDie with Front := 1, Back := 6 } Up) = 2 ∧
      changedFaces { NewDie with Front := 1, Back := 6 }
        (Simple.Roll { NewDie with Front := 1, Back := 6 } Up) = 2 := by
  refine ⟨Or.inl rfl, ?_, ?_, ?_⟩ <;> decide

/-- C8, amended: in both variants, for each of the four named directions and every die
whose opposite faces sum to seven and whose six faces are pairwise distinct, exactly
four of the six faces hold a different value after the roll. -/
theorem Roll_changes_four_faces (d : Die) (dir : Direction)
    (hdir : IsNamedDirection dir) (h7 : OppositeSum7 d) (hd : FacesDistinct d) :
    changedFaces d (Maze.Roll d dir) = 4 ∧ changedFaces d (Simple.Roll d dir) = 4 := by
  cases d
  simp only [FacesDistinct, List.nodup_cons, List.mem_cons, List.mem_singleton, not_or,
    List.not_mem_nil, not_false_eq_true, List.nodup_nil, and_true] at hd
  obtain ⟨⟨a1, a2, a3, a4, a5⟩, ⟨b1, b2, b3, b4⟩, ⟨c1, c2, c3⟩, ⟨e1, e2⟩, f1⟩ := hd
  rcases hdir with rfl | rfl | rfl | rfl <;>
    simp [Maze.Roll, Simple.Roll, changedFaces, Up, Down, Left, Right, *, Ne.symm, eq_comm]

/-- Witness of the amended C8: the die of `NewDie` rolled `Down`. -/
theorem Roll_changes_four_faces_witness :
    IsNamedDirection Down ∧ OppositeSum7 NewDie ∧ FacesDistinct NewDie ∧
      changedFaces NewDie (Maze.Roll NewDie Down) = 4 ∧
      changedFaces NewDie (Simple.Roll NewDie Down) = 4 :=
  ⟨Or.inr (Or.inl rfl), by decide, by decide,
    Roll_changes_four_faces NewDie Down (Or.inr (Or.inl rfl)) (by decide) (by decide)⟩

/-- C9: in both variants `Roll(Right)` moves the old Right to Bottom, the old Bottom to
Left, the old Left to Top and the old Top to Right, `Roll(Left)` moves the old Left to
Bottom, the old Bottom to Right, the old Right to Top and the old Top to Left, both leave
Front and Back unchanged; from `NewDie`, `Roll(Right)` gives Top = 3 and a further
`Roll(Left)` gives Top = 1. -/
theorem Roll_right_left_cycle (d : Die) :
    ((Maze.Roll d Right).Bottom = d.Right ∧ (Maze.Roll d Right).Left = d.Bottom ∧
      (Maze.Roll d Right).Top = d.Left ∧ (Maze.Roll d Right).Right = d.Top ∧
      (Maze.Roll d Right).Front = d.Front ∧ (Maze.Roll d Right).Back = d.Back) ∧
    ((Maze.Roll d Left).Bottom = d.Left ∧ (Maze.Roll d Left).Right = d.Bottom ∧
      (Maze.Roll d Left).Top = d.Right ∧ (Maze.Roll d Left).Left = d.Top ∧
      (Maze.Roll d Left).Front = d.Front ∧ (Maze.Roll d Left).Back = d.Back) ∧
    ((Simple.Roll d Right).Bottom = d.Right ∧ (Simple.Roll d Right).Left = d.Bottom ∧
      (Simple.Roll d Right).Top = d.Left ∧ (Simple.Roll d Right).Right = d.Top ∧
      (Simple.Roll d Right).Front = d.Front ∧ (Simple.Roll d Right).Back = d.Back) ∧
    ((Simple.Roll d Left).Bottom = d.Left ∧ (Simple.Roll d Left).Right = d.Bottom ∧
      (Simple.Roll d Left).Top = d.Right ∧ (Simple.Roll d Left).Left = d.Top ∧
      (Simple.Roll d Left).Front = d.Front ∧ (Simple.Roll d Left).Back = d.Back) ∧
    NewDie = { Top := 1, Bottom := 6, Front := 2, Back := 5, Left := 3, Right := 4,
               CurrentTop := 1 } ∧
    (Maze.Roll NewDie Right).Top = 3 ∧ (Maze.Roll (Maze.Roll NewDie Right) Left).Top = 1 ∧
    (Simple.Roll NewDie Right).Top = 3 ∧
    (Simple.Roll (Simple.Roll NewDie Right) Left).Top = 1 := by
  simp [Maze.Roll, Simple.Roll, Up, Down, Left, Right, NewDie]

/-! ## Win condition and move validation -/

/-- C4: in both variants `CheckWin` is true exactly when the player stands on the finish
cell and the die's current top value equals the target number; it is false when the
position matches and the top differs, and false when the top matches and the position
differs. -/
theorem CheckWin_iff (l : Maze.Level) (s : Simple.Level) :
    (Maze.CheckWin l = true ↔
      (l.Player.X = l.Finish.X ∧ l.Player.Y = l.Finish.Y) ∧
        l.Player.Die.CurrentTop = l.Finish.Number) ∧
    (Simple.CheckWin s = true ↔
      (s.Player.X = s.Finish.X ∧ s.Player.Y = s.Finish.Y) ∧
        s.Player.Die.CurrentTop = s.Finish.Number) ∧
    ((l.Player.X = l.Finish.X ∧ l.Player.Y = l.Finish.Y) →
      l.Player.Die.CurrentTop ≠ l.Finish.Number → Maze.CheckWin l = false) ∧
    (l.Player.Die.CurrentTop = l.Finish.Number →
      ¬ (l.Player.X = l.Finish.X ∧ l.Player.Y = l.Finish.Y) → Maze.CheckWin l = false) ∧
    ((s.Player.X = s.Finish.X ∧ s.Player.Y = s.Finish.Y) →
      s.Player.Die.CurrentTop ≠ s.Finish.Number → Simple.CheckWin s = false) ∧
    (s.Player.Die.CurrentTop = s.Finish.Number →
      ¬ (s.Player.X = s.Finish.X ∧ s.Player.Y = s.Finish.Y) → Simple.CheckWin s = false) := by
  have hm : Maze.CheckWin l = true ↔
      (l.Player.X = l.Finish.X ∧ l.Player.Y = l.Finish.Y) ∧
        l.Player.Die.CurrentTop = l.Finish.Number := by
    simp [Maze.CheckWin]
  have hs : Simple.CheckWin s = true ↔
      (s.Player.X = s.Finish.X ∧ s.Player.Y = s.Finish.Y) ∧
        s.Player.Die.CurrentTop = s.Finish.Number := by
    simp [Simple.CheckWin]
  refine ⟨hm, hs, ?_, ?_, ?_, ?_⟩
  · intro hp ht
    rw [← Bool.not_eq_true, hm]
    exact fun h => ht h.2
  · intro _ hp
    rw [← Bool.not_eq_true, hm]
    exact fun h => hp h.1
  · intro hp ht
    rw [← Bool.not_eq_true, hs]
    exact fun h => ht h.2
  · intro _ hp
    rw [← Bool.not_eq_true, hs]
    exact fun h => hp h.1

/-- Witness of C4: the level of the spec's example, finish at (5,5) with target 4, the
player on the finish with die top 3: not won. -/
theorem CheckWin_iff_witness :
    Simple.CheckWin
      { Player := { X := 5, Y := 5, Die := { NewDie with Top := 3, CurrentTop := 3 } }
        Finish := { X := 5, Y := 5, Number := 4 }
        Walls := []
        Won := false } = false :=
  (CheckWin_iff
      { Player := { X := 5, Y := 5, Die := { NewDie with Top := 3, CurrentTop := 3 } }
        Finish := { X := 5, Y := 5, Number := 4 }
        Cells := []
        Size := Maze.presetSize 5 5
        Won := false }
      { Player := { X := 5, Y := 5, Die := { NewDie with Top := 3, CurrentTop := 3 } }
        Finish := { X := 5, Y := 5, Number := 4 }
        Walls := []
        Won := false }).2.2.2.2.1 ⟨rfl, rfl⟩ (by decide)

namespace Maze

/-- In a grid of `H` rows of `W` cells, `cells[y][x]` exists exactly inside the bounds. -/
theorem cellAt_isSome_of_rowsCols {cells : Grid} {W H : Int} (h : RowsCols cells W H)
    (x y : Int) : (cellAt cells x y).isSome = true ↔ (0 ≤ x ∧ x < W ∧ 0 ≤ y ∧ y < H) := by
  obtain ⟨hlen, hrow⟩ := h
  unfold cellAt
  by_cases hneg : x < 0 ∨ y < 0
  · simp only [hneg, if_true, Option.isSome_none]
    constructor
    · intro h; cases h
    · intro h; omega
  · simp only [hneg, if_false]
    have hx : 0 ≤ x := by omega
    have hy : 0 ≤ y := by omega
    cases hr : cells[y.toNat]? with
    | none =>
      simp only [Option.isSome_none]
      have : cells.length ≤ y.toNat := List.getElem?_eq_none_iff.mp hr
      constructor
      · intro h; cases h
      · intro h; omega
    | some row =>
      have hlt : y.toNat < cells.length := by
        by_contra hc
        rw [List.getElem?_eq_none (by omega)] at hr
        cases hr
      have hmem : row ∈ cells := List.getElem?_mem hr
      have hw := hrow row hmem
      simp only [Option.isSome_iff_exists]
      constructor
      · rintro ⟨c, hc⟩
        have hxl : x.toNat < row.length := by
          by_contra hcon
          rw [List.getElem?_eq_none (by omega)] at hc
          cases hc
        omega
      · intro h
        have hxl : x.toNat < row.length := by omega
        exact ⟨row[x.toNat], List.getElem?_eq_getElem hxl⟩

end Maze

/-- C5: in both variants `IsValidMove(x,y)` returns false exactly when `(x,y)` is outside
the grid or the cell at `(x,y)` is a wall, and true otherwise (in the maze variant for a
grid of `Height` rows of `Width` cells, where it never panics); it is a function of the
level and returns only the boolean, so the level is unchanged; it returns false for
`x = -1`, `x = width`, `y = -1` and `y = height`. -/
theorem IsValidMove_spec (l : Maze.Level) (s : Simple.Level) (x y : Int)
    (hwf : Maze.RowsCols l.Cells l.Size.Width l.Size.Height) :
    (Maze.IsValidMove l x y = some false ↔
      (¬ (0 ≤ x ∧ x < l.Size.Width ∧ 0 ≤ y ∧ y < l.Size.Height)
        ∨ Maze.isWallAt l.Cells x y = true)) ∧
    (Maze.IsValidMove l x y = some true ↔
      ((0 ≤ x ∧ x < l.Size.Width ∧ 0 ≤ y ∧ y < l.Size.Height)
        ∧ Maze.isWallAt l.Cells x y = false)) ∧
    (Simple.IsValidMove s x y = false ↔
      (¬ (0 ≤ x ∧ x < Simple.GridCols ∧ 0 ≤ y ∧ y < Simple.GridRows)
        ∨ (x, y) ∈ s.Walls)) ∧
    (Simple.IsValidMove s x y = true ↔
      ((0 ≤ x ∧ x < Simple.GridCols ∧ 0 ≤ y ∧ y < Simple.GridRows)
        ∧ (x, y) ∉ s.Walls)) ∧
    Maze.IsValidMove l (-1) y = some false ∧
    Maze.IsValidMove l l.Size.Width y = some false ∧
    Maze.IsValidMove l x (-1) = some false ∧
    Maze.IsValidMove l x l.Size.Height = some false ∧
    Simple.IsValidMove s (-1) y = false ∧
    Simple.IsValidMove s Simple.GridCols y = false ∧
    Simple.IsValidMove s x (-1) = false ∧
    Simple.IsValidMove s x Simple.GridRows = false := by
  have hwall : Simple.IsWall s x y = true ↔ (x, y) ∈ s.Walls := by
    unfold Simple.IsWall
    rw [List.any_eq_true]
    constructor
    · rintro ⟨⟨a, b⟩, hmem, hab⟩
      simp only [Bool.and_eq_true, beq_iff_eq] at hab
      obtain ⟨rfl, rfl⟩ := hab
      exact hmem
    · intro hmem
      exact ⟨(x, y), hmem, by simp⟩
  have hsome := Maze.cellAt_isSome_of_rowsCols hwf x y
  refine ⟨?_, ?_, ?_, ?_, ?_, ?_, ?_, ?_, ?_, ?_, ?_, ?_⟩
  · unfold Maze.IsValidMove Maze.isWallAt
    by_cases hin : 0 ≤ x ∧ x < l.Size.Width ∧ 0 ≤ y ∧ y < l.Size.Height
    · obtain ⟨c, hc⟩ := Option.isSome_iff_exists.mp (hsome.mpr hin)
      have hcond : (decide (x < 0) || decide (x ≥ l.Size.Width) || decide (y < 0)
          || decide (y ≥ l.Size.Height)) = false := by
        simp; omega
      simp only [hcond, hc]
      cases hw : c.IsWall <;> simp [hin]
    · have hcond : (decide (x < 0) || decide (x ≥ l.Size.Width) || decide (y < 0)
          || decide (y ≥ l.Size.Height)) = true := by
        simp; omega
      simp [hcond, hin]
  · unfold Maze.IsValidMove Maze.isWallAt
    by_cases hin : 0 ≤ x ∧ x < l.Size.Width ∧ 0 ≤ y ∧ y < l.Size.Height
    · obtain ⟨c, hc⟩ := Option.isSome_iff_exists.mp (hsome.mpr hin)
      have hcond : (decide (x < 0) || decide (x ≥ l.Size.Width) || decide (y < 0)
          || decide (y ≥ l.Size.Height)) = false := by
        simp; omega
      simp only [hcond, hc]
      cases hw : c.IsWall <;> simp [hin]
    · have hcond : (decide (x < 0) || decide (x ≥ l.Size.Width) || decide (y < 0)
          || decide (y ≥ l.Size.Height)) = true := by
        simp; omega
      simp [hcond, hin]
  · unfold Simple.IsValidMove
    rw [← hwall]
    by_cases hin : 0 ≤ x ∧ x < Simple.GridCols ∧ 0 ≤ y ∧ y < Simple.GridRows
    · have hcond : (decide (x < 0) || decide (x ≥ Simple.GridCols) || decide (y < 0)
          || decide (y ≥ Simple.GridRows)) = false := by
        simp; omega
      simp only [hcond]
      cases hw : Simple.IsWall s x y <;> simp [hin]
    · have hcond : (decide (x < 0) || decide (x ≥ Simple.GridCols) || decide (y < 0)
          || decide (y ≥ Simple.GridRows)) = true := by
        simp; omega
      simp [hcond, hin]
  · unfold Simple.IsValidMove
    rw [← hwall]
    by_cases hin : 0 ≤ x ∧ x < Simple.GridCols ∧ 0 ≤ y ∧ y < Simple.GridRows
    · have hcond : (decide (x < 0) || decide (x ≥ Simple.GridCols) || decide (y < 0)
          || decide (y ≥ Simple.GridRows)) = false := by
        simp; omega
      simp only [hcond]
      cases hw : Simple.IsWall s x y <;> simp [hin]
    · have hcond : (decide (x < 0) || decide (x ≥ Simple.GridCols) || decide (y < 0)
          || decide (y ≥ Simple.GridRows)) = true := by
        simp; omega
      simp [hcond, hin]
  all_goals simp [Maze.IsValidMove, Simple.IsValidMove, Simple.GridCols, Simple.GridRows]

/-! ## The grid: reading and writing cells -/

namespace Maze

/-- Reading a cell after an assignment to `cells[y][x]`. -/
theorem cellAt_updateCell {cells g : Grid} {x y : Int} {f : Cell → Cell}
    (h : updateCell cells x y f = some g) (x1 y1 : Int) :
    cellAt g x1 y1
      = if x1 = x ∧ y1 = y then (cellAt cells x y).map f else cellAt cells x1 y1 := by
  unfold updateCell at h
  split at h
  · cases h
  · rename_i hneg
    split at h
    · cases h
    · rename_i row hrow
      split at h
      · cases h
      · rename_i c hc
        injection h with h
        subst h
        have hx : 0 ≤ x := by omega
        have hy : 0 ≤ y := by omega
        have hylt : y.toNat < cells.length := (List.getElem?_eq_some.mp hrow).1
        have hxlt : x.toNat < row.length := (List.getElem?_eq_some.mp hc).1
        unfold cellAt
        by_cases hneg1 : x1 < 0 ∨ y1 < 0
        · have hne : ¬ (x1 = x ∧ y1 = y) := by omega
          simp [hneg1, hne]
        · simp only [hneg1, hneg, if_false, hrow, hc, Option.map_some']
          rw [List.getElem?_set]
          by_cases hyy : y.toNat = y1.toNat
          · have hy1 : y1 = y := by omega
            subst hy1
            simp only [if_true, hylt, and_true]
            rw [List.getElem?_set]
            by_cases hxx : x.toNat = x1.toNat
            · have hx1 : x1 = x := by omega
              subst hx1
              simp [hxlt]
            · have hx1 : ¬ x1 = x := by omega
              simp [hxx, hx1, hrow]
          · have hy1 : ¬ (x1 = x ∧ y1 = y) := by omega
            simp [hyy, hy1]

/-- An assignment to an existing cell succeeds. -/
theorem updateCell_of_cellAt {cells : Grid} {x y : Int} {c : Cell} (f : Cell → Cell)
    (h : cellAt cells x y = some c) : ∃ g, updateCell cells x y f = some g := by
  unfold cellAt at h
  unfold updateCell
  split at h
  · cases h
  · rename_i hneg
    simp only [hneg, if_false]
    cases hrow : cells[y.toNat]? with
    | none => simp [hrow] at h
    | some row =>
      simp only [hrow] at h
      simp [h]

/-- An assignment to a cell keeps the dimensions of the grid. -/
theorem Dims_updateCell {cells g : Grid} {x y W H : Int} {f : Cell → Cell}
    (h : updateCell cells x y f = some g) (hd : Dims cells W H) : Dims g W H := by
  intro x1 y1
  rw [cellAt_updateCell h x1 y1, ← hd x1 y1]
  by_cases hxy : x1 = x ∧ y1 = y
  · obtain ⟨rfl, rfl⟩ := hxy
    simp
  · simp [hxy]

end Maze

/-! ## Loops -/

/-- A loop whose body never panics under an invariant, and keeps it, runs to completion
and keeps the invariant. -/
theorem forEach_inv {α σ : Type} (body : α → σ → Option σ) (I : σ → Prop) (is : List α)
    (hstep : ∀ i ∈ is, ∀ s, I s → ∃ s1, body i s = some s1 ∧ I s1) :
    ∀ s, I s → ∃ s1, forEach body is s = some s1 ∧ I s1 := by
  induction is with
  | nil =>
    intro s hs
    exact ⟨s, rfl, hs⟩
  | cons i rest ih =>
    intro s hs
    obtain ⟨s1, h1, hI1⟩ := hstep i (List.mem_cons_self i rest) s hs
    obtain ⟨s2, h2, hI2⟩ :=
      ih (fun j hj t ht => hstep j (List.mem_cons_of_mem i hj) t ht) s1 hI1
    refine ⟨s2, ?_, hI2⟩
    simp only [forEach, h1]
    exact h2

/-- As `forEach_inv`, with a fact `Q i` that iteration `i` establishes and that no
iteration destroys: it holds for every `i` of the loop at the end. -/
theorem forEach_acc {α σ : Type} (body : α → σ → Option σ) (I : σ → Prop)
    (Q : α → σ → Prop) (is : List α)
    (hstep : ∀ i ∈ is, ∀ s, I s →
      ∃ s1, body i s = some s1 ∧ I s1 ∧ Q i s1 ∧ ∀ j, Q j s → Q j s1) :
    ∀ s, I s → ∃ s1, forEach body is s = some s1 ∧ I s1 ∧ (∀ i ∈ is, Q i s1)
      ∧ ∀ j, Q j s → Q j s1 := by
  induction is with
  | nil =>
    intro s hs
    exact ⟨s, rfl, hs, fun i hi => absurd hi (List.not_mem_nil i), fun _ h => h⟩
  | cons i rest ih =>
    intro s hs
    obtain ⟨s1, h1, hI1, hQ1, hP1⟩ := hstep i (List.mem_cons_self i rest) s hs
    obtain ⟨s2, h2, hI2, hQ2, hP2⟩ :=
      ih (fun j hj t ht => hstep j (List.mem_cons_of_mem i hj) t ht) s1 hI1
    refine ⟨s2, ?_, hI2, ?_, fun j hj => hP2 j (hP1 j hj)⟩
    · simp only [forEach, h1]
      exact h2
    · intro j hj
      rcases List.mem_cons.mp hj with rfl | hj
      · exact hP2 _ hQ1
      · exact hQ2 j hj

/-- The values of `for i := lo; i < hi; i++`. -/
theorem mem_intRange {lo hi i : Int} : i ∈ intRange lo hi ↔ lo ≤ i ∧ i < hi := by
  unfold intRange
  simp only [List.mem_map, List.mem_range]
  constructor
  · rintro ⟨k, hk, rfl⟩
    omega
  · intro h
    exact ⟨(i - lo).toNat, by omega, by omega⟩

/-- The values of `for i := lo; i < hi; i += step` lie in `[lo, hi)`. -/
theorem mem_rangeStepAux {hi step : Int} (hstep : 0 ≤ step) :
    ∀ (n : Nat) (lo i : Int), i ∈ rangeStepAux hi step n lo → lo ≤ i ∧ i < hi := by
  intro n
  induction n with
  | zero =>
    intro lo i h
    simp [rangeStepAux] at h
  | succ n ih =>
    intro lo i h
    unfold rangeStepAux at h
    split at h
    · rcases List.mem_cons.mp h with rfl | h
      · omega
      · have := ih (lo + step) i h
        omega
    · simp at h

/-- The values of `for i := lo; i < hi; i += 3` lie in `[lo, hi)`. -/
theorem mem_rangeStep {lo hi step i : Int} (hstep : 0 ≤ step)
    (h : i ∈ rangeStep lo hi step) : lo ≤ i ∧ i < hi :=
  mem_rangeStepAux hstep _ lo i h

/-- The fuel of `rangeStep` is enough: its values are exactly the `lo + step * k` below
`hi`, the values the loop variable of `for i := lo; i < hi; i += step` takes. -/
theorem mem_rangeStepAux_iff {hi step i : Int} (hstep : 0 < step) :
    ∀ (n : Nat) (lo : Int), (hi - lo).toNat ≤ n →
      (i ∈ rangeStepAux hi step n lo ↔ ∃ k : Nat, i = lo + step * (k : Int) ∧ i < hi) := by
  intro n
  induction n with
  | zero =>
    intro lo hfuel
    simp only [rangeStepAux, List.not_mem_nil, false_iff, not_exists, not_and]
    intro k hk
    have : 0 ≤ step * (k : Int) := Int.mul_nonneg (by omega) (by omega)
    omega
  | succ n ih =>
    intro lo hfuel
    unfold rangeStepAux
    by_cases hlt : lo < hi
    · simp only [hlt, if_true, List.mem_cons]
      rw [ih (lo + step) (by omega)]
      constructor
      · rintro (rfl | ⟨k, hk, hi1⟩)
        · exact ⟨0, by simp, hlt⟩
        · exact ⟨k + 1, by rw [hk]; push_cast; ring, hi1⟩
      · rintro ⟨k, hk, hi1⟩
        cases k with
        | zero =>
          left
          simpa using hk
        | succ k =>
          right
          exact ⟨k, by rw [hk]; push_cast; ring, hi1⟩
    · simp only [hlt, if_false, List.not_mem_nil, false_iff, not_exists, not_and]
      intro k hk
      have : 0 ≤ step * (k : Int) := Int.mul_nonneg (by omega) (by omega)
      omega

/-- The values of `for i := lo; i < hi; i += step`, for `step ≥ 1`. -/
theorem mem_rangeStep_iff {lo hi step i : Int} (hstep : 0 < step) :
    i ∈ rangeStep lo hi step ↔ ∃ k : Nat, i = lo + step * (k : Int) ∧ i < hi :=
  mem_rangeStepAux_iff hstep _ lo (le_refl _)

namespace Maze

/-! ## Clearing and setting walls -/

/-- The relation `SameFrame` is reflexive. -/
theorem SameFrame.frameRefl (l : Level) : SameFrame l l :=
  ⟨rfl, rfl, rfl, rfl⟩

/-- The relation `SameFrame` is transitive. -/
theorem SameFrame.frameTrans {a b c : Level} (h1 : SameFrame a b) (h2 : SameFrame b c) :
    SameFrame a c :=
  ⟨h2.1.trans h1.1, h2.2.1.trans h1.2.1, h2.2.2.1.trans h1.2.2.1, h2.2.2.2.trans h1.2.2.2⟩

/-- A well-formed level carves itself. -/
theorem Carves.carvesRefl {l : Level} (h : WellFormed l) : Carves l l :=
  ⟨SameFrame.frameRefl l, h, fun _ _ h => h⟩

/-- Carving after carving is carving. -/
theorem Carves.carvesTrans {a b c : Level} (h1 : Carves a b) (h2 : Carves b c) : Carves a c :=
  ⟨h1.1.frameTrans h2.1, h2.2.1, fun x y h => h2.2.2 x y (h1.2.2 x y h)⟩

/-- The statement `l.Cells[y][x].IsWall = b` inside the grid: it does not panic and
changes the wall flag of that cell only. -/
theorem setWall_spec {l : Level} {x y : Int} (b : Bool) (hwf : WellFormed l)
    (hin : InGrid l.Size.Width l.Size.Height x y) :
    ∃ l1, setWall l x y b = some l1 ∧ SameFrame l l1 ∧ WellFormed l1 ∧
      ∀ x1 y1, cellAt l1.Cells x1 y1
        = if x1 = x ∧ y1 = y then (cellAt l.Cells x y).map (fun c => { c with IsWall := b })
          else cellAt l.Cells x1 y1 := by
  obtain ⟨c, hc⟩ := Option.isSome_iff_exists.mp ((hwf x y).mpr hin)
  obtain ⟨g, hg⟩ := updateCell_of_cellAt (fun c => { c with IsWall := b }) hc
  refine ⟨{ l with Cells := g }, ?_, ⟨rfl, rfl, rfl, rfl⟩, ?_, ?_⟩
  · simp [setWall, hg]
  · exact Dims_updateCell hg hwf
  · exact cellAt_updateCell hg

/-- The statement `l.Cells[y][x].Visited = b` inside the grid: it does not panic and
changes the visited flag of that cell only. -/
theorem setVisited_spec {l : Level} {x y : Int} (b : Bool) (hwf : WellFormed l)
    (hin : InGrid l.Size.Width l.Size.Height x y) :
    ∃ l1, setVisited l x y b = some l1 ∧ SameFrame l l1 ∧ WellFormed l1 ∧
      ∀ x1 y1, cellAt l1.Cells x1 y1
        = if x1 = x ∧ y1 = y then (cellAt l.Cells x y).map (fun c => { c with Visited := b })
          else cellAt l.Cells x1 y1 := by
  obtain ⟨c, hc⟩ := Option.isSome_iff_exists.mp ((hwf x y).mpr hin)
  obtain ⟨g, hg⟩ := updateCell_of_cellAt (fun c => { c with Visited := b }) hc
  refine ⟨{ l with Cells := g }, ?_, ⟨rfl, rfl, rfl, rfl⟩, ?_, ?_⟩
  · simp [setVisited, hg]
  · exact Dims_updateCell hg hwf
  · exact cellAt_updateCell hg

/-- Clearing a wall inside the grid carves the level and opens the cell. -/
theorem setWall_false {l : Level} {x y : Int} (hwf : WellFormed l)
    (hin : InGrid l.Size.Width l.Size.Height x y) :
    ∃ l1, setWall l x y false = some l1 ∧ Carves l l1 ∧ isOpen l1.Cells x y = true := by
  obtain ⟨l1, h1, hf, hw, hc⟩ := setWall_spec false hwf hin
  obtain ⟨c, hcell⟩ := Option.isSome_iff_exists.mp ((hwf x y).mpr hin)
  refine ⟨l1, h1, ⟨hf, hw, ?_⟩, ?_⟩
  · intro x1 y1 ho
    unfold isOpen at ho ⊢
    rw [hc x1 y1]
    by_cases hxy : x1 = x ∧ y1 = y
    · simp [hxy, hcell]
    · simpa [hxy] using ho
  · unfold isOpen
    rw [hc x y]
    simp [hcell]

/-- Setting a wall inside the grid keeps every wall and walls the cell. -/
theorem setWall_true {l : Level} {x y : Int} (hwf : WellFormed l)
    (hin : InGrid l.Size.Width l.Size.Height x y) :
    ∃ l1, setWall l x y true = some l1 ∧ SameFrame l l1 ∧ WellFormed l1 ∧
      WallMono l.Cells l1.Cells ∧ isWallAt l1.Cells x y = true := by
  obtain ⟨l1, h1, hf, hw, hc⟩ := setWall_spec true hwf hin
  obtain ⟨c, hcell⟩ := Option.isSome_iff_exists.mp ((hwf x y).mpr hin)
  refine ⟨l1, h1, hf, hw, ?_, ?_⟩
  · intro x1 y1 ho
    unfold isWallAt at ho ⊢
    rw [hc x1 y1]
    by_cases hxy : x1 = x ∧ y1 = y
    · simp [hxy, hcell]
    · simpa [hxy] using ho
  · unfold isWallAt
    rw [hc x y]
    simp [hcell]

/-- Changing a visited flag inside the grid leaves every wall flag as it was. -/
theorem setVisited_carves {l : Level} {x y : Int} (b : Bool) (hwf : WellFormed l)
    (hin : InGrid l.Size.Width l.Size.Height x y) :
    ∃ l1, setVisited l x y b = some l1 ∧ Carves l l1 := by
  obtain ⟨l1, h1, hf, hw, hc⟩ := setVisited_spec b hwf hin
  obtain ⟨c, hcell⟩ := Option.isSome_iff_exists.mp ((hwf x y).mpr hin)
  refine ⟨l1, h1, hf, hw, ?_⟩
  intro x1 y1 ho
  unfold isOpen at ho ⊢
  rw [hc x1 y1]
  by_cases hxy : x1 = x ∧ y1 = y
  · obtain ⟨rfl, rfl⟩ := hxy
    simpa [hcell] using ho
  · simpa [hxy] using ho

end Maze

/-- Indexing the list of values of `for i := lo; i < hi; i++`. -/
theorem getElem?_intRange (lo hi : Int) (k : Nat) :
    (intRange lo hi)[k]? = if k < (hi - lo).toNat then some (lo + (k : Int)) else none := by
  unfold intRange
  rw [List.getElem?_map]
  by_cases hk : k < (hi - lo).toNat
  · rw [List.getElem?_range hk]
    simp [hk]
  · rw [List.getElem?_eq_none (by simpa using hk)]
    simp [hk]

namespace Maze

/-! ## The seeding phase of `GenerateMaze` -/

/-- A well-formed level seeds itself. -/
theorem Seeds.seedsRefl {l : Level} (h : WellFormed l) : Seeds l l :=
  ⟨SameFrame.frameRefl l, h, fun _ _ h => h⟩

/-- Seeding after seeding is seeding. -/
theorem Seeds.seedsTrans {a b c : Level} (h1 : Seeds a b) (h2 : Seeds b c) : Seeds a c :=
  ⟨h1.1.frameTrans h2.1, h2.2.1, fun x y h => h2.2.2 x y (h1.2.2 x y h)⟩

/-- The allocation loops of `GenerateMaze` build a grid with the dimensions of `Size`. -/
theorem initCells_spec {l : Level} (hW : 0 ≤ l.Size.Width) (hH : 0 ≤ l.Size.Height) :
    ∃ l1, initCells l = some l1 ∧ SameFrame l l1 ∧ WellFormed l1 := by
  refine ⟨{ l with Cells := freshGrid l.Size.Width l.Size.Height }, ?_,
    ⟨rfl, rfl, rfl, rfl⟩, ?_⟩
  · unfold initCells
    rw [if_neg (by omega), if_neg (by omega)]
  · intro x y
    show (cellAt (freshGrid l.Size.Width l.Size.Height) x y).isSome = true
      ↔ InGrid l.Size.Width l.Size.Height x y
    unfold cellAt InGrid freshGrid
    by_cases hneg : x < 0 ∨ y < 0
    · simp only [hneg, if_true, Option.isSome_none]
      constructor
      · intro h; cases h
      · intro h; omega
    · simp only [hneg, if_false]
      rw [List.getElem?_map, getElem?_intRange]
      by_cases hy : y.toNat < (l.Size.Height - 0).toNat
      · simp only [hy, if_true, Option.map_some']
        rw [List.getElem?_map, getElem?_intRange]
        by_cases hx : x.toNat < (l.Size.Width - 0).toNat
        · simp only [hx, if_true, Option.map_some', Option.isSome_some, true_iff]
          omega
        · simp only [hx, if_false, Option.map_none', Option.isSome_none]
          constructor
          · intro h; cases h
          · intro h; omega
      · simp only [hy, if_false, Option.map_none', Option.isSome_none]
        constructor
        · intro h; cases h
        · intro h; omega

/-- Walling one cell with probability `WallDensity` inside the grid only adds walls. -/
theorem seedWallStep_spec {l0 : Level} {x y : Int} {s : Level × RandSource} (hs : Seeds l0 s.1)
    (hin : InGrid l0.Size.Width l0.Size.Height x y) :
    ∃ s1, seedWallStep x y s = some s1 ∧ Seeds l0 s1.1 := by
  unfold seedWallStep
  have hin1 : InGrid s.1.Size.Width s.1.Size.Height x y := by rw [hs.1.1]; exact hin
  obtain ⟨l1, h1, hf, hw, hm, _⟩ := setWall_true hs.2.1 hin1
  by_cases hr : ltTenths (Float64 s.2).1 WallDensity = true
  · refine ⟨(l1, (Float64 s.2).2), ?_, hs.seedsTrans ⟨hf, hw, hm⟩⟩
    simp [hr, h1]
  · refine ⟨(s.1, (Float64 s.2).2), ?_, hs⟩
    simp [hr]

/-- The lattice loop over the rows `2, 5, 8, ...` runs to completion and only adds walls. -/
theorem seedRowWalls_spec {s : Level × RandSource} (hwf : WellFormed s.1) :
    ∃ s1, seedRowWalls s = some s1 ∧ Seeds s.1 s1.1 := by
  unfold seedRowWalls
  apply forEach_inv _ (fun t => Seeds s.1 t.1) _ _ s (Seeds.seedsRefl hwf)
  intro y hy t ht
  have hyb := mem_rangeStep (by decide) hy
  apply forEach_inv _ (fun t => Seeds s.1 t.1) _ _ t ht
  intro x hx u hu
  have hxb := mem_intRange.mp hx
  rw [ht.1.1] at hxb
  exact seedWallStep_spec hu ⟨by omega, by omega, by omega, by omega⟩

/-- The lattice loop over the columns `2, 5, 8, ...` runs to completion and only adds
walls. -/
theorem seedColWalls_spec {s : Level × RandSource} (hwf : WellFormed s.1) :
    ∃ s1, seedColWalls s = some s1 ∧ Seeds s.1 s1.1 := by
  unfold seedColWalls
  apply forEach_inv _ (fun t => Seeds s.1 t.1) _ _ s (Seeds.seedsRefl hwf)
  intro x hx t ht
  have hxb := mem_rangeStep (by decide) hx
  apply forEach_inv _ (fun t => Seeds s.1 t.1) _ _ t ht
  intro y hy u hu
  have hyb := mem_intRange.mp hy
  rw [ht.1.1] at hyb
  exact seedWallStep_spec hu ⟨by omega, by omega, by omega, by omega⟩

/-- The two border loops of `GenerateMaze` run to completion and leave every border cell
a wall. -/
theorem addOuterWalls_spec {l : Level} (hwf : WellFormed l) (hW : 1 ≤ l.Size.Width)
    (hH : 1 ≤ l.Size.Height) :
    ∃ l1, addOuterWalls l = some l1 ∧ Seeds l l1 ∧
      ∀ x y, OnBorder l.Size.Width l.Size.Height x y → isWallAt l1.Cells x y = true := by
  unfold addOuterWalls
  obtain ⟨l1, h1, hI1, hQ1, -⟩ := forEach_acc outerWallsRowStep (fun t => Seeds l t)
    (fun x t => isWallAt t.Cells x 0 = true ∧ isWallAt t.Cells x (l.Size.Height - 1) = true)
    (intRange 0 l.Size.Width)
    (by
      intro x hx t ht
      have hxb := mem_intRange.mp hx
      have hin1 : InGrid t.Size.Width t.Size.Height x 0 := by
        rw [ht.1.1]; exact ⟨by omega, by omega, by omega, by omega⟩
      obtain ⟨t1, e1, f1, w1, m1, o1⟩ := setWall_true ht.2.1 hin1
      have hin2 : InGrid t1.Size.Width t1.Size.Height x (t1.Size.Height - 1) := by
        rw [f1.1, ht.1.1]; exact ⟨by omega, by omega, by omega, by omega⟩
      obtain ⟨t2, e2, f2, w2, m2, o2⟩ := setWall_true w1 hin2
      refine ⟨t2, ?_, ht.seedsTrans (Seeds.seedsTrans ⟨f1, w1, m1⟩ ⟨f2, w2, m2⟩), ⟨m2 _ _ o1, ?_⟩, ?_⟩
      · simp only [outerWallsRowStep, e1]
        exact e2
      · rw [f1.1, ht.1.1] at o2
        exact o2
      · intro j hj
        exact ⟨m2 _ _ (m1 _ _ hj.1), m2 _ _ (m1 _ _ hj.2)⟩)
    l (Seeds.seedsRefl hwf)
  obtain ⟨l2, h2, hI2, hQ2, -⟩ := forEach_acc outerWallsColStep (fun t => Seeds l1 t)
    (fun y t => isWallAt t.Cells 0 y = true ∧ isWallAt t.Cells (l.Size.Width - 1) y = true)
    (intRange 0 l1.Size.Height)
    (by
      intro y hy t ht
      have hyb := mem_intRange.mp hy
      rw [hI1.1.1] at hyb
      have hin1 : InGrid t.Size.Width t.Size.Height 0 y := by
        rw [ht.1.1, hI1.1.1]; exact ⟨by omega, by omega, by omega, by omega⟩
      obtain ⟨t1, e1, f1, w1, m1, o1⟩ := setWall_true ht.2.1 hin1
      have hin2 : InGrid t1.Size.Width t1.Size.Height (t1.Size.Width - 1) y := by
        rw [f1.1, ht.1.1, hI1.1.1]; exact ⟨by omega, by omega, by omega, by omega⟩
      obtain ⟨t2, e2, f2, w2, m2, o2⟩ := setWall_true w1 hin2
      refine ⟨t2, ?_, ht.seedsTrans (Seeds.seedsTrans ⟨f1, w1, m1⟩ ⟨f2, w2, m2⟩), ⟨m2 _ _ o1, ?_⟩, ?_⟩
      · simp only [outerWallsColStep, e1]
        exact e2
      · rw [f1.1, ht.1.1, hI1.1.1] at o2
        exact o2
      · intro j hj
        exact ⟨m2 _ _ (m1 _ _ hj.1), m2 _ _ (m1 _ _ hj.2)⟩)
    l1 (Seeds.seedsRefl hI1.2.1)
  refine ⟨l2, ?_, hI1.seedsTrans hI2, ?_⟩
  · simp only [h1]
    exact h2
  · rintro x y ⟨⟨hx0, hxW, hy0, hyH⟩, hb⟩
    rcases hb with rfl | rfl | rfl | rfl
    · exact (hQ2 y (mem_intRange.mpr (by rw [hI1.1.1]; omega))).1
    · exact (hQ2 y (mem_intRange.mpr (by rw [hI1.1.1]; omega))).2
    · exact hI2.2.2 _ _ (hQ1 x (mem_intRange.mpr (by omega))).1
    · exact hI2.2.2 _ _ (hQ1 x (mem_intRange.mpr (by omega))).2

/-- The seeding phase of `GenerateMaze` runs to completion, builds a well-formed grid and
leaves every border cell a wall. -/
theorem seedWalls_spec {l : Level} (rng : RandSource) (hW : 1 ≤ l.Size.Width)
    (hH : 1 ≤ l.Size.Height) :
    ∃ s1, seedWalls l rng = some s1 ∧ SameFrame l s1.1 ∧ WellFormed s1.1 ∧
      ∀ x y, OnBorder l.Size.Width l.Size.Height x y → isWallAt s1.1.Cells x y = true := by
  obtain ⟨l1, h1, f1, w1⟩ := initCells_spec (l := l) (by omega) (by omega)
  obtain ⟨l2, h2, s2, b2⟩ := addOuterWalls_spec w1 (by rw [f1.1]; exact hW)
    (by rw [f1.1]; exact hH)
  obtain ⟨s3, h3, hs3⟩ := seedRowWalls_spec (s := (l2, rng)) s2.2.1
  obtain ⟨s4, h4, hs4⟩ := seedColWalls_spec (s := s3) hs3.2.1
  refine ⟨s4, ?_, f1.frameTrans (s2.1.frameTrans (hs3.1.frameTrans hs4.1)), hs4.2.1, ?_⟩
  · simp only [seedWalls, h1, h2, h3]
    exact h4
  · intro x y hb
    rw [← f1.1] at hb
    exact hs4.2.2 _ _ (hs3.2.2 _ _ (b2 x y hb))

/-! ## The guaranteed path -/

/-- The values of `for d := 0; d < 2; d++`. -/
theorem intRange_zero_two : intRange 0 2 = [0, 1] := by decide

/-- The values of `for d := -1; d <= 1; d++`. -/
theorem intRange_neg_one_two : intRange (-1) 2 = [-1, 0, 1] := by decide

/-- The values of `for d := -1; d <= 2; d++`. -/
theorem intRange_neg_one_three : intRange (-1) 3 = [-1, 0, 1, 2] := by decide

/-- A path can be extended at its start by an adjacent open cell. -/
theorem Connected.cons {cells : Grid} {a p b : Int × Int} (ho : isOpen cells a.1 a.2 = true)
    (hadj : adjacent a p = true) (h : Connected cells p b) : Connected cells a b := by
  obtain ⟨rest, hr⟩ := h
  exact ⟨p :: rest, by simp [validPath, ho, hadj, hr]⟩

/-- An open cell is connected to itself. -/
theorem Connected.self {cells : Grid} {a : Int × Int} (ho : isOpen cells a.1 a.2 = true) :
    Connected cells a a :=
  ⟨[], by simp [validPath, ho]⟩

/-- A path stays a path when walls are only cleared. -/
theorem validPath_mono {g g1 : Grid} (hm : OpenMono g g1) (b : Int × Int) :
    ∀ (rest : List (Int × Int)) (a : Int × Int),
      validPath g a rest b = true → validPath g1 a rest b = true := by
  intro rest
  induction rest with
  | nil =>
    intro a h
    simp only [validPath, Bool.and_eq_true] at h ⊢
    exact ⟨h.1, hm _ _ h.2⟩
  | cons p rest ih =>
    intro a h
    simp only [validPath, Bool.and_eq_true] at h ⊢
    exact ⟨⟨hm _ _ h.1.1, h.1.2⟩, ih p h.2⟩

/-- Connectivity survives the clearing of walls. -/
theorem Connected.mono {g g1 : Grid} (hm : OpenMono g g1) {a b : Int × Int}
    (h : Connected g a b) : Connected g1 a b := by
  obtain ⟨rest, hr⟩ := h
  exact ⟨rest, validPath_mono hm b rest a hr⟩

/-- The swath loop of a step to the right, with both cells inside the grid: it clears
`(x,y)` and `(x+1,y)`. -/
theorem carveRight_spec {l : Level} {x y : Int} (hwf : WellFormed l) (hx : 0 ≤ x)
    (hx1 : x + 1 < l.Size.Width) (hy : 0 ≤ y) (hyH : y < l.Size.Height) :
    ∃ l1, carveRight x y l = some l1 ∧ Carves l l1 ∧ isOpen l1.Cells x y = true
      ∧ isOpen l1.Cells (x + 1) y = true := by
  obtain ⟨l1, e1, c1, o1⟩ := setWall_false (x := x + 0) (y := y) hwf
    ⟨by omega, by omega, hy, hyH⟩
  obtain ⟨l2, e2, c2, o2⟩ := setWall_false (x := x + 1) (y := y) c1.2.1
    (by rw [c1.1.1]; exact ⟨by omega, by omega, hy, hyH⟩)
  refine ⟨l2, ?_, c1.carvesTrans c2, ?_, o2⟩
  · have h0 : x < l.Size.Width := by omega
    have hl : (intRange 0 2).takeWhile (fun dx => decide (x + dx < l.Size.Width)) = [0, 1] := by
      rw [intRange_zero_two]
      simp [List.takeWhile, h0, hx1]
    rw [carveRight, hl]
    simp only [forEach, e1, e2]
  · have := c2.2.2 _ _ o1
    simpa using this

/-- The swath loop of a step down, with both cells inside the grid: it clears `(x,y)`
and `(x,y+1)`. -/
theorem carveDown_spec {l : Level} {x y : Int} (hwf : WellFormed l) (hx : 0 ≤ x)
    (hxW : x < l.Size.Width) (hy : 0 ≤ y) (hy1 : y + 1 < l.Size.Height) :
    ∃ l1, carveDown x y l = some l1 ∧ Carves l l1 ∧ isOpen l1.Cells x y = true
      ∧ isOpen l1.Cells x (y + 1) = true := by
  obtain ⟨l1, e1, c1, o1⟩ := setWall_false (x := x) (y := y + 0) hwf
    ⟨hx, hxW, by omega, by omega⟩
  obtain ⟨l2, e2, c2, o2⟩ := setWall_false (x := x) (y := y + 1) c1.2.1
    (by rw [c1.1.1]; exact ⟨hx, hxW, by omega, by omega⟩)
  refine ⟨l2, ?_, c1.carvesTrans c2, ?_, o2⟩
  · have h0 : y < l.Size.Height := by omega
    have hl : (intRange 0 2).takeWhile (fun dy => decide (y + dy < l.Size.Height)) = [0, 1] := by
      rw [intRange_zero_two]
      simp [List.takeWhile, h0, hy1]
    rw [carveDown, hl]
    simp only [forEach, e1, e2]
  · have := c2.2.2 _ _ o1
    simpa using this

/-- The loop of `createGuaranteedPath` from a position `(x,y)` that is not past the
finish, with enough fuel: it ends, only clears walls, and leaves a path of open cells
from `(x,y)` to the finish (`(x,y)` itself is cleared by the first step, if any). -/
theorem guaranteedPathLoop_spec :
    ∀ (n : Nat) (x y : Int) (l : Level) (rng : RandSource), WellFormed l →
      0 ≤ x → x ≤ l.Finish.X → l.Finish.X < l.Size.Width →
      0 ≤ y → y ≤ l.Finish.Y → l.Finish.Y < l.Size.Height →
      (l.Finish.X - x).toNat + (l.Finish.Y - y).toNat ≤ n →
      ∃ s1, guaranteedPathLoop n x y l rng = some s1 ∧ Carves l s1.1 ∧
        ((x < l.Finish.X ∨ y < l.Finish.Y) ∨ isOpen s1.1.Cells x y = true →
          Connected s1.1.Cells (x, y) (l.Finish.X, l.Finish.Y)) := by
  intro n
  induction n with
  | zero =>
    intro x y l rng hwf hx0 hxF hFW hy0 hyF hFH hfuel
    have hx : x = l.Finish.X := by omega
    have hy : y = l.Finish.Y := by omega
    refine ⟨(l, rng), ?_, Carves.carvesRefl hwf, ?_⟩
    · rw [guaranteedPathLoop, if_neg (by omega)]
    · intro ho
      rcases ho with ho | ho
      · omega
      · rw [← hx, ← hy]
        exact Connected.self ho
  | succ n ih =>
    intro x y l rng hwf hx0 hxF hFW hy0 hyF hFH hfuel
    by_cases hcond : x < l.Finish.X ∨ y < l.Finish.Y
    · have hright : ∀ rng1, x < l.Finish.X →
          ∃ s1, (match carveRight x y l with
              | none => none
              | some l1 => guaranteedPathLoop n (x + 1) y l1 rng1) = some s1 ∧ Carves l s1.1 ∧
            ((x < l.Finish.X ∨ y < l.Finish.Y) ∨ isOpen s1.1.Cells x y = true →
              Connected s1.1.Cells (x, y) (l.Finish.X, l.Finish.Y)) := by
        intro rng1 hlt
        obtain ⟨l1, e1, c1, o1, o2⟩ := carveRight_spec hwf hx0 (by omega) hy0 (by omega)
        obtain ⟨s1, e2, c2, hp⟩ := ih (x + 1) y l1 rng1 c1.2.1 (by omega)
          (by rw [c1.1.2.1]; omega) (by rw [c1.1.2.1, c1.1.1]; omega) hy0
          (by rw [c1.1.2.1]; omega) (by rw [c1.1.2.1, c1.1.1]; omega)
          (by rw [c1.1.2.1]; omega)
        refine ⟨s1, ?_, c1.carvesTrans c2, ?_⟩
        · simp only [e1]
          exact e2
        · intro _
          have hc := hp (Or.inr (c2.2.2 _ _ o2))
          rw [c1.1.2.1] at hc
          exact Connected.cons (c2.2.2 _ _ o1) (by simp [adjacent]) hc
      have hdown : ∀ rng1, y < l.Finish.Y →
          ∃ s1, (match carveDown x y l with
              | none => none
              | some l1 => guaranteedPathLoop n x (y + 1) l1 rng1) = some s1 ∧ Carves l s1.1 ∧
            ((x < l.Finish.X ∨ y < l.Finish.Y) ∨ isOpen s1.1.Cells x y = true →
              Connected s1.1.Cells (x, y) (l.Finish.X, l.Finish.Y)) := by
        intro rng1 hlt
        obtain ⟨l1, e1, c1, o1, o2⟩ := carveDown_spec hwf hx0 (by omega) hy0 (by omega)
        obtain ⟨s1, e2, c2, hp⟩ := ih x (y + 1) l1 rng1 c1.2.1 hx0
          (by rw [c1.1.2.1]; omega) (by rw [c1.1.2.1, c1.1.1]; omega) (by omega)
          (by rw [c1.1.2.1]; omega) (by rw [c1.1.2.1, c1.1.1]; omega)
          (by rw [c1.1.2.1]; omega)
        refine ⟨s1, ?_, c1.carvesTrans c2, ?_⟩
        · simp only [e1]
          exact e2
        · intro _
          have hc := hp (Or.inr (c2.2.2 _ _ o2))
          rw [c1.1.2.1] at hc
          exact Connected.cons (c2.2.2 _ _ o1) (by simp [adjacent]) hc
      by_cases hxlt : x < l.Finish.X
      · by_cases hyge : y ≥ l.Finish.Y
        · have e : guaranteedPathLoop (n + 1) x y l rng
              = (match carveRight x y l with
                | none => none
                | some l1 => guaranteedPathLoop n (x + 1) y l1 rng) := by
            rw [guaranteedPathLoop, if_pos hcond]
            simp only [hxlt, hyge, if_true]
          rw [e]
          exact hright rng hxlt
        · have hylt : y < l.Finish.Y := by omega
          by_cases hr : ltTenths (Float64 rng).1 5 = true
          · have e : guaranteedPathLoop (n + 1) x y l rng
                = (match carveRight x y l with
                  | none => none
                  | some l1 => guaranteedPathLoop n (x + 1) y l1 (Float64 rng).2) := by
              rw [guaranteedPathLoop, if_pos hcond]
              simp only [hxlt, hyge, hr, if_true, if_false]
            rw [e]
            exact hright _ hxlt
          · have e : guaranteedPathLoop (n + 1) x y l rng
                = (match carveDown x y l with
                  | none => none
                  | some l1 => guaranteedPathLoop n x (y + 1) l1 (Float64 rng).2) := by
              rw [guaranteedPathLoop, if_pos hcond]
              simp only [hxlt, hyge, hr, hylt, if_true, if_false, Bool.false_eq_true]
            rw [e]
            exact hdown _ hylt
      · have hylt : y < l.Finish.Y := by omega
        have e : guaranteedPathLoop (n + 1) x y l rng
            = (match carveDown x y l with
              | none => none
              | some l1 => guaranteedPathLoop n x (y + 1) l1 rng) := by
          rw [guaranteedPathLoop, if_pos hcond]
          simp only [hxlt, hylt, if_true, if_false, Bool.false_eq_true]
        rw [e]
        exact hdown rng hylt
    · have hx : x = l.Finish.X := by omega
      have hy : y = l.Finish.Y := by omega
      refine ⟨(l, rng), ?_, Carves.carvesRefl hwf, ?_⟩
      · rw [guaranteedPathLoop, if_neg hcond]
      · intro ho
        rcases ho with ho | ho
        · exact absurd ho hcond
        · rw [← hx, ← hy]
          exact Connected.self ho

/-- The method `createGuaranteedPath` on a well-formed grid whose finish lies inside the
grid and is not the start: it ends, only clears walls, and leaves a path of open cells
from `(0,0)` to the finish. -/
theorem createGuaranteedPath_spec {l : Level} (rng : RandSource) (hwf : WellFormed l)
    (hX0 : 0 ≤ l.Finish.X) (hXW : l.Finish.X < l.Size.Width)
    (hY0 : 0 ≤ l.Finish.Y) (hYH : l.Finish.Y < l.Size.Height)
    (hne : 0 < l.Finish.X ∨ 0 < l.Finish.Y) :
    ∃ s1, createGuaranteedPath l rng = some s1 ∧ Carves l s1.1 ∧
      Connected s1.1.Cells (0, 0) (l.Finish.X, l.Finish.Y) := by
  obtain ⟨s1, e1, c1, hp⟩ := guaranteedPathLoop_spec (l.Finish.X.toNat + l.Finish.Y.toNat)
    0 0 l rng hwf (le_refl 0) hX0 hXW (le_refl 0) hY0 hYH (by omega)
  exact ⟨s1, e1, c1, hp (Or.inl hne)⟩

/-! ## The random carve-outs -/

/-- A call `rand.Intn(n)` with `n > 0` does not panic and yields a value of `[0,n)`. -/
theorem Intn_spec {n : Int} (r : RandSource) (hn : 0 < n) :
    ∃ v, Intn n r = some v ∧ 0 ≤ v.1 ∧ v.1 < n := by
  refine ⟨((r.next.1 : Int) % n, r.next.2), ?_, Int.emod_nonneg _ (by omega),
    Int.emod_lt_of_pos _ hn⟩
  rw [Intn, if_neg (by omega)]

/-- One cell of a plus-shaped opening: it does not panic and only clears walls. -/
theorem crossStep_spec {l0 : Level} (x y dy dx : Int) {s : Level × RandSource}
    (hs : Carves l0 s.1) : ∃ s1, crossStep x y dy dx s = some s1 ∧ Carves l0 s1.1 := by
  unfold crossStep
  by_cases hc : dx = 0 ∨ dy = 0
  · by_cases hin : x + dx ≥ 0 ∧ x + dx < s.1.Size.Width ∧ y + dy ≥ 0 ∧ y + dy < s.1.Size.Height
    · obtain ⟨l1, e1, c1, _⟩ := setWall_false (x := x + dx) (y := y + dy) hs.2.1
        ⟨hin.1, hin.2.1, hin.2.2.1, hin.2.2.2⟩
      by_cases hr : ltTenths (Float64 s.2).1 5 = true
      · exact ⟨(l1, (Float64 s.2).2), by simp [hc, hin, hr, e1], hs.carvesTrans c1⟩
      · exact ⟨(s.1, (Float64 s.2).2), by simp [hc, hin, hr], hs⟩
    · exact ⟨s, by simp [hc, hin], hs⟩
  · exact ⟨s, by simp [hc], hs⟩

/-- One iteration of `connectIsolatedAreas` on a grid of at least 3x3: it does not panic
and only clears walls. -/
theorem connectStep_spec {l0 : Level} (i : Int) {s : Level × RandSource} (hs : Carves l0 s.1)
    (hW : 3 ≤ l0.Size.Width) (hH : 3 ≤ l0.Size.Height) :
    ∃ s1, connectStep i s = some s1 ∧ Carves l0 s1.1 := by
  unfold connectStep
  obtain ⟨rx, ex, -, -⟩ := Intn_spec s.2 (n := s.1.Size.Width - 2) (by rw [hs.1.1]; omega)
  obtain ⟨ry, ey, -, -⟩ := Intn_spec rx.2 (n := s.1.Size.Height - 2) (by rw [hs.1.1]; omega)
  simp only [ex, ey]
  apply forEach_inv _ (fun t => Carves l0 t.1) _ _ (s.1, ry.2) hs
  intro dy _ t ht
  apply forEach_inv _ (fun t => Carves l0 t.1) _ _ t ht
  intro dx _ u hu
  exact crossStep_spec _ _ dy dx hu

/-- The method `connectIsolatedAreas` on a well-formed grid of at least 3x3: it does not
panic and only clears walls. -/
theorem connectIsolatedAreas_spec {l : Level} (rng : RandSource) (hwf : WellFormed l)
    (hW : 3 ≤ l.Size.Width) (hH : 3 ≤ l.Size.Height) :
    ∃ s1, connectIsolatedAreas l rng = some s1 ∧ Carves l s1.1 := by
  unfold connectIsolatedAreas
  apply forEach_inv _ (fun t => Carves l t.1) _ _ (l, rng) (Carves.carvesRefl hwf)
  intro i _ t ht
  exact connectStep_spec i ht hW hH

/-- One cell of the 2x2 block, at non-negative coordinates: no panic, only clears. -/
theorem openBlockStep_spec {l0 l : Level} {x y dy dx : Int} (hs : Carves l0 l)
    (hx : 0 ≤ x + dx) (hy : 0 ≤ y + dy) :
    ∃ l1, openBlockStep x y dy dx l = some l1 ∧ Carves l0 l1 := by
  unfold openBlockStep
  by_cases hin : y + dy < l.Size.Height ∧ x + dx < l.Size.Width
  · obtain ⟨l1, e1, c1, _⟩ := setWall_false (x := x + dx) (y := y + dy) hs.2.1
      ⟨hx, hin.2, hy, hin.1⟩
    exact ⟨l1, by simp [hin, e1], hs.carvesTrans c1⟩
  · exact ⟨l, by simp [hin], hs⟩

/-- One cell of the ring around the 2x2 block: no panic, only clears. -/
theorem openRingStep_spec {l0 : Level} (x y dy dx : Int) {s : Level × RandSource}
    (hs : Carves l0 s.1) : ∃ s1, openRingStep x y dy dx s = some s1 ∧ Carves l0 s1.1 := by
  unfold openRingStep
  by_cases hin : x + dx ≥ 0 ∧ x + dx < s.1.Size.Width ∧ y + dy ≥ 0 ∧ y + dy < s.1.Size.Height
  · by_cases hc : dx = -1 ∨ dx = 2 ∨ dy = -1 ∨ dy = 2
    · obtain ⟨l1, e1, c1, _⟩ := setWall_false (x := x + dx) (y := y + dy) hs.2.1
        ⟨hin.1, hin.2.1, hin.2.2.1, hin.2.2.2⟩
      by_cases hr : ltTenths (Float64 s.2).1 7 = true
      · exact ⟨(l1, (Float64 s.2).2), by simp [hc, hin, hr, e1], hs.carvesTrans c1⟩
      · exact ⟨(s.1, (Float64 s.2).2), by simp [hc, hin, hr], hs⟩
    · exact ⟨s, by simp [hc, hin], hs⟩
  · exact ⟨s, by simp [hin], hs⟩

/-- The method `createOpenSpace2x2` on a well-formed grid of at least 5x5: it does not
panic and only clears walls. -/
theorem createOpenSpace2x2_spec {l : Level} (rng : RandSource) (hwf : WellFormed l)
    (hW : 5 ≤ l.Size.Width) (hH : 5 ≤ l.Size.Height) :
    ∃ s1, createOpenSpace2x2 l rng = some s1 ∧ Carves l s1.1 := by
  unfold createOpenSpace2x2
  obtain ⟨rx, ex, hx0, -⟩ := Intn_spec rng (n := l.Size.Width - 4) (by omega)
  obtain ⟨ry, ey, hy0, -⟩ := Intn_spec rx.2 (n := l.Size.Height - 4) (by omega)
  obtain ⟨l1, e1, c1⟩ := forEach_inv
    (fun dy l1 => forEach (fun dx l2 => openBlockStep (rx.1 + 2) (ry.1 + 2) dy dx l2)
      (intRange 0 2) l1)
    (fun t => Carves l t) (intRange 0 2)
    (by
      intro dy hdy t ht
      have hdyb := mem_intRange.mp hdy
      apply forEach_inv _ (fun t => Carves l t) _ _ t ht
      intro dx hdx u hu
      have hdxb := mem_intRange.mp hdx
      exact openBlockStep_spec hu (by omega) (by omega))
    l (Carves.carvesRefl hwf)
  obtain ⟨s2, e2, c2⟩ := forEach_inv
    (fun dy s1 => forEach (fun dx s2 => openRingStep (rx.1 + 2) (ry.1 + 2) dy dx s2)
      (intRange (-1) 3) s1)
    (fun t => Carves l t.1) (intRange (-1) 3)
    (by
      intro dy _ t ht
      apply forEach_inv _ (fun t => Carves l t.1) _ _ t ht
      intro dx _ u hu
      exact openRingStep_spec _ _ dy dx hu)
    (l1, ry.2) c1
  refine ⟨s2, ?_, c2⟩
  simp only [ex, ey, e1]
  exact e2

/-- Reopening start and finish on a well-formed grid that contains both: no panic, only
clears walls, and both cells are open afterwards. -/
theorem openStartFinish_spec {l : Level} (hwf : WellFormed l)
    (hW : 1 ≤ l.Size.Width) (hH : 1 ≤ l.Size.Height)
    (hfin : InGrid l.Size.Width l.Size.Height l.Finish.X l.Finish.Y) :
    ∃ l1, openStartFinish l = some l1 ∧ Carves l l1 ∧ isOpen l1.Cells 0 0 = true
      ∧ isOpen l1.Cells l.Finish.X l.Finish.Y = true := by
  unfold openStartFinish
  obtain ⟨l1, e1, c1, o1⟩ := setWall_false (x := 0) (y := 0) hwf
    ⟨le_refl 0, by omega, le_refl 0, by omega⟩
  obtain ⟨l2, e2, c2, o2⟩ := setWall_false (x := l1.Finish.X) (y := l1.Finish.Y) c1.2.1
    (by rw [c1.1.1, c1.1.2.1]; exact hfin)
  refine ⟨l2, ?_, c1.carvesTrans c2, c2.2.2 _ _ o1, ?_⟩
  · simp only [e1]
    exact e2
  · rw [c1.1.2.1] at o2
    exact o2

/-- The method `GenerateMaze` on a grid of at least 5x5 whose finish lies inside the
grid and is not the start: it does not panic, builds a well-formed grid, leaves start
and finish open, and leaves a path of open cells from the start to the finish. -/
theorem GenerateMaze_spec {l : Level} (rng : RandSource)
    (hW : 5 ≤ l.Size.Width) (hH : 5 ≤ l.Size.Height)
    (hfin : InGrid l.Size.Width l.Size.Height l.Finish.X l.Finish.Y)
    (hne : 0 < l.Finish.X ∨ 0 < l.Finish.Y) :
    ∃ s1, GenerateMaze l rng = some s1 ∧ SameFrame l s1.1 ∧ WellFormed s1.1 ∧
      isOpen s1.1.Cells 0 0 = true ∧ isOpen s1.1.Cells l.Finish.X l.Finish.Y = true ∧
      Connected s1.1.Cells (0, 0) (l.Finish.X, l.Finish.Y) := by
  obtain ⟨hX0, hXW, hY0, hYH⟩ := hfin
  obtain ⟨s1, e1, f1, w1, -⟩ := seedWalls_spec (l := l) rng (by omega) (by omega)
  obtain ⟨s2, e2, c2, p2⟩ := createGuaranteedPath_spec s1.2 w1
    (by rw [f1.2.1]; exact hX0) (by rw [f1.2.1, f1.1]; exact hXW)
    (by rw [f1.2.1]; exact hY0) (by rw [f1.2.1, f1.1]; exact hYH)
    (by rw [f1.2.1]; exact hne)
  have f2 : SameFrame l s2.1 := f1.frameTrans c2.1
  obtain ⟨s3, e3, c3⟩ := connectIsolatedAreas_spec s2.2 c2.2.1
    (by rw [f2.1]; omega) (by rw [f2.1]; omega)
  have f3 : SameFrame l s3.1 := f2.frameTrans c3.1
  obtain ⟨s4, e4, c4⟩ := createOpenSpace2x2_spec s3.2 c3.2.1
    (by rw [f3.1]; omega) (by rw [f3.1]; omega)
  have f4 : SameFrame l s4.1 := f3.frameTrans c4.1
  obtain ⟨l5, e5, c5, o5, o6⟩ := openStartFinish_spec c4.2.1
    (by rw [f4.1]; omega) (by rw [f4.1]; omega)
    (by rw [f4.1, f4.2.1]; exact ⟨hX0, hXW, hY0, hYH⟩)
  refine ⟨(l5, s4.2), ?_, f4.frameTrans c5.1, c5.2.1, o5, ?_, ?_⟩
  · simp only [GenerateMaze, e1, e2, e3, e4, e5]
  · rw [f4.2.1] at o6
    exact o6
  · rw [f1.2.1] at p2
    exact ((p2.mono c3.2.2).mono c4.2.2).mono c5.2.2

/-! ## The connectivity check -/

/-- Replacing one element of a list changes the sum of `f` over it accordingly. -/
theorem sum_map_set {α : Type} (f : α → Nat) :
    ∀ (l : List α) (j : Nat) (a b : α), l[j]? = some b →
      ((l.set j a).map f).sum + f b = (l.map f).sum + f a := by
  intro l
  induction l with
  | nil =>
    intro j a b h
    simp at h
  | cons c rest ih =>
    intro j a b h
    cases j with
    | zero =>
      simp only [List.getElem?_cons_zero, Option.some.injEq] at h
      subst h
      simp only [List.set_cons_zero, List.map_cons, List.sum_cons]
      omega
    | succ j =>
      simp only [List.getElem?_cons_succ] at h
      have := ih j a b h
      simp only [List.set_cons_succ, List.map_cons, List.sum_cons]
      omega

/-- Replacing one element of a list changes the count of `p` in it accordingly. -/
theorem countP_set_add {α : Type} (p : α → Bool) :
    ∀ (l : List α) (j : Nat) (a b : α), l[j]? = some b →
      (l.set j a).countP p + (if p b then 1 else 0)
        = l.countP p + (if p a then 1 else 0) := by
  intro l
  induction l with
  | nil =>
    intro j a b h
    simp at h
  | cons c rest ih =>
    intro j a b h
    cases j with
    | zero =>
      simp only [List.getElem?_cons_zero, Option.some.injEq] at h
      subst h
      simp only [List.set_cons_zero, List.countP_cons]
      omega
    | succ j =>
      simp only [List.getElem?_cons_succ] at h
      have := ih j a b h
      simp only [List.set_cons_succ, List.countP_cons]
      omega

/-- Marking an open unvisited cell as visited lowers the number of open unvisited cells
by one. -/
theorem unvisitedOpen_updateCell {cells g : Grid} {x y : Int} {f : Cell → Cell} {c : Cell}
    (h : updateCell cells x y f = some g) (hc : cellAt cells x y = some c)
    (hp : (!c.IsWall && !c.Visited) = true) (hq : (!(f c).IsWall && !(f c).Visited) = false) :
    unvisitedOpen g + 1 = unvisitedOpen cells := by
  unfold updateCell at h
  unfold cellAt at hc
  split at h
  · cases h
  · rename_i hneg
    simp only [hneg, if_false] at hc
    split at h
    · cases h
    · rename_i row hrow
      simp only [hrow] at hc
      simp only [hc] at h
      injection h with h
      subst h
      unfold unvisitedOpen
      have h1 := sum_map_set (fun row => row.countP (fun c => !c.IsWall && !c.Visited))
        cells y.toNat (row.set x.toNat (f c)) row hrow
      have h2 := countP_set_add (fun c => !c.IsWall && !c.Visited) row x.toNat (f c) c hc
      simp only [hp, hq, if_true, if_false, Bool.false_eq_true] at h2
      simp only at h1
      omega

/-- The number of open unvisited cells is at most the number of cells. -/
theorem unvisitedOpen_le_cellCount (cells : Grid) : unvisitedOpen cells ≤ cellCount cells := by
  unfold unvisitedOpen cellCount
  induction cells with
  | nil => simp
  | cons row rest ih =>
    simp only [List.map_cons, List.sum_cons]
    have := List.countP_le_length (fun c : Cell => !c.IsWall && !c.Visited) (l := row)
    omega

/-- Changing a visited flag inside the grid: no panic, every wall flag as it was, and the
visited flag of that cell only is changed. -/
theorem setVisited_flags {l : Level} {x y : Int} (b : Bool) (hwf : WellFormed l)
    (hin : InGrid l.Size.Width l.Size.Height x y) :
    ∃ l1, setVisited l x y b = some l1 ∧ Carves l l1 ∧
      (∀ x1 y1, isOpen l1.Cells x1 y1 = isOpen l.Cells x1 y1) ∧
      ∀ x1 y1, isVisited l1.Cells x1 y1
        = if x1 = x ∧ y1 = y then b else isVisited l.Cells x1 y1 := by
  obtain ⟨l1, h1, hf, hw, hc⟩ := setVisited_spec b hwf hin
  obtain ⟨c, hcell⟩ := Option.isSome_iff_exists.mp ((hwf x y).mpr hin)
  have hopen : ∀ x1 y1, isOpen l1.Cells x1 y1 = isOpen l.Cells x1 y1 := by
    intro x1 y1
    unfold isOpen
    rw [hc x1 y1]
    by_cases hxy : x1 = x ∧ y1 = y
    · obtain ⟨rfl, rfl⟩ := hxy
      simp [hcell]
    · simp [hxy]
  refine ⟨l1, h1, ⟨hf, hw, fun x1 y1 h => by rw [hopen]; exact h⟩, hopen, ?_⟩
  intro x1 y1
  unfold isVisited
  rw [hc x1 y1]
  by_cases hxy : x1 = x ∧ y1 = y
  · simp [hxy, hcell]
  · simp [hxy]

/-- Marking an open unvisited cell lowers the number of open unvisited cells by one. -/
theorem setVisited_measure {l l1 : Level} {x y : Int} {c : Cell}
    (h : setVisited l x y true = some l1) (hc : cellAt l.Cells x y = some c)
    (hp : (!c.IsWall && !c.Visited) = true) :
    unvisitedOpen l1.Cells + 1 = unvisitedOpen l.Cells := by
  unfold setVisited at h
  cases hg : updateCell l.Cells x y (fun c => { c with Visited := true }) with
  | none => simp [hg] at h
  | some g =>
    simp only [hg, Option.some.injEq] at h
    subst h
    exact unvisitedOpen_updateCell hg hc hp (by simp)

/-- The loop nest that resets the visited flags: no panic, no wall flag changes, and no
cell is marked visited afterwards. -/
theorem resetVisited_spec {l : Level} (hwf : WellFormed l) :
    ∃ l1, resetVisited l = some l1 ∧ Carves l l1 ∧
      (∀ x y, isOpen l1.Cells x y = isOpen l.Cells x y) ∧
      ∀ x y, isVisited l1.Cells x y = false := by
  unfold resetVisited
  have hrefl : Unmarks l l := ⟨Carves.carvesRefl hwf, fun _ _ => rfl, fun _ _ h => h⟩
  obtain ⟨l1, e1, u1, hQ, -⟩ := forEach_acc
    (fun y l1 => forEach (fun x l2 => setVisited l2 x y false) (intRange 0 l1.Size.Width) l1)
    (fun t => Unmarks l t)
    (fun y t => ∀ x, isVisited t.Cells x y = false)
    (intRange 0 l.Size.Height)
    (by
      intro y hy t ht
      have hyb := mem_intRange.mp hy
      obtain ⟨t1, e1, ⟨u1, v1⟩, hQ1, -⟩ := forEach_acc
        (fun x l2 => setVisited l2 x y false)
        (fun u => Unmarks l u ∧ ∀ x1 y1, isVisited u.Cells x1 y1 = true →
          isVisited t.Cells x1 y1 = true)
        (fun x u => isVisited u.Cells x y = false)
        (intRange 0 t.Size.Width)
        (by
          intro x hx u hu
          have hxb := mem_intRange.mp hx
          rw [ht.1.1.1] at hxb
          obtain ⟨u1, e1, c1, o1, v1⟩ := setVisited_flags (x := x) (y := y) false hu.1.1.2.1
            (by rw [hu.1.1.1.1]; exact ⟨by omega, by omega, by omega, by omega⟩)
          have hdown : ∀ x1 y1, isVisited u1.Cells x1 y1 = true →
              isVisited u.Cells x1 y1 = true := by
            intro x1 y1 h
            rw [v1 x1 y1] at h
            by_cases hxy : x1 = x ∧ y1 = y
            · simp [hxy] at h
            · simpa [hxy] using h
          refine ⟨u1, e1, ⟨⟨hu.1.1.carvesTrans c1, fun x1 y1 => by rw [o1, hu.1.2.1],
            fun x1 y1 h => hu.1.2.2 _ _ (hdown _ _ h)⟩,
            fun x1 y1 h => hu.2 _ _ (hdown _ _ h)⟩, ?_, ?_⟩
          · show isVisited u1.Cells x y = false
            rw [v1 x y]
            simp
          · intro j hj
            have hj1 : isVisited u.Cells j y = false := hj
            show isVisited u1.Cells j y = false
            cases hv : isVisited u1.Cells j y with
            | false => rfl
            | true =>
              have := hdown _ _ hv
              rw [hj1] at this
              cases this)
        t ⟨ht, fun _ _ h => h⟩
      refine ⟨t1, e1, u1, ?_, ?_⟩
      · show ∀ x, isVisited t1.Cells x y = false
        intro x
        by_cases hx : 0 ≤ x ∧ x < t.Size.Width
        · exact hQ1 x (mem_intRange.mpr (by omega))
        · cases hv : isVisited t1.Cells x y with
          | false => rfl
          | true =>
            exfalso
            unfold isVisited at hv
            cases hc : cellAt t1.Cells x y with
            | none => simp [hc] at hv
            | some c =>
              have hin := (u1.1.2.1 x y).mp (by simp [hc])
              rw [u1.1.1.1, ← ht.1.1.1] at hin
              exact hx ⟨hin.1, hin.2.1⟩
      · intro j hj
        have hj1 : ∀ x, isVisited t.Cells x j = false := hj
        show ∀ x, isVisited t1.Cells x j = false
        intro x
        cases hv : isVisited t1.Cells x j with
        | false => rfl
        | true =>
          have := v1 _ _ hv
          rw [hj1 x] at this
          cases this)
    l hrefl
  refine ⟨l1, e1, u1.1, u1.2.1, ?_⟩
  intro x y
  by_cases hy : 0 ≤ y ∧ y < l.Size.Height
  · exact hQ y (mem_intRange.mpr (by omega)) x
  · cases hv : isVisited l1.Cells x y with
    | false => rfl
    | true =>
      exfalso
      unfold isVisited at hv
      cases hc : cellAt l1.Cells x y with
      | none => simp [hc] at hv
      | some c =>
        have hin := (u1.1.2.1 x y).mp (by simp [hc])
        rw [u1.1.1.1] at hin
        exact hy ⟨hin.2.2.1, hin.2.2.2⟩

/-- No progress is progress of the search. -/
theorem SearchStep.stepRefl {l : Level} (q : List (Int × Int)) (hwf : WellFormed l) :
    SearchStep l q l q :=
  ⟨Carves.carvesRefl hwf, fun _ _ => rfl, fun _ _ h => h, fun _ _ h => Or.inl h,
    fun _ h => h⟩

/-- Progress of the search composes. -/
theorem SearchStep.stepTrans {l l1 l2 : Level} {q q1 q2 : List (Int × Int)}
    (h1 : SearchStep l q l1 q1) (h2 : SearchStep l1 q1 l2 q2) : SearchStep l q l2 q2 := by
  obtain ⟨c1, o1, v1, n1, s1⟩ := h1
  obtain ⟨c2, o2, v2, n2, s2⟩ := h2
  refine ⟨c1.carvesTrans c2, fun x y => by rw [o2, o1], fun x y h => v2 _ _ (v1 _ _ h), ?_,
    fun p hp => s2 p (s1 p hp)⟩
  intro x y h
  rcases n2 x y h with h | h
  · rcases n1 x y h with h | h
    · exact Or.inl h
    · exact Or.inr (s2 _ h)
  · exact Or.inr h

/-- One neighbour of the dequeued cell: no panic; a cell is marked only when it is pushed
on the queue; afterwards the neighbour is marked if it is open; and the queue grows by
one exactly when the number of open unvisited cells drops by one. -/
theorem visitNeighbor_spec (cur dir : Int × Int) {s : Level × List (Int × Int)}
    (hwf : WellFormed s.1) :
    ∃ s1, visitNeighbor cur dir s = some s1 ∧ SearchStep s.1 s.2 s1.1 s1.2 ∧
      (isOpen s1.1.Cells (cur.1 + dir.1) (cur.2 + dir.2) = true →
        isVisited s1.1.Cells (cur.1 + dir.1) (cur.2 + dir.2) = true) ∧
      s1.2.length + unvisitedOpen s1.1.Cells = s.2.length + unvisitedOpen s.1.Cells := by
  unfold visitNeighbor
  by_cases hin : cur.1 + dir.1 ≥ 0 ∧ cur.1 + dir.1 < s.1.Size.Width ∧ cur.2 + dir.2 ≥ 0
      ∧ cur.2 + dir.2 < s.1.Size.Height
  · have hin1 : InGrid s.1.Size.Width s.1.Size.Height (cur.1 + dir.1) (cur.2 + dir.2) :=
      ⟨hin.1, hin.2.1, hin.2.2.1, hin.2.2.2⟩
    obtain ⟨c, hc⟩ := Option.isSome_iff_exists.mp ((hwf _ _).mpr hin1)
    by_cases hp : (!c.IsWall && !c.Visited) = true
    · obtain ⟨l1, e1, c1, o1, v1⟩ := setVisited_flags true hwf hin1
      refine ⟨(l1, s.2 ++ [(cur.1 + dir.1, cur.2 + dir.2)]), by simp [hin, hc, hp, e1],
        ⟨c1, o1, ?_, ?_, fun p hp => List.mem_append_left _ hp⟩, ?_, ?_⟩
      · intro x y h
        rw [v1 x y]
        by_cases hxy : x = cur.1 + dir.1 ∧ y = cur.2 + dir.2
        · simp [hxy]
        · simpa [hxy] using h
      · intro x y h
        rw [v1 x y] at h
        by_cases hxy : x = cur.1 + dir.1 ∧ y = cur.2 + dir.2
        · right
          simp [hxy]
        · left
          simpa [hxy] using h
      · intro _
        show isVisited l1.Cells (cur.1 + dir.1) (cur.2 + dir.2) = true
        rw [v1]
        simp
      · have := setVisited_measure e1 hc hp
        simp only [List.length_append, List.length_singleton]
        omega
    · refine ⟨s, by simp [hin, hc, hp], SearchStep.stepRefl s.2 hwf, ?_, rfl⟩
      intro ho
      unfold isOpen at ho
      unfold isVisited
      simp only [hc] at ho ⊢
      cases hw : c.IsWall with
      | true => simp [hw] at ho
      | false =>
        cases hv : c.Visited with
        | true => rfl
        | false => simp [hw, hv] at hp
  · refine ⟨s, by simp [hin], SearchStep.stepRefl s.2 hwf, ?_, rfl⟩
    intro ho
    exfalso
    unfold isOpen at ho
    cases hc : cellAt s.1.Cells (cur.1 + dir.1) (cur.2 + dir.2) with
    | none => simp [hc] at ho
    | some c =>
      have := (hwf (cur.1 + dir.1) (cur.2 + dir.2)).mp (by simp [hc])
      exact hin ⟨this.1, this.2.1, this.2.2.1, this.2.2.2⟩

/-- The loop over the neighbours of the dequeued cell: no panic; a cell is marked only
when it is pushed on the queue; afterwards every open neighbour is marked. -/
theorem visitNeighbors_spec (cur : Int × Int) (dirs : List (Int × Int)) :
    ∀ (s : Level × List (Int × Int)), WellFormed s.1 →
      ∃ s1, forEach (visitNeighbor cur) dirs s = some s1 ∧ SearchStep s.1 s.2 s1.1 s1.2 ∧
        (∀ d ∈ dirs, isOpen s1.1.Cells (cur.1 + d.1) (cur.2 + d.2) = true →
          isVisited s1.1.Cells (cur.1 + d.1) (cur.2 + d.2) = true) ∧
        s1.2.length + unvisitedOpen s1.1.Cells = s.2.length + unvisitedOpen s.1.Cells := by
  induction dirs with
  | nil =>
    intro s hwf
    exact ⟨s, rfl, SearchStep.stepRefl s.2 hwf,
      fun d hd => absurd hd (List.not_mem_nil d), rfl⟩
  | cons d rest ih =>
    intro s hwf
    obtain ⟨s1, e1, t1, q1, m1⟩ := visitNeighbor_spec cur d hwf
    obtain ⟨s2, e2, t2, q2, m2⟩ := ih s1 t1.1.2.1
    refine ⟨s2, ?_, t1.stepTrans t2, ?_, m2.trans m1⟩
    · simp only [forEach, e1]
      exact e2
    · intro d1 hd1 ho
      rcases List.mem_cons.mp hd1 with rfl | hd1
      · rw [t2.2.1] at ho
        exact t2.2.2.1 _ _ (q1 ho)
      · exact q2 d1 hd1 ho

/-- The search loop ends within the fuel (each iteration removes one cell from the queue
and adds as many as it marks), changes no wall flag, keeps the marks, and ends with
every marked cell having all its open neighbours marked. -/
theorem searchLoop_spec :
    ∀ (n : Nat) (l : Level) (q : List (Int × Int)), WellFormed l → SearchClosed l q →
      q.length + unvisitedOpen l.Cells ≤ n →
      ∃ l1, searchLoop n l q = some l1 ∧ Carves l l1 ∧
        (∀ x y, isOpen l1.Cells x y = isOpen l.Cells x y) ∧
        (∀ x y, isVisited l.Cells x y = true → isVisited l1.Cells x y = true) ∧
        SearchClosed l1 [] := by
  intro n
  induction n with
  | zero =>
    intro l q hwf hcl hm
    cases q with
    | nil =>
      exact ⟨l, by simp [searchLoop], Carves.carvesRefl hwf, fun _ _ => rfl, fun _ _ h => h, hcl⟩
    | cons cur rest => simp at hm
  | succ n ih =>
    intro l q hwf hcl hm
    cases q with
    | nil =>
      exact ⟨l, by simp [searchLoop], Carves.carvesRefl hwf, fun _ _ => rfl, fun _ _ h => h, hcl⟩
    | cons cur rest =>
      obtain ⟨s1, e1, t1, q1, m1⟩ := visitNeighbors_spec cur directions (l, rest) hwf
      have hcl1 : SearchClosed s1.1 s1.2 := by
        intro x y hv hq d hd ho
        rcases t1.2.2.2.1 x y hv with hv0 | hin
        · by_cases hcur : (x, y) = cur
          · subst hcur
            exact q1 d hd ho
          · have hnq : (x, y) ∉ cur :: rest := by
              intro hmem
              rcases List.mem_cons.mp hmem with h | h
              · exact hcur h
              · exact hq (t1.2.2.2.2 _ h)
            rw [t1.2.1] at ho
            exact t1.2.2.1 _ _ (hcl x y hv0 hnq d hd ho)
        · exact absurd hin hq
      obtain ⟨l2, e2, c2, o2, v2, k2⟩ := ih s1.1 s1.2 t1.1.2.1 hcl1 (by
        simp only [List.length_cons] at hm
        simp only at m1
        omega)
      refine ⟨l2, ?_, t1.1.carvesTrans c2, fun x y => by rw [o2, t1.2.1],
        fun x y h => v2 _ _ (t1.2.2.1 _ _ h), k2⟩
      simp only [searchLoop, e1]
      exact e2

/-- The first cell of a path is open. -/
theorem validPath_head_open {cells : Grid} {a b : Int × Int} {rest : List (Int × Int)}
    (h : validPath cells a rest b = true) : isOpen cells a.1 a.2 = true := by
  cases rest with
  | nil =>
    simp only [validPath, Bool.and_eq_true] at h
    exact h.2
  | cons p rest =>
    simp only [validPath, Bool.and_eq_true] at h
    exact h.1.1

/-- A 4-adjacent cell is reached by one of the four `directions`. -/
theorem adjacent_direction {a p : Int × Int} (h : adjacent a p = true) :
    ∃ d ∈ directions, p = (a.1 + d.1, a.2 + d.2) := by
  obtain ⟨a1, a2⟩ := a
  obtain ⟨p1, p2⟩ := p
  simp only [adjacent, Bool.or_eq_true, Bool.and_eq_true, beq_iff_eq] at h
  rcases h with ⟨h1, h2 | h2⟩ | ⟨h1, h2 | h2⟩
  · exact ⟨(0, -1), by simp [directions], by simp only [Prod.mk.injEq]; omega⟩
  · exact ⟨(0, 1), by simp [directions], by simp only [Prod.mk.injEq]; omega⟩
  · exact ⟨(-1, 0), by simp [directions], by simp only [Prod.mk.injEq]; omega⟩
  · exact ⟨(1, 0), by simp [directions], by simp only [Prod.mk.injEq]; omega⟩

/-- When every marked cell has all its open neighbours marked, every cell joined to a
marked cell by a path of open cells is marked. -/
theorem visited_of_validPath {l : Level} (hcl : SearchClosed l []) (b : Int × Int) :
    ∀ (rest : List (Int × Int)) (a : Int × Int), validPath l.Cells a rest b = true →
      isVisited l.Cells a.1 a.2 = true → isVisited l.Cells b.1 b.2 = true := by
  intro rest
  induction rest with
  | nil =>
    intro a h hv
    simp only [validPath, Bool.and_eq_true, beq_iff_eq] at h
    rw [← h.1]
    exact hv
  | cons p rest ih =>
    intro a h hv
    have hp := h
    simp only [validPath, Bool.and_eq_true] at hp
    obtain ⟨d, hd, rfl⟩ := adjacent_direction hp.1.2
    have hopen := validPath_head_open hp.2
    exact ih _ hp.2 (hcl a.1 a.2 hv (List.not_mem_nil _) d hd hopen)

/-- The search of `EnsureConnectivity` on a well-formed non-empty grid: it does not
panic, its loop ends, it changes no wall flag, and it marks every cell that a path of
open cells joins to the start `(0,0)`. -/
theorem searchFromStart_spec {l : Level} (hwf : WellFormed l)
    (hW : 1 ≤ l.Size.Width) (hH : 1 ≤ l.Size.Height) :
    ∃ l3, searchFromStart l = some l3 ∧ Carves l l3 ∧
      (∀ x y, isOpen l3.Cells x y = isOpen l.Cells x y) ∧
      ∀ b, Connected l.Cells (0, 0) b → isVisited l3.Cells b.1 b.2 = true := by
  unfold searchFromStart
  obtain ⟨l1, e1, c1, o1, v1⟩ := resetVisited_spec hwf
  obtain ⟨l2, e2, c2, o2, v2⟩ := setVisited_flags (x := 0) (y := 0) true c1.2.1
    (by rw [c1.1.1]; exact ⟨by omega, by omega, by omega, by omega⟩)
  have hcl2 : SearchClosed l2 [(0, 0)] := by
    intro x y hv hq
    exfalso
    rw [v2 x y] at hv
    by_cases hxy : x = 0 ∧ y = 0
    · obtain ⟨rfl, rfl⟩ := hxy
      exact hq (List.mem_singleton.mpr rfl)
    · simp only [hxy, if_false] at hv
      rw [v1 x y] at hv
      cases hv
  obtain ⟨l3, e3, c3, o3, v3, k3⟩ := searchLoop_spec (cellCount l2.Cells + 1) l2 [(0, 0)]
    c2.2.1 hcl2 (by
      have := unvisitedOpen_le_cellCount l2.Cells
      simp only [List.length_singleton]
      omega)
  have hopen : ∀ x y, isOpen l3.Cells x y = isOpen l.Cells x y := by
    intro x y
    rw [o3, o2, o1]
  refine ⟨l3, ?_, c1.carvesTrans (c2.carvesTrans c3), hopen, ?_⟩
  · simp only [e1, e2]
    exact e3
  · rintro b ⟨rest, hrest⟩
    have hpath : validPath l3.Cells (0, 0) rest b = true :=
      validPath_mono (fun x y h => by rw [hopen]; exact h) b rest (0, 0) hrest
    have hstart : isVisited l3.Cells 0 0 = true := by
      apply v3
      rw [v2 0 0]
      simp
    exact visited_of_validPath k3 b rest (0, 0) hpath hstart

/-- The fallback corridor on a well-formed non-empty grid: no panic, only clears. -/
theorem createDirectPathToFinish_spec {l : Level} (hwf : WellFormed l)
    (hW : 1 ≤ l.Size.Width) (hH : 1 ≤ l.Size.Height) :
    ∃ l1, createDirectPathToFinish l = some l1 ∧ Carves l l1 := by
  unfold createDirectPathToFinish
  obtain ⟨l1, e1, c1⟩ := forEach_inv (fun x l1 => setWall l1 x 0 false)
    (fun t => Carves l t) (intRange 0 l.Size.Width)
    (by
      intro x hx t ht
      have hxb := mem_intRange.mp hx
      obtain ⟨t1, e1, c1, _⟩ := setWall_false (x := x) (y := 0) ht.2.1
        (by rw [ht.1.1]; exact ⟨by omega, by omega, by omega, by omega⟩)
      exact ⟨t1, e1, ht.carvesTrans c1⟩)
    l (Carves.carvesRefl hwf)
  obtain ⟨l2, e2, c2⟩ := forEach_inv (fun y l2 => setWall l2 (l2.Size.Width - 1) y false)
    (fun t => Carves l t) (intRange 0 l1.Size.Height)
    (by
      intro y hy t ht
      have hyb := mem_intRange.mp hy
      rw [c1.1.1] at hyb
      obtain ⟨t1, e1, c1, _⟩ := setWall_false (x := t.Size.Width - 1) (y := y) ht.2.1
        (by rw [ht.1.1]; exact ⟨by omega, by omega, by omega, by omega⟩)
      exact ⟨t1, e1, ht.carvesTrans c1⟩)
    l1 c1
  refine ⟨l2, ?_, c2⟩
  simp only [e1]
  exact e2

/-- The method `EnsureConnectivity` on a well-formed non-empty grid that contains the
finish: it does not panic, its search loop ends, and it only clears walls. -/
theorem EnsureConnectivity_spec {l : Level} (hwf : WellFormed l)
    (hW : 1 ≤ l.Size.Width) (hH : 1 ≤ l.Size.Height)
    (hfin : InGrid l.Size.Width l.Size.Height l.Finish.X l.Finish.Y) :
    ∃ l1, EnsureConnectivity l = some l1 ∧ Carves l l1 := by
  unfold EnsureConnectivity
  obtain ⟨l3, e3, c13, -, -⟩ := searchFromStart_spec hwf hW hH
  obtain ⟨c, hc⟩ := Option.isSome_iff_exists.mp ((c13.2.1 l3.Finish.X l3.Finish.Y).mpr
    (by rw [c13.1.1, c13.1.2.1]; exact hfin))
  simp only [e3, hc]
  by_cases hv : (!c.Visited) = true
  · obtain ⟨l4, e4, c4⟩ := createDirectPathToFinish_spec c13.2.1
      (by rw [c13.1.1]; exact hW) (by rw [c13.1.1]; exact hH)
    exact ⟨l4, by simp [hv, e4], c13.carvesTrans c4⟩
  · exact ⟨l3, by simp [hv], c13⟩

/-- The function `NewLevel` on a size of at least 5x5: it does not panic; the level it
returns has the requested size, the finish in the bottom-right corner, a well-formed
grid, start and finish open, and a path of open cells from the start to the finish. -/
theorem NewLevel_spec (size : LevelSize) (rng : RandSource)
    (hW : 5 ≤ size.Width) (hH : 5 ≤ size.Height) :
    ∃ s, NewLevel size rng = some s ∧ s.1.Size = size ∧
      s.1.Finish.X = size.Width - 1 ∧ s.1.Finish.Y = size.Height - 1 ∧
      WellFormed s.1 ∧ isOpen s.1.Cells 0 0 = true ∧
      isOpen s.1.Cells (size.Width - 1) (size.Height - 1) = true ∧
      Connected s.1.Cells (0, 0) (size.Width - 1, size.Height - 1) := by
  obtain ⟨rn, en, -, -⟩ := Intn_spec rng (n := 6) (by decide)
  have hfin : InGrid (blankLevel size (rn.1 + 1)).Size.Width
      (blankLevel size (rn.1 + 1)).Size.Height (blankLevel size (rn.1 + 1)).Finish.X
      (blankLevel size (rn.1 + 1)).Finish.Y := by
    simp only [blankLevel]
    exact ⟨by omega, by omega, by omega, by omega⟩
  obtain ⟨s1, e1, f1, w1, -, -, p1⟩ := GenerateMaze_spec (l := blankLevel size (rn.1 + 1))
    rn.2 hW hH hfin (by simp only [blankLevel]; omega)
  have hfin1 : InGrid s1.1.Size.Width s1.1.Size.Height s1.1.Finish.X s1.1.Finish.Y := by
    rw [f1.1, f1.2.1]; exact hfin
  obtain ⟨l2, e2, c2⟩ := EnsureConnectivity_spec w1
    (by rw [f1.1]; simp only [blankLevel]; omega)
    (by rw [f1.1]; simp only [blankLevel]; omega) hfin1
  have f2 : SameFrame (blankLevel size (rn.1 + 1)) l2 := f1.frameTrans c2.1
  obtain ⟨l3, e3, c3, o3, o4⟩ := openStartFinish_spec c2.2.1
    (by rw [f2.1]; simp only [blankLevel]; omega)
    (by rw [f2.1]; simp only [blankLevel]; omega)
    (by rw [f2.1, f2.2.1]; exact hfin)
  have f3 : SameFrame (blankLevel size (rn.1 + 1)) l3 := f2.frameTrans c3.1
  refine ⟨({ l3 with Won := false }, s1.2), ?_, ?_, ?_, ?_, c3.2.1, o3, ?_, ?_⟩
  · simp only [NewLevel, en, e1, e2, e3]
  · exact f3.1
  · exact congrArg FinishCell.X f3.2.1
  · exact congrArg FinishCell.Y f3.2.1
  · rw [f2.2.1] at o4
    exact o4
  · exact (p1.mono c2.2.2).mono c3.2.2

end Maze

/-! ## The levels returned by `NewLevel` (maze variant) -/

/-- Witness of C5: in the 2x1 level whose right cell is a wall, and in a level of the
simple variant with a wall at `(0,0)`, the move to `(0,0)` is accepted in the first and
rejected in the second. -/
theorem IsValidMove_spec_witness :
    Maze.RowsCols Maze.twoCellLevel.Cells Maze.twoCellLevel.Size.Width
        Maze.twoCellLevel.Size.Height ∧
      Maze.IsValidMove Maze.twoCellLevel 0 0 = some true ∧
      Simple.IsValidMove
        { Player := { X := 1, Y := 1, Die := NewDie }
          Finish := { X := 10, Y := 6, Number := 1 }
          Walls := [(0, 0)]
          Won := false } 0 0 = false :=
  have hwf : Maze.RowsCols Maze.twoCellLevel.Cells Maze.twoCellLevel.Size.Width
      Maze.twoCellLevel.Size.Height := by
    simp [Maze.RowsCols, Maze.twoCellLevel, Maze.presetSize]
  ⟨hwf,
    (IsValidMove_spec Maze.twoCellLevel
      { Player := { X := 1, Y := 1, Die := NewDie }
        Finish := { X := 10, Y := 6, Number := 1 }
        Walls := [(0, 0)]
        Won := false } 0 0 hwf).2.1.mpr ⟨by decide, by decide⟩,
    (IsValidMove_spec Maze.twoCellLevel
      { Player := { X := 1, Y := 1, Die := NewDie }
        Finish := { X := 10, Y := 6, Number := 1 }
        Walls := [(0, 0)]
        Won := false } 0 0 hwf).2.2.1.mpr (Or.inr (by decide))⟩

/-- C2: for every size of at least 5x5 and every sequence of random outcomes, the maze
variant's `NewLevel` returns a level, its finish is `(Width-1, Height-1)`, its grid has
a path of 4-adjacent non-wall cells from `(0,0)` to the finish, and the breadth-first
search of `EnsureConnectivity`, run on the returned level from `(0,0)`, ends with the
finish cell marked visited. -/
theorem NewLevel_finish_reachable (size : Maze.LevelSize) (rng : RandSource)
    (hW : 5 ≤ size.Width) (hH : 5 ≤ size.Height) :
    ∃ l rng1, Maze.NewLevel size rng = some (l, rng1) ∧
      l.Finish.X = size.Width - 1 ∧ l.Finish.Y = size.Height - 1 ∧
      Maze.Connected l.Cells (0, 0) (l.Finish.X, l.Finish.Y) ∧
      ∃ l1, Maze.searchFromStart l = some l1 ∧
        Maze.isVisited l1.Cells l.Finish.X l.Finish.Y = true := by
  obtain ⟨s, e, hs, fx, fy, hwf, -, -, hp⟩ := Maze.NewLevel_spec size rng hW hH
  rw [← fx, ← fy] at hp
  obtain ⟨l1, e1, -, -, hv⟩ := Maze.searchFromStart_spec hwf
    (by rw [hs]; omega) (by rw [hs]; omega)
  exact ⟨s.1, s.2, e, fx, fy, hp, l1, e1, hv _ hp⟩

/-- Witness of C2: the 5x5 level generated from the all-zero random outcomes. -/
theorem NewLevel_finish_reachable_witness :
    ∃ l rng1, Maze.NewLevel (Maze.presetSize 5 5) (constRand 0) = some (l, rng1) ∧
      l.Finish.X = 4 ∧ l.Finish.Y = 4 ∧
      Maze.Connected l.Cells (0, 0) (l.Finish.X, l.Finish.Y) ∧
      ∃ l1, Maze.searchFromStart l = some l1 ∧
        Maze.isVisited l1.Cells l.Finish.X l.Finish.Y = true :=
  NewLevel_finish_reachable (Maze.presetSize 5 5) (constRand 0) (by decide) (by decide)

/-- C3: for every size of at least 5x5 and every sequence of random outcomes, the maze
variant's `NewLevel` returns a level in which the cell `(0,0)` and the finish cell exist
and have `IsWall = false`. -/
theorem NewLevel_start_finish_not_wall (size : Maze.LevelSize) (rng : RandSource)
    (hW : 5 ≤ size.Width) (hH : 5 ≤ size.Height) :
    ∃ l rng1, Maze.NewLevel size rng = some (l, rng1) ∧
      (∃ c, Maze.cellAt l.Cells 0 0 = some c ∧ c.IsWall = false) ∧
      (∃ c, Maze.cellAt l.Cells l.Finish.X l.Finish.Y = some c ∧ c.IsWall = false) := by
  obtain ⟨s, e, -, fx, fy, -, o1, o2, -⟩ := Maze.NewLevel_spec size rng hW hH
  refine ⟨s.1, s.2, e, ?_, ?_⟩
  · unfold Maze.isOpen at o1
    cases hc : Maze.cellAt s.1.Cells 0 0 with
    | none => simp [hc] at o1
    | some c => exact ⟨c, rfl, by simpa [hc] using o1⟩
  · rw [fx, fy]
    unfold Maze.isOpen at o2
    cases hc : Maze.cellAt s.1.Cells (size.Width - 1) (size.Height - 1) with
    | none => simp [hc] at o2
    | some c => exact ⟨c, rfl, by simpa [hc] using o2⟩

/-- Witness of C3: the 7x5 level generated from the all-zero random outcomes. -/
theorem NewLevel_start_finish_not_wall_witness :
    ∃ l rng1, Maze.NewLevel (Maze.presetSize 7 5) (constRand 0) = some (l, rng1) ∧
      (∃ c, Maze.cellAt l.Cells 0 0 = some c ∧ c.IsWall = false) ∧
      (∃ c, Maze.cellAt l.Cells l.Finish.X l.Finish.Y = some c ∧ c.IsWall = false) :=
  NewLevel_start_finish_not_wall (Maze.presetSize 7 5) (constRand 0) (by decide) (by decide)

/-- C10, as stated, fails: in the 5x5 level that `NewLevel` generates from the all-zero
random outcomes, the border cell `(0,0)` is not a wall. -/
theorem NewLevel_border_counterexample :
    (5 : Int) ≤ (Maze.presetSize 5 5).Width ∧ (5 : Int) ≤ (Maze.presetSize 5 5).Height ∧
      Maze.OnBorder 5 5 0 0 ∧
      (Maze.NewLevel (Maze.presetSize 5 5) (constRand 0)).map
        (fun s => Maze.isWallAt s.1.Cells 0 0) = some false := by
  refine ⟨by decide, by decide, ?_, by decide⟩
  simp [Maze.OnBorder, Maze.InGrid]

/-- C10, amended: for every size of at least 5x5 and every sequence of random outcomes,
the outer border is entirely wall in the grid that the seeding phase of `GenerateMaze`
(allocation, border loops, lattice walls) builds for `NewLevel`; in the level that
`NewLevel` returns, the border cells `(0,0)` and `(Width-1, Height-1)` are not walls. -/
theorem seedWalls_border_all_wall (size : Maze.LevelSize) (number : Int) (rng : RandSource)
    (hW : 5 ≤ size.Width) (hH : 5 ≤ size.Height) :
    (∃ l1 rng1, Maze.seedWalls (Maze.blankLevel size number) rng = some (l1, rng1) ∧
      ∀ x y, 0 ≤ x ∧ x < size.Width ∧ 0 ≤ y ∧ y < size.Height →
        x = 0 ∨ x = size.Width - 1 ∨ y = 0 ∨ y = size.Height - 1 →
        Maze.isWallAt l1.Cells x y = true) ∧
    (∃ l rng1, Maze.NewLevel size rng = some (l, rng1) ∧
      Maze.isWallAt l.Cells 0 0 = false ∧
      Maze.isWallAt l.Cells (size.Width - 1) (size.Height - 1) = false) := by
  constructor
  · obtain ⟨s1, e1, -, -, hb⟩ := Maze.seedWalls_spec (l := Maze.blankLevel size number) rng
      (by simp only [Maze.blankLevel]; omega) (by simp only [Maze.blankLevel]; omega)
    exact ⟨s1.1, s1.2, e1, fun x y hin hbd => hb x y ⟨hin, hbd⟩⟩
  · obtain ⟨s, e, -, -, -, -, o1, o2, -⟩ := Maze.NewLevel_spec size rng hW hH
    refine ⟨s.1, s.2, e, ?_, ?_⟩
    · unfold Maze.isOpen at o1
      unfold Maze.isWallAt
      cases hc : Maze.cellAt s.1.Cells 0 0 with
      | none => simp [hc] at o1
      | some c => simpa [hc] using o1
    · unfold Maze.isOpen at o2
      unfold Maze.isWallAt
      cases hc : Maze.cellAt s.1.Cells (size.Width - 1) (size.Height - 1) with
      | none => simp [hc] at o2
      | some c => simpa [hc] using o2

/-- Witness of the amended C10: size 6x5, target 3, all-zero random outcomes. -/
theorem seedWalls_border_all_wall_witness :
    (∃ l1 rng1, Maze.seedWalls (Maze.blankLevel (Maze.presetSize 6 5) 3) (constRand 0)
        = some (l1, rng1) ∧
      ∀ x y, 0 ≤ x ∧ x < (Maze.presetSize 6 5).Width ∧ 0 ≤ y ∧ y < (Maze.presetSize 6 5).Height →
        x = 0 ∨ x = (Maze.presetSize 6 5).Width - 1 ∨ y = 0
          ∨ y = (Maze.presetSize 6 5).Height - 1 →
        Maze.isWallAt l1.Cells x y = true) ∧
    (∃ l rng1, Maze.NewLevel (Maze.presetSize 6 5) (constRand 0) = some (l, rng1) ∧
      Maze.isWallAt l.Cells 0 0 = false ∧
      Maze.isWallAt l.Cells ((Maze.presetSize 6 5).Width - 1)
        ((Maze.presetSize 6 5).Height - 1) = false) :=
  seedWalls_border_all_wall (Maze.presetSize 6 5) 3 (constRand 0) (by decide) (by decide)

/-! ## Further properties of the die -/

/-- C14: in both variants `CurrentTop` equals `Top` in the die of `NewDie`, and after
`Roll(d)` from every die state, for every integer value `d` of `Direction`, also outside
the four named directions. -/
theorem CurrentTop_eq_Top (s : Die) (dir : Direction) :
    NewDie.CurrentTop = NewDie.Top ∧
    (Maze.Roll s dir).CurrentTop = (Maze.Roll s dir).Top ∧
    (Simple.Roll s dir).CurrentTop = (Simple.Roll s dir).Top :=
  ⟨rfl, rfl, rfl⟩

/-- A roll of the maze variant in a named direction keeps the faces distinct and in
`[1,6]`. -/
theorem Maze.mazeRoll_keeps_faces (d : Die) (dir : Direction) (hdir : IsNamedDirection dir)
    (hd : FacesDistinct d) (hr : FacesInRange d) :
    FacesDistinct (Maze.Roll d dir) ∧ FacesInRange (Maze.Roll d dir) := by
  cases d
  simp only [FacesDistinct, FacesInRange, List.nodup_cons, List.mem_cons, List.mem_singleton,
    not_or, List.not_mem_nil, not_false_eq_true, List.nodup_nil, and_true, forall_eq_or_imp,
    forall_eq, or_false, false_implies, implies_true] at hd hr
  obtain ⟨⟨a1, a2, a3, a4, a5⟩, ⟨b1, b2, b3, b4⟩, ⟨c1, c2, c3⟩, ⟨e1, e2⟩, f1⟩ := hd
  obtain ⟨h1, h2, h3, h4, h5, h6⟩ := hr
  rcases hdir with rfl | rfl | rfl | rfl <;>
    simp [Maze.Roll, FacesDistinct, FacesInRange, Up, Down, Left, Right, a1, a2, a3, a4, a5,
      b1, b2, b3, b4, c1, c2, c3, e1, e2, f1, Ne.symm, eq_comm] <;>
    (intro f hf; rcases hf with rfl | rfl | rfl | rfl | rfl | rfl <;> assumption)

/-- A roll of the simple variant in a named direction keeps the faces distinct and in
`[1,6]`. -/
theorem Simple.simpleRoll_keeps_faces (d : Die) (dir : Direction) (hdir : IsNamedDirection dir)
    (hd : FacesDistinct d) (hr : FacesInRange d) :
    FacesDistinct (Simple.Roll d dir) ∧ FacesInRange (Simple.Roll d dir) := by
  cases d
  simp only [FacesDistinct, FacesInRange, List.nodup_cons, List.mem_cons, List.mem_singleton,
    not_or, List.not_mem_nil, not_false_eq_true, List.nodup_nil, and_true, forall_eq_or_imp,
    forall_eq, or_false, false_implies, implies_true] at hd hr
  obtain ⟨⟨a1, a2, a3, a4, a5⟩, ⟨b1, b2, b3, b4⟩, ⟨c1, c2, c3⟩, ⟨e1, e2⟩, f1⟩ := hd
  obtain ⟨h1, h2, h3, h4, h5, h6⟩ := hr
  rcases hdir with rfl | rfl | rfl | rfl <;>
    simp [Simple.Roll, FacesDistinct, FacesInRange, Up, Down, Left, Right, a1, a2, a3, a4, a5,
      b1, b2, b3, b4, c1, c2, c3, e1, e2, f1, Ne.symm, eq_comm] <;>
    (intro f hf; rcases hf with rfl | rfl | rfl | rfl | rfl | rfl <;> assumption)

/-- A roll in a named direction keeps every value of `1..6` on some face, in both
variants. -/
theorem Roll_keeps_cover (d : Die) (dir : Direction) (hdir : IsNamedDirection dir)
    (hc : FacesCover d) : FacesCover (Maze.Roll d dir) ∧ FacesCover (Simple.Roll d dir) := by
  cases d
  simp only [FacesCover, List.mem_cons, List.mem_singleton, List.not_mem_nil, or_false] at hc
  rcases hdir with rfl | rfl | rfl | rfl <;>
    simp only [Maze.Roll, Simple.Roll, FacesCover, Up, Down, Left, Right, List.mem_cons,
      List.mem_singleton, List.not_mem_nil, or_false] <;>
    (constructor <;> (intro v hv; have := hc v hv; simp; tauto))

/-- C15: in both variants, at every die state reached from `NewDie()` by a finite
sequence of rolls in the four named directions, the six faces are pairwise distinct,
each lies in `[1,6]`, and each value of `1..6` is on one of them. -/
theorem reachable_faces_permutation (dirs : List Direction)
    (hdirs : ∀ dir ∈ dirs, IsNamedDirection dir) :
    (FacesDistinct (rollSeq Maze.Roll NewDie dirs) ∧
      FacesInRange (rollSeq Maze.Roll NewDie dirs) ∧
      FacesCover (rollSeq Maze.Roll NewDie dirs)) ∧
    (FacesDistinct (rollSeq Simple.Roll NewDie dirs) ∧
      FacesInRange (rollSeq Simple.Roll NewDie dirs) ∧
      FacesCover (rollSeq Simple.Roll NewDie dirs)) := by
  have hcm : ∀ (ds : List Direction) (d : Die), (∀ dir ∈ ds, IsNamedDirection dir) →
      FacesCover d → FacesCover (rollSeq Maze.Roll d ds) := by
    intro ds
    induction ds with
    | nil => exact fun d _ hc => hc
    | cons dir rest ih =>
      intro d hds hc
      exact ih (Maze.Roll d dir) (fun e he => hds e (List.mem_cons_of_mem dir he))
        (Roll_keeps_cover d dir (hds dir (List.mem_cons_self dir rest)) hc).1
  have hcs : ∀ (ds : List Direction) (d : Die), (∀ dir ∈ ds, IsNamedDirection dir) →
      FacesCover d → FacesCover (rollSeq Simple.Roll d ds) := by
    intro ds
    induction ds with
    | nil => exact fun d _ hc => hc
    | cons dir rest ih =>
      intro d hds hc
      exact ih (Simple.Roll d dir) (fun e he => hds e (List.mem_cons_of_mem dir he))
        (Roll_keeps_cover d dir (hds dir (List.mem_cons_self dir rest)) hc).2
  have hc0 : FacesCover NewDie := by
    intro v hv
    simp only [NewDie, List.mem_cons, List.mem_singleton, List.not_mem_nil, or_false]
    omega
  have hm : ∀ (ds : List Direction) (d : Die), (∀ dir ∈ ds, IsNamedDirection dir) →
      FacesDistinct d → FacesInRange d →
      FacesDistinct (rollSeq Maze.Roll d ds) ∧ FacesInRange (rollSeq Maze.Roll d ds) := by
    intro ds
    induction ds with
    | nil => exact fun d _ hd hr => ⟨hd, hr⟩
    | cons dir rest ih =>
      intro d hds hd hr
      have h1 := Maze.mazeRoll_keeps_faces d dir (hds dir (List.mem_cons_self dir rest)) hd hr
      exact ih (Maze.Roll d dir) (fun e he => hds e (List.mem_cons_of_mem dir he)) h1.1 h1.2
  have hs : ∀ (ds : List Direction) (d : Die), (∀ dir ∈ ds, IsNamedDirection dir) →
      FacesDistinct d → FacesInRange d →
      FacesDistinct (rollSeq Simple.Roll d ds) ∧ FacesInRange (rollSeq Simple.Roll d ds) := by
    intro ds
    induction ds with
    | nil => exact fun d _ hd hr => ⟨hd, hr⟩
    | cons dir rest ih =>
      intro d hds hd hr
      have h1 := Simple.simpleRoll_keeps_faces d dir (hds dir (List.mem_cons_self dir rest)) hd hr
      exact ih (Simple.Roll d dir) (fun e he => hds e (List.mem_cons_of_mem dir he)) h1.1 h1.2
  have hd0 : FacesDistinct NewDie := by decide
  have hr0 : FacesInRange NewDie := by
    simp [FacesInRange, NewDie]
  have h1 := hm dirs NewDie hdirs hd0 hr0
  have h2 := hs dirs NewDie hdirs hd0 hr0
  exact ⟨⟨h1.1, h1.2, hcm dirs NewDie hdirs hc0⟩, ⟨h2.1, h2.2, hcs dirs NewDie hdirs hc0⟩⟩

/-- Witness of C15: the rolls Up, Right, Right, Down, Left from `NewDie`. -/
theorem reachable_faces_permutation_witness :
    (∀ dir ∈ [Up, Right, Right, Down, Left], IsNamedDirection dir) ∧
    (FacesDistinct (rollSeq Maze.Roll NewDie [Up, Right, Right, Down, Left]) ∧
      FacesInRange (rollSeq Maze.Roll NewDie [Up, Right, Right, Down, Left]) ∧
      FacesCover (rollSeq Maze.Roll NewDie [Up, Right, Right, Down, Left])) ∧
    (FacesDistinct (rollSeq Simple.Roll NewDie [Up, Right, Right, Down, Left]) ∧
      FacesInRange (rollSeq Simple.Roll NewDie [Up, Right, Right, Down, Left]) ∧
      FacesCover (rollSeq Simple.Roll NewDie [Up, Right, Right, Down, Left])) :=
  have h : ∀ dir ∈ [Up, Right, Right, Down, Left], IsNamedDirection dir := by
    simp [IsNamedDirection]
  ⟨h, reachable_faces_permutation [Up, Right, Right, Down, Left] h⟩

/-- C18: for every die state, `Roll(Up)` of the maze variant gives the die of `Roll(Down)`
of the simple variant, `Roll(Down)` of the maze variant the die of `Roll(Up)` of the
simple variant, and `Roll(Left)` and `Roll(Right)` give the same die in both variants;
on the die of `NewDie` the two variants differ for `Up` and for `Down`. -/
theorem Roll_conventions_opposite (d : Die) :
    Maze.Roll d Up = Simple.Roll d Down ∧ Maze.Roll d Down = Simple.Roll d Up ∧
    Maze.Roll d Left = Simple.Roll d Left ∧ Maze.Roll d Right = Simple.Roll d Right ∧
    Maze.Roll NewDie Up ≠ Simple.Roll NewDie Up ∧
    Maze.Roll NewDie Down ≠ Simple.Roll NewDie Down := by
  refine ⟨?_, ?_, ?_, ?_, by decide, by decide⟩ <;>
    simp [Maze.Roll, Simple.Roll, Up, Down, Left, Right]

/-! ## Input handling -/

namespace Maze

/-- A grid of `Height` rows of `Width` cells is well-formed. -/
theorem wellFormed_of_rowsCols {l : Level}
    (h : RowsCols l.Cells l.Size.Width l.Size.Height) : WellFormed l :=
  fun x y => cellAt_isSome_of_rowsCols h x y

/-- On a well-formed grid `IsValidMove` does not panic. -/
theorem IsValidMove_total {l : Level} (hwf : WellFormed l) (x y : Int) :
    ∃ b, IsValidMove l x y = some b := by
  unfold IsValidMove
  by_cases hin : 0 ≤ x ∧ x < l.Size.Width ∧ 0 ≤ y ∧ y < l.Size.Height
  · obtain ⟨c, hc⟩ := Option.isSome_iff_exists.mp ((hwf x y).mpr hin)
    have hcond : (decide (x < 0) || decide (x ≥ l.Size.Width) || decide (y < 0)
        || decide (y ≥ l.Size.Height)) = false := by
      simp; omega
    simp only [hcond, hc]
    cases c.IsWall <;> simp
  · have hcond : (decide (x < 0) || decide (x ≥ l.Size.Width) || decide (y < 0)
        || decide (y ≥ l.Size.Height)) = true := by
      simp; omega
    simp [hcond]

/-- A movement block changes at most the player. -/
theorem moveUp_frame {keys : Keys} {l l1 : Level} (h : moveUp keys l = some l1) :
    l1.Cells = l.Cells ∧ l1.Size = l.Size ∧ l1.Finish = l.Finish ∧ l1.Won = l.Won := by
  unfold moveUp at h
  split at h
  · split at h
    · cases h
    · split at h <;> (injection h with h; subst h; exact ⟨rfl, rfl, rfl, rfl⟩)
  · injection h with h; subst h; exact ⟨rfl, rfl, rfl, rfl⟩

/-- A movement block changes at most the player. -/
theorem moveDown_frame {keys : Keys} {l l1 : Level} (h : moveDown keys l = some l1) :
    l1.Cells = l.Cells ∧ l1.Size = l.Size ∧ l1.Finish = l.Finish ∧ l1.Won = l.Won := by
  unfold moveDown at h
  split at h
  · split at h
    · cases h
    · split at h <;> (injection h with h; subst h; exact ⟨rfl, rfl, rfl, rfl⟩)
  · injection h with h; subst h; exact ⟨rfl, rfl, rfl, rfl⟩

/-- A movement block changes at most the player. -/
theorem moveLeft_frame {keys : Keys} {l l1 : Level} (h : moveLeft keys l = some l1) :
    l1.Cells = l.Cells ∧ l1.Size = l.Size ∧ l1.Finish = l.Finish ∧ l1.Won = l.Won := by
  unfold moveLeft at h
  split at h
  · split at h
    · cases h
    · split at h <;> (injection h with h; subst h; exact ⟨rfl, rfl, rfl, rfl⟩)
  · injection h with h; subst h; exact ⟨rfl, rfl, rfl, rfl⟩

/-- A movement block changes at most the player. -/
theorem moveRight_frame {keys : Keys} {l l1 : Level} (h : moveRight keys l = some l1) :
    l1.Cells = l.Cells ∧ l1.Size = l.Size ∧ l1.Finish = l.Finish ∧ l1.Won = l.Won := by
  unfold moveRight at h
  split at h
  · split at h
    · cases h
    · split at h <;> (injection h with h; subst h; exact ⟨rfl, rfl, rfl, rfl⟩)
  · injection h with h; subst h; exact ⟨rfl, rfl, rfl, rfl⟩

/-- The four movement blocks change at most the player. -/
theorem movePhase_frame {keys : Keys} {l m : Level} (h : movePhase keys l = some m) :
    m.Cells = l.Cells ∧ m.Size = l.Size ∧ m.Finish = l.Finish ∧ m.Won = l.Won := by
  unfold movePhase at h
  cases h1 : moveUp keys l with
  | none => simp [h1] at h
  | some l1 =>
    simp only [h1] at h
    cases h2 : moveDown keys l1 with
    | none => simp [h2] at h
    | some l2 =>
      simp only [h2] at h
      cases h3 : moveLeft keys l2 with
      | none => simp [h3] at h
      | some l3 =>
        simp only [h3] at h
        obtain ⟨a1, a2, a3, a4⟩ := moveUp_frame h1
        obtain ⟨b1, b2, b3, b4⟩ := moveDown_frame h2
        obtain ⟨c1, c2, c3, c4⟩ := moveLeft_frame h3
        obtain ⟨d1, d2, d3, d4⟩ := moveRight_frame h
        exact ⟨by rw [d1, c1, b1, a1], by rw [d2, c2, b2, a2], by rw [d3, c3, b3, a3],
          by rw [d4, c4, b4, a4]⟩

/-- On a well-formed grid the four movement blocks do not panic. -/
theorem movePhase_total (keys : Keys) {l : Level} (hwf : WellFormed l) :
    ∃ m, movePhase keys l = some m := by
  have hup : ∃ l1, moveUp keys l = some l1 := by
    unfold moveUp
    obtain ⟨b, hb⟩ := IsValidMove_total hwf l.Player.X (l.Player.Y - 1)
    by_cases hk : (keys Key.KeyW || keys Key.KeyUp) = true
    · cases b <;> simp [hk, hb]
    · simp [hk]
  obtain ⟨l1, h1⟩ := hup
  have hwf1 : WellFormed l1 := by
    obtain ⟨a1, a2, -, -⟩ := moveUp_frame h1
    unfold WellFormed
    rw [a1, a2]
    exact hwf
  have hdown : ∃ l2, moveDown keys l1 = some l2 := by
    unfold moveDown
    obtain ⟨b, hb⟩ := IsValidMove_total hwf1 l1.Player.X (l1.Player.Y + 1)
    by_cases hk : (keys Key.KeyS || keys Key.KeyDown) = true
    · cases b <;> simp [hk, hb]
    · simp [hk]
  obtain ⟨l2, h2⟩ := hdown
  have hwf2 : WellFormed l2 := by
    obtain ⟨a1, a2, -, -⟩ := moveDown_frame h2
    unfold WellFormed
    rw [a1, a2]
    exact hwf1
  have hleft : ∃ l3, moveLeft keys l2 = some l3 := by
    unfold moveLeft
    obtain ⟨b, hb⟩ := IsValidMove_total hwf2 (l2.Player.X - 1) l2.Player.Y
    by_cases hk : (keys Key.KeyA || keys Key.KeyLeft) = true
    · cases b <;> simp [hk, hb]
    · simp [hk]
  obtain ⟨l3, h3⟩ := hleft
  have hwf3 : WellFormed l3 := by
    obtain ⟨a1, a2, -, -⟩ := moveLeft_frame h3
    unfold WellFormed
    rw [a1, a2]
    exact hwf2
  have hright : ∃ l4, moveRight keys l3 = some l4 := by
    unfold moveRight
    obtain ⟨b, hb⟩ := IsValidMove_total hwf3 (l3.Player.X + 1) l3.Player.Y
    by_cases hk : (keys Key.KeyD || keys Key.KeyRight) = true
    · cases b <;> simp [hk, hb]
    · simp [hk]
  obtain ⟨l4, h4⟩ := hright
  exact ⟨l4, by simp only [movePhase, h1, h2, h3]; exact h4⟩

end Maze

/-- C12, as stated, fails: in the 2x2 level without walls, the finish at `(1,1)` with
target 2 and the player at `(1,0)`, a frame with the keys S and A pressed first moves the
player down onto the finish with top 2 (`CheckWin` true right after that committed move),
then left off the finish, and `HandleInput` returns with `Won = false`. -/
theorem HandleInput_win_missed_counterexample :
    Maze.openSquareLevel.Won = false ∧
    Maze.moveUp (pressedKeys [Key.KeyS, Key.KeyA]) Maze.openSquareLevel
      = some Maze.openSquareLevel ∧
    (Maze.moveDown (pressedKeys [Key.KeyS, Key.KeyA]) Maze.openSquareLevel).map
      (fun m => (m.Player.X, m.Player.Y, m.Player.Die.Top, Maze.CheckWin m))
      = some (1, 1, 2, true) ∧
    (Maze.HandleInput (pressedKeys [Key.KeyS, Key.KeyA]) (Maze.gameOf Maze.openSquareLevel)
      (constRand 0)).map (fun r => (r.1.level.Player.X, r.1.level.Player.Y, r.1.level.Won))
      = some (0, 1, false) := by
  decide

/-- C12, amended: in the maze variant, for every level with `Won = false` and every frame
without the key R, when the four movement blocks (Up, Down, Left, Right, in that order)
leave the level `m`, `HandleInput` returns with the player of `m` and with `Won` true
exactly when `CheckWin` holds in `m`; so a win is latched when it holds after the last
move of the frame.  On a grid of `Height` rows of `Width` cells the movement blocks do
not panic. -/
theorem HandleInput_latches_final_win (keys : Keys) (g : Maze.Game) (rng : RandSource)
    (hwon : g.level.Won = false) (hR : keys Key.KeyR = false) :
    (∀ m, Maze.movePhase keys g.level = some m →
      ∃ g1, Maze.HandleInput keys g rng = some (g1, rng) ∧ g1.level.Player = m.Player ∧
        (g1.level.Won = true ↔ Maze.CheckWin m = true)) ∧
    (Maze.RowsCols g.level.Cells g.level.Size.Width g.level.Size.Height →
      ∃ m, Maze.movePhase keys g.level = some m) := by
  constructor
  · intro m hm
    refine ⟨{ g with currentSize := Maze.sizeKeys keys g.currentSize,
                     level := Maze.latchWin m }, ?_, ?_, ?_⟩
    · simp [Maze.HandleInput, hR, hwon, hm]
    · show (Maze.latchWin m).Player = m.Player
      unfold Maze.latchWin
      split <;> rfl
    · show (Maze.latchWin m).Won = true ↔ Maze.CheckWin m = true
      have hmw : m.Won = false := by rw [(Maze.movePhase_frame hm).2.2.2, hwon]
      unfold Maze.latchWin
      by_cases hc : Maze.CheckWin m = true
      · simp [hc]
      · simp [hc, hmw]
  · intro hrows
    exact Maze.movePhase_total keys (Maze.wellFormed_of_rowsCols hrows)

/-- Witness of the amended C12: the 2x2 level without walls and the frame with the key
S only; the move down reaches the finish with top 2 and the win is latched. -/
theorem HandleInput_latches_final_win_witness :
    Maze.openSquareLevel.Won = false ∧ pressedKeys [Key.KeyS] Key.KeyR = false ∧
    ∃ m, Maze.movePhase (pressedKeys [Key.KeyS]) Maze.openSquareLevel = some m ∧
      ∃ g1, Maze.HandleInput (pressedKeys [Key.KeyS]) (Maze.gameOf Maze.openSquareLevel)
          (constRand 0) = some (g1, constRand 0) ∧
        g1.level.Player = m.Player ∧ (g1.level.Won = true ↔ Maze.CheckWin m = true) :=
  have h := HandleInput_latches_final_win (pressedKeys [Key.KeyS])
    (Maze.gameOf Maze.openSquareLevel) (constRand 0) (by decide) (by decide)
  have hm : ∃ m, Maze.movePhase (pressedKeys [Key.KeyS]) Maze.openSquareLevel = some m :=
    h.2 (by simp [Maze.RowsCols, Maze.gameOf, Maze.openSquareLevel, Maze.presetSize]; decide)
  ⟨by decide, by decide, hm.choose, hm.choose_spec, h.1 hm.choose hm.choose_spec⟩

/-- C13: in both variants, for a level with `Won = true` and a frame without the key R,
`HandleInput` returns with the level as it was, so the player's position and die are
unchanged and `Won` is still true. -/
theorem HandleInput_won_ignores_moves (keys : Keys) (g : Maze.Game) (s : Simple.Level)
    (rng : RandSource) (hR : keys Key.KeyR = false) :
    (g.level.Won = true →
      ∃ g1, Maze.HandleInput keys g rng = some (g1, rng) ∧ g1.level = g.level ∧
        g1.level.Player.X = g.level.Player.X ∧ g1.level.Player.Y = g.level.Player.Y ∧
        g1.level.Player.Die = g.level.Player.Die ∧ g1.level.Won = true) ∧
    (s.Won = true →
      ∃ s1, Simple.HandleInput keys s rng = some (s1, rng) ∧ s1 = s ∧
        s1.Player.X = s.Player.X ∧ s1.Player.Y = s.Player.Y ∧
        s1.Player.Die = s.Player.Die ∧ s1.Won = true) := by
  constructor
  · intro hwon
    exact ⟨{ g with currentSize := Maze.sizeKeys keys g.currentSize },
      by simp [Maze.HandleInput, hR, hwon], rfl, rfl, rfl, rfl, hwon⟩
  · intro hwon
    exact ⟨s, by simp [Simple.HandleInput, hR, hwon], rfl, rfl, rfl, rfl, hwon⟩

/-- Witness of C13: the won 2x2 level and the won fixed level, in a frame with the keys
W, D and 3 pressed. -/
theorem HandleInput_won_ignores_moves_witness :
    pressedKeys [Key.KeyW, Key.KeyD, Key.KeyThree] Key.KeyR = false ∧
    (∃ g1, Maze.HandleInput (pressedKeys [Key.KeyW, Key.KeyD, Key.KeyThree])
        (Maze.gameOf { Maze.openSquareLevel with Won := true }) (constRand 0)
          = some (g1, constRand 0) ∧
      g1.level = { Maze.openSquareLevel with Won := true } ∧
      g1.level.Player.X = 1 ∧ g1.level.Player.Y = 0 ∧
      g1.level.Player.Die = NewDie ∧ g1.level.Won = true) ∧
    (∃ s1, Simple.HandleInput (pressedKeys [Key.KeyW, Key.KeyD, Key.KeyThree])
        { Player := { X := 10, Y := 6, Die := NewDie }
          Finish := { X := 10, Y := 6, Number := 1 }
          Walls := []
          Won := true } (constRand 0) = some (s1, constRand 0) ∧
      s1 = { Player := { X := 10, Y := 6, Die := NewDie }
             Finish := { X := 10, Y := 6, Number := 1 }
             Walls := []
             Won := true } ∧
      s1.Player.X = 10 ∧ s1.Player.Y = 6 ∧ s1.Player.Die = NewDie ∧ s1.Won = true) :=
  have h := HandleInput_won_ignores_moves (pressedKeys [Key.KeyW, Key.KeyD, Key.KeyThree])
    (Maze.gameOf { Maze.openSquareLevel with Won := true })
    { Player := { X := 10, Y := 6, Die := NewDie }
      Finish := { X := 10, Y := 6, Number := 1 }
      Walls := []
      Won := true } (constRand 0) (by decide)
  ⟨by decide, h.1 rfl, h.2 rfl⟩

/-- The requests of a frame that asks for a move in one direction only. -/
theorem OnlyMove_wants {keys : Keys} {dir : Direction} (h : OnlyMove keys dir) :
    ((keys Key.KeyW || keys Key.KeyUp) = true ↔ dir = Up) ∧
    ((keys Key.KeyS || keys Key.KeyDown) = true ↔ dir = Down) ∧
    ((keys Key.KeyA || keys Key.KeyLeft) = true ↔ dir = Left) ∧
    ((keys Key.KeyD || keys Key.KeyRight) = true ↔ dir = Right) := by
  have hu := h.2 Up (Or.inl rfl)
  have hd := h.2 Down (Or.inr (Or.inl rfl))
  have hl := h.2 Left (Or.inr (Or.inr (Or.inl rfl)))
  have hr := h.2 Right (Or.inr (Or.inr (Or.inr rfl)))
  have e1 : wantsMove keys Up = (keys Key.KeyW || keys Key.KeyUp) := by
    simp [wantsMove]
  have e2 : wantsMove keys Down = (keys Key.KeyS || keys Key.KeyDown) := by
    simp [wantsMove, Up, Down]
  have e3 : wantsMove keys Left = (keys Key.KeyA || keys Key.KeyLeft) := by
    simp [wantsMove, Up, Down, Left]
  have e4 : wantsMove keys Right = (keys Key.KeyD || keys Key.KeyRight) := by
    simp [wantsMove, Up, Down, Left, Right]
  rw [e1] at hu
  rw [e2] at hd
  rw [e3] at hl
  rw [e4] at hr
  exact ⟨hu.trans eq_comm, hd.trans eq_comm, hl.trans eq_comm, hr.trans eq_comm⟩

/-- In a frame that asks for a move in one direction only, the movement blocks of the
maze variant commit that move when `IsValidMove` accepts the target cell, and leave the
level as it was when it rejects it. -/
theorem Maze.mazeMovePhase_single (keys : Keys) (dir : Direction) (l : Maze.Level)
    (hone : OnlyMove keys dir) :
    (Maze.IsValidMove l (l.Player.X + (moveOffset dir).1) (l.Player.Y + (moveOffset dir).2)
        = some true →
      Maze.movePhase keys l = some { l with
        Player := { X := l.Player.X + (moveOffset dir).1
                    Y := l.Player.Y + (moveOffset dir).2
                    Die := Maze.Roll l.Player.Die dir } }) ∧
    (Maze.IsValidMove l (l.Player.X + (moveOffset dir).1) (l.Player.Y + (moveOffset dir).2)
        = some false →
      Maze.movePhase keys l = some l) := by
  obtain ⟨w1, w2, w3, w4⟩ := OnlyMove_wants hone
  rcases hone.1 with rfl | rfl | rfl | rfl
  · have k1 : (keys Key.KeyW || keys Key.KeyUp) = true := w1.mpr rfl
    have k2 : (keys Key.KeyS || keys Key.KeyDown) = false := by
      rw [← Bool.not_eq_true]; exact fun h => absurd (w2.mp h) (by decide)
    have k3 : (keys Key.KeyA || keys Key.KeyLeft) = false := by
      rw [← Bool.not_eq_true]; exact fun h => absurd (w3.mp h) (by decide)
    have k4 : (keys Key.KeyD || keys Key.KeyRight) = false := by
      rw [← Bool.not_eq_true]; exact fun h => absurd (w4.mp h) (by decide)
    have e : moveOffset Up = (0, -1) := by simp [moveOffset]
    rw [e]
    have ey : l.Player.Y + (-1) = l.Player.Y - 1 := by omega
    simp only [Int.add_zero, ey]
    constructor <;> intro hv <;>
      simp [Maze.movePhase, Maze.moveUp, Maze.moveDown, Maze.moveLeft, Maze.moveRight,
        Maze.Move, k1, k2, k3, k4, hv, ey]
  · have k1 : (keys Key.KeyW || keys Key.KeyUp) = false := by
      rw [← Bool.not_eq_true]; exact fun h => absurd (w1.mp h) (by decide)
    have k2 : (keys Key.KeyS || keys Key.KeyDown) = true := w2.mpr rfl
    have k3 : (keys Key.KeyA || keys Key.KeyLeft) = false := by
      rw [← Bool.not_eq_true]; exact fun h => absurd (w3.mp h) (by decide)
    have k4 : (keys Key.KeyD || keys Key.KeyRight) = false := by
      rw [← Bool.not_eq_true]; exact fun h => absurd (w4.mp h) (by decide)
    have e : moveOffset Down = (0, 1) := by simp [moveOffset, Up, Down]
    rw [e]
    simp only [Int.add_zero]
    constructor <;> intro hv <;>
      simp [Maze.movePhase, Maze.moveUp, Maze.moveDown, Maze.moveLeft, Maze.moveRight,
        Maze.Move, k1, k2, k3, k4, hv]
  · have k1 : (keys Key.KeyW || keys Key.KeyUp) = false := by
      rw [← Bool.not_eq_true]; exact fun h => absurd (w1.mp h) (by decide)
    have k2 : (keys Key.KeyS || keys Key.KeyDown) = false := by
      rw [← Bool.not_eq_true]; exact fun h => absurd (w2.mp h) (by decide)
    have k3 : (keys Key.KeyA || keys Key.KeyLeft) = true := w3.mpr rfl
    have k4 : (keys Key.KeyD || keys Key.KeyRight) = false := by
      rw [← Bool.not_eq_true]; exact fun h => absurd (w4.mp h) (by decide)
    have e : moveOffset Left = (-1, 0) := by simp [moveOffset, Up, Down, Left]
    rw [e]
    have ex : l.Player.X + (-1) = l.Player.X - 1 := by omega
    simp only [Int.add_zero, ex]
    constructor <;> intro hv <;>
      simp [Maze.movePhase, Maze.moveUp, Maze.moveDown, Maze.moveLeft, Maze.moveRight,
        Maze.Move, k1, k2, k3, k4, hv, ex]
  · have k1 : (keys Key.KeyW || keys Key.KeyUp) = false := by
      rw [← Bool.not_eq_true]; exact fun h => absurd (w1.mp h) (by decide)
    have k2 : (keys Key.KeyS || keys Key.KeyDown) = false := by
      rw [← Bool.not_eq_true]; exact fun h => absurd (w2.mp h) (by decide)
    have k3 : (keys Key.KeyA || keys Key.KeyLeft) = false := by
      rw [← Bool.not_eq_true]; exact fun h => absurd (w3.mp h) (by decide)
    have k4 : (keys Key.KeyD || keys Key.KeyRight) = true := w4.mpr rfl
    have e : moveOffset Right = (1, 0) := by simp [moveOffset, Up, Down, Left, Right]
    rw [e]
    simp only [Int.add_zero]
    constructor <;> intro hv <;>
      simp [Maze.movePhase, Maze.moveUp, Maze.moveDown, Maze.moveLeft, Maze.moveRight,
        Maze.Move, k1, k2, k3, k4, hv]

/-- In a frame that asks for a move in one direction only, the movement blocks of the
simple variant commit that move when `IsValidMove` accepts the target cell, and leave the
level as it was when it rejects it. -/
theorem Simple.simpleMovePhase_single (keys : Keys) (dir : Direction) (l : Simple.Level)
    (hone : OnlyMove keys dir) :
    (Simple.IsValidMove l (l.Player.X + (moveOffset dir).1) (l.Player.Y + (moveOffset dir).2)
        = true →
      Simple.movePhase keys l = { l with
        Player := { X := l.Player.X + (moveOffset dir).1
                    Y := l.Player.Y + (moveOffset dir).2
                    Die := Simple.Roll l.Player.Die dir } }) ∧
    (Simple.IsValidMove l (l.Player.X + (moveOffset dir).1) (l.Player.Y + (moveOffset dir).2)
        = false →
      Simple.movePhase keys l = l) := by
  obtain ⟨w1, w2, w3, w4⟩ := OnlyMove_wants hone
  rcases hone.1 with rfl | rfl | rfl | rfl
  · have k1 : (keys Key.KeyW || keys Key.KeyUp) = true := w1.mpr rfl
    have k2 : (keys Key.KeyS || keys Key.KeyDown) = false := by
      rw [← Bool.not_eq_true]; exact fun h => absurd (w2.mp h) (by decide)
    have k3 : (keys Key.KeyA || keys Key.KeyLeft) = false := by
      rw [← Bool.not_eq_true]; exact fun h => absurd (w3.mp h) (by decide)
    have k4 : (keys Key.KeyD || keys Key.KeyRight) = false := by
      rw [← Bool.not_eq_true]; exact fun h => absurd (w4.mp h) (by decide)
    have e : moveOffset Up = (0, -1) := by simp [moveOffset]
    rw [e]
    have ey : l.Player.Y + (-1) = l.Player.Y - 1 := by omega
    simp only [Int.add_zero, ey]
    constructor <;> intro hv <;>
      simp [Simple.movePhase, Simple.moveUp, Simple.moveDown, Simple.moveLeft, Simple.moveRight,
        Simple.Move, k1, k2, k3, k4, hv, ey]
  · have k1 : (keys Key.KeyW || keys Key.KeyUp) = false := by
      rw [← Bool.not_eq_true]; exact fun h => absurd (w1.mp h) (by decide)
    have k2 : (keys Key.KeyS || keys Key.KeyDown) = true := w2.mpr rfl
    have k3 : (keys Key.KeyA || keys Key.KeyLeft) = false := by
      rw [← Bool.not_eq_true]; exact fun h => absurd (w3.mp h) (by decide)
    have k4 : (keys Key.KeyD || keys Key.KeyRight) = false := by
      rw [← Bool.not_eq_true]; exact fun h => absurd (w4.mp h) (by decide)
    have e : moveOffset Down = (0, 1) := by simp [moveOffset, Up, Down]
    rw [e]
    simp only [Int.add_zero]
    constructor <;> intro hv <;>
      simp [Simple.movePhase, Simple.moveUp, Simple.moveDown, Simple.moveLeft, Simple.moveRight,
        Simple.Move, k1, k2, k3, k4, hv]
  · have k1 : (keys Key.KeyW || keys Key.KeyUp) = false := by
      rw [← Bool.not_eq_true]; exact fun h => absurd (w1.mp h) (by decide)
    have k2 : (keys Key.KeyS || keys Key.KeyDown) = false := by
      rw [← Bool.not_eq_true]; exact fun h => absurd (w2.mp h) (by decide)
    have k3 : (keys Key.KeyA || keys Key.KeyLeft) = true := w3.mpr rfl
    have k4 : (keys Key.KeyD || keys Key.KeyRight) = false := by
      rw [← Bool.not_eq_true]; exact fun h => absurd (w4.mp h) (by decide)
    have e : moveOffset Left = (-1, 0) := by simp [moveOffset, Up, Down, Left]
    rw [e]
    have ex : l.Player.X + (-1) = l.Player.X - 1 := by omega
    simp only [Int.add_zero, ex]
    constructor <;> intro hv <;>
      simp [Simple.movePhase, Simple.moveUp, Simple.moveDown, Simple.moveLeft, Simple.moveRight,
        Simple.Move, k1, k2, k3, k4, hv, ex]
  · have k1 : (keys Key.KeyW || keys Key.KeyUp) = false := by
      rw [← Bool.not_eq_true]; exact fun h => absurd (w1.mp h) (by decide)
    have k2 : (keys Key.KeyS || keys Key.KeyDown) = false := by
      rw [← Bool.not_eq_true]; exact fun h => absurd (w2.mp h) (by decide)
    have k3 : (keys Key.KeyA || keys Key.KeyLeft) = false := by
      rw [← Bool.not_eq_true]; exact fun h => absurd (w3.mp h) (by decide)
    have k4 : (keys Key.KeyD || keys Key.KeyRight) = true := w4.mpr rfl
    have e : moveOffset Right = (1, 0) := by simp [moveOffset, Up, Down, Left, Right]
    rw [e]
    simp only [Int.add_zero]
    constructor <;> intro hv <;>
      simp [Simple.movePhase, Simple.moveUp, Simple.moveDown, Simple.moveLeft, Simple.moveRight,
        Simple.Move, k1, k2, k3, k4, hv]

/-- With `Won = false` and without the key R, `HandleInput` of the maze variant runs the
movement blocks and latches the win. -/
theorem Maze.HandleInput_of_movePhase {keys : Keys} {g : Maze.Game} {m : Maze.Level}
    (rng : RandSource) (hwon : g.level.Won = false) (hR : keys Key.KeyR = false)
    (hm : Maze.movePhase keys g.level = some m) :
    Maze.HandleInput keys g rng
      = some ({ g with currentSize := Maze.sizeKeys keys g.currentSize,
                       level := Maze.latchWin m }, rng) := by
  simp [Maze.HandleInput, hR, hwon, hm]

/-- Latching the win leaves the player as it was. -/
theorem Maze.latchWin_Player (m : Maze.Level) : (Maze.latchWin m).Player = m.Player := by
  unfold Maze.latchWin
  split <;> rfl

/-- C19: in both variants, for a level with `Won = false` and a frame that asks for a
move in exactly one direction, without the key R: when `IsValidMove` accepts the target
cell, `HandleInput` returns with the player on the target cell and the die rolled in that
direction; when it rejects the target cell, `HandleInput` returns with the player's
position and die as they were. -/
theorem HandleInput_single_move (keys : Keys) (dir : Direction) (g : Maze.Game)
    (s : Simple.Level) (rng : RandSource) (hone : OnlyMove keys dir)
    (hR : keys Key.KeyR = false) :
    (g.level.Won = false →
      (Maze.IsValidMove g.level (g.level.Player.X + (moveOffset dir).1)
          (g.level.Player.Y + (moveOffset dir).2) = some true →
        ∃ g1, Maze.HandleInput keys g rng = some (g1, rng) ∧
          g1.level.Player = { X := g.level.Player.X + (moveOffset dir).1
                              Y := g.level.Player.Y + (moveOffset dir).2
                              Die := Maze.Roll g.level.Player.Die dir }) ∧
      (Maze.IsValidMove g.level (g.level.Player.X + (moveOffset dir).1)
          (g.level.Player.Y + (moveOffset dir).2) = some false →
        ∃ g1, Maze.HandleInput keys g rng = some (g1, rng) ∧
          g1.level.Player = g.level.Player)) ∧
    (s.Won = false →
      (Simple.IsValidMove s (s.Player.X + (moveOffset dir).1)
          (s.Player.Y + (moveOffset dir).2) = true →
        ∃ s1, Simple.HandleInput keys s rng = some (s1, rng) ∧
          s1.Player = { X := s.Player.X + (moveOffset dir).1
                        Y := s.Player.Y + (moveOffset dir).2
                        Die := Simple.Roll s.Player.Die dir }) ∧
      (Simple.IsValidMove s (s.Player.X + (moveOffset dir).1)
          (s.Player.Y + (moveOffset dir).2) = false →
        ∃ s1, Simple.HandleInput keys s rng = some (s1, rng) ∧ s1.Player = s.Player)) := by
  obtain ⟨m1, m2⟩ := Maze.mazeMovePhase_single keys dir g.level hone
  obtain ⟨s1, s2⟩ := Simple.simpleMovePhase_single keys dir s hone
  refine ⟨fun hwon => ⟨fun hv => ?_, fun hv => ?_⟩, fun hwon => ⟨fun hv => ?_, fun hv => ?_⟩⟩
  · exact ⟨_, Maze.HandleInput_of_movePhase rng hwon hR (m1 hv), Maze.latchWin_Player _⟩
  · exact ⟨_, Maze.HandleInput_of_movePhase rng hwon hR (m2 hv), Maze.latchWin_Player _⟩
  · refine ⟨Simple.movePhase keys s, ?_, ?_⟩
    · simp [Simple.HandleInput, hwon]
    · rw [s1 hv]
  · refine ⟨Simple.movePhase keys s, ?_, ?_⟩
    · simp [Simple.HandleInput, hwon]
    · rw [s2 hv]

/-- Witness of C19: in the 2x2 level without walls, with the player at `(1,0)`, and in
the fixed level of the simple variant, with the player at `(1,1)`, a frame with the key
S only moves the player one cell down and rolls the die `Down`. -/
theorem HandleInput_single_move_witness :
    OnlyMove (pressedKeys [Key.KeyS]) Down ∧ pressedKeys [Key.KeyS] Key.KeyR = false ∧
    (∃ g1, Maze.HandleInput (pressedKeys [Key.KeyS]) (Maze.gameOf Maze.openSquareLevel)
        (constRand 0) = some (g1, constRand 0) ∧
      g1.level.Player = { X := 1 + (moveOffset Down).1, Y := 0 + (moveOffset Down).2,
                          Die := Maze.Roll NewDie Down }) ∧
    (∃ s1, Simple.HandleInput (pressedKeys [Key.KeyS])
        { Player := { X := 1, Y := 1, Die := NewDie }
          Finish := { X := 10, Y := 6, Number := 1 }
          Walls := [(0, 0)]
          Won := false } (constRand 0) = some (s1, constRand 0) ∧
      s1.Player = { X := 1 + (moveOffset Down).1, Y := 1 + (moveOffset Down).2,
                    Die := Simple.Roll NewDie Down }) :=
  have hone : OnlyMove (pressedKeys [Key.KeyS]) Down := by
    refine ⟨Or.inr (Or.inl rfl), ?_⟩
    intro d hd
    rcases hd with rfl | rfl | rfl | rfl <;> decide
  have h := HandleInput_single_move (pressedKeys [Key.KeyS]) Down
    (Maze.gameOf Maze.openSquareLevel)
    { Player := { X := 1, Y := 1, Die := NewDie }
      Finish := { X := 10, Y := 6, Number := 1 }
      Walls := [(0, 0)]
      Won := false } (constRand 0) hone (by decide)
  ⟨hone, by decide, (h.1 (by decide)).1 (by decide), (h.2 (by decide)).1 (by decide)⟩

/-! ## The open 2x2 block -/

namespace Maze

/-- The first loop nest of `createOpenSpace2x2` for a block that lies inside the grid: it
does not panic, only clears walls, and leaves the four cells of the block open. -/
theorem openBlock_spec {l : Level} {x y : Int} (hwf : WellFormed l)
    (hx : 0 ≤ x) (hx1 : x + 1 < l.Size.Width) (hy : 0 ≤ y) (hy1 : y + 1 < l.Size.Height) :
    ∃ l1, forEach (fun dy l1 => forEach (fun dx l2 => openBlockStep x y dy dx l2)
        (intRange 0 2) l1) (intRange 0 2) l = some l1 ∧ Carves l l1 ∧
      isOpen l1.Cells x y = true ∧ isOpen l1.Cells (x + 1) y = true ∧
      isOpen l1.Cells x (y + 1) = true ∧ isOpen l1.Cells (x + 1) (y + 1) = true := by
  have hstep : ∀ (t : Level) (dy dx : Int), WellFormed t → t.Size = l.Size →
      0 ≤ dx → dx ≤ 1 → 0 ≤ dy → dy ≤ 1 →
      ∃ t1, openBlockStep x y dy dx t = some t1 ∧ Carves t t1 ∧
        isOpen t1.Cells (x + dx) (y + dy) = true := by
    intro t dy dx ht hsize h1 h2 h3 h4
    have hin : y + dy < t.Size.Height ∧ x + dx < t.Size.Width := by
      rw [hsize]; omega
    obtain ⟨t1, e1, c1, o1⟩ := setWall_false (x := x + dx) (y := y + dy) ht
      (by rw [hsize]; exact ⟨by omega, by omega, by omega, by omega⟩)
    exact ⟨t1, by simp [openBlockStep, hin, e1], c1, o1⟩
  obtain ⟨t1, e1, c1, o1⟩ := hstep l 0 0 hwf rfl (by omega) (by omega) (by omega) (by omega)
  obtain ⟨t2, e2, c2, o2⟩ := hstep t1 0 1 c1.2.1 c1.1.1 (by omega) (by omega) (by omega)
    (by omega)
  obtain ⟨t3, e3, c3, o3⟩ := hstep t2 1 0 c2.2.1 (c2.1.1.trans c1.1.1) (by omega) (by omega)
    (by omega) (by omega)
  obtain ⟨t4, e4, c4, o4⟩ := hstep t3 1 1 c3.2.1 (c3.1.1.trans (c2.1.1.trans c1.1.1))
    (by omega) (by omega) (by omega) (by omega)
  refine ⟨t4, ?_, c1.carvesTrans (c2.carvesTrans (c3.carvesTrans c4)), ?_, ?_, ?_, o4⟩
  · rw [intRange_zero_two]
    simp only [forEach, e1, e2, e3, e4]
  · have := c4.2.2 _ _ (c3.2.2 _ _ (c2.2.2 _ _ o1))
    simpa using this
  · have := c4.2.2 _ _ (c3.2.2 _ _ o2)
    simpa using this
  · have := c4.2.2 _ _ o3
    simpa using this

/-- The method `createOpenSpace2x2` on a well-formed grid of at least 5x5: it does not
panic, only clears walls, and leaves an open 2x2 block whose top-left cell `(x,y)` has
`2 ≤ x ≤ Width-3` and `2 ≤ y ≤ Height-3`. -/
theorem createOpenSpace2x2_block {l : Level} (rng : RandSource) (hwf : WellFormed l)
    (hW : 5 ≤ l.Size.Width) (hH : 5 ≤ l.Size.Height) :
    ∃ s1, createOpenSpace2x2 l rng = some s1 ∧ Carves l s1.1 ∧
      ∃ x y, 2 ≤ x ∧ x ≤ l.Size.Width - 3 ∧ 2 ≤ y ∧ y ≤ l.Size.Height - 3 ∧
        isOpen s1.1.Cells x y = true ∧ isOpen s1.1.Cells (x + 1) y = true ∧
        isOpen s1.1.Cells x (y + 1) = true ∧ isOpen s1.1.Cells (x + 1) (y + 1) = true := by
  unfold createOpenSpace2x2
  obtain ⟨rx, ex, hx0, hx1⟩ := Intn_spec rng (n := l.Size.Width - 4) (by omega)
  obtain ⟨ry, ey, hy0, hy1⟩ := Intn_spec rx.2 (n := l.Size.Height - 4) (by omega)
  obtain ⟨l1, e1, c1, o1, o2, o3, o4⟩ := openBlock_spec (x := rx.1 + 2) (y := ry.1 + 2) hwf
    (by omega) (by omega) (by omega) (by omega)
  obtain ⟨s2, e2, c2⟩ := forEach_inv
    (fun dy s1 => forEach (fun dx s2 => openRingStep (rx.1 + 2) (ry.1 + 2) dy dx s2)
      (intRange (-1) 3) s1)
    (fun t => Carves l1 t.1) (intRange (-1) 3)
    (by
      intro dy _ t ht
      apply forEach_inv _ (fun t => Carves l1 t.1) _ _ t ht
      intro dx _ u hu
      exact openRingStep_spec _ _ dy dx hu)
    (l1, ry.2) (Carves.carvesRefl c1.2.1)
  refine ⟨s2, ?_, c1.carvesTrans c2, rx.1 + 2, ry.1 + 2, by omega, by omega, by omega,
    by omega, c2.2.2 _ _ o1, c2.2.2 _ _ o2, c2.2.2 _ _ o3, c2.2.2 _ _ o4⟩
  simp only [ex, ey, e1]
  exact e2

/-- The stages of `GenerateMaze` on a size of at least 5x5 with the finish inside the
grid and not on the start: every stage returns, the seeding phase builds a well-formed
grid, and every later stage only clears walls. -/
theorem GenerateMaze_stages {l : Level} (rng : RandSource)
    (hW : 5 ≤ l.Size.Width) (hH : 5 ≤ l.Size.Height)
    (hfin : InGrid l.Size.Width l.Size.Height l.Finish.X l.Finish.Y)
    (hne : 0 < l.Finish.X ∨ 0 < l.Finish.Y) :
    ∃ s1 s2 s3 s4 l5, seedWalls l rng = some s1 ∧
      createGuaranteedPath s1.1 s1.2 = some s2 ∧
      connectIsolatedAreas s2.1 s2.2 = some s3 ∧
      createOpenSpace2x2 s3.1 s3.2 = some s4 ∧
      openStartFinish s4.1 = some l5 ∧
      GenerateMaze l rng = some (l5, s4.2) ∧
      SameFrame l s1.1 ∧ WellFormed s1.1 ∧
      Carves s1.1 s2.1 ∧ Carves s2.1 s3.1 ∧ Carves s3.1 s4.1 ∧ Carves s4.1 l5 := by
  obtain ⟨hX0, hXW, hY0, hYH⟩ := hfin
  obtain ⟨s1, e1, f1, w1, -⟩ := seedWalls_spec (l := l) rng (by omega) (by omega)
  obtain ⟨s2, e2, c2, -⟩ := createGuaranteedPath_spec s1.2 w1
    (by rw [f1.2.1]; exact hX0) (by rw [f1.2.1, f1.1]; exact hXW)
    (by rw [f1.2.1]; exact hY0) (by rw [f1.2.1, f1.1]; exact hYH)
    (by rw [f1.2.1]; exact hne)
  have f2 : SameFrame l s2.1 := f1.frameTrans c2.1
  obtain ⟨s3, e3, c3⟩ := connectIsolatedAreas_spec s2.2 c2.2.1
    (by rw [f2.1]; omega) (by rw [f2.1]; omega)
  have f3 : SameFrame l s3.1 := f2.frameTrans c3.1
  obtain ⟨s4, e4, c4⟩ := createOpenSpace2x2_spec s3.2 c3.2.1
    (by rw [f3.1]; omega) (by rw [f3.1]; omega)
  have f4 : SameFrame l s4.1 := f3.frameTrans c4.1
  obtain ⟨l5, e5, c5, -, -⟩ := openStartFinish_spec c4.2.1
    (by rw [f4.1]; omega) (by rw [f4.1]; omega)
    (by rw [f4.1, f4.2.1]; exact ⟨hX0, hXW, hY0, hYH⟩)
  exact ⟨s1, s2, s3, s4, l5, e1, e2, e3, e4, e5,
    by simp only [GenerateMaze, e1, e2, e3, e4, e5], f1, w1, c2, c3, c4, c5⟩

/-- The stages of `NewLevel` on a size of at least 5x5: every stage returns, and the
stages after `GenerateMaze` only clear walls. -/
theorem NewLevel_stages (size : LevelSize) (rng : RandSource)
    (hW : 5 ≤ size.Width) (hH : 5 ≤ size.Height) :
    ∃ rn s1 l2 l3, Intn 6 rng = some rn ∧
      GenerateMaze (blankLevel size (rn.1 + 1)) rn.2 = some s1 ∧
      EnsureConnectivity s1.1 = some l2 ∧ openStartFinish l2 = some l3 ∧
      NewLevel size rng = some ({ l3 with Won := false }, s1.2) ∧
      SameFrame (blankLevel size (rn.1 + 1)) s1.1 ∧ WellFormed s1.1 ∧
      Carves s1.1 l2 ∧ Carves l2 l3 := by
  obtain ⟨rn, en, -, -⟩ := Intn_spec rng (n := 6) (by decide)
  have hfin : InGrid (blankLevel size (rn.1 + 1)).Size.Width
      (blankLevel size (rn.1 + 1)).Size.Height (blankLevel size (rn.1 + 1)).Finish.X
      (blankLevel size (rn.1 + 1)).Finish.Y := by
    simp only [blankLevel]
    exact ⟨by omega, by omega, by omega, by omega⟩
  obtain ⟨s1, e1, f1, w1, -, -, -⟩ := GenerateMaze_spec (l := blankLevel size (rn.1 + 1))
    rn.2 hW hH hfin (by simp only [blankLevel]; omega)
  have hfin1 : InGrid s1.1.Size.Width s1.1.Size.Height s1.1.Finish.X s1.1.Finish.Y := by
    rw [f1.1, f1.2.1]; exact hfin
  obtain ⟨l2, e2, c2⟩ := EnsureConnectivity_spec w1
    (by rw [f1.1]; simp only [blankLevel]; omega)
    (by rw [f1.1]; simp only [blankLevel]; omega) hfin1
  have f2 : SameFrame (blankLevel size (rn.1 + 1)) l2 := f1.frameTrans c2.1
  obtain ⟨l3, e3, c3, -, -⟩ := openStartFinish_spec c2.2.1
    (by rw [f2.1]; simp only [blankLevel]; omega)
    (by rw [f2.1]; simp only [blankLevel]; omega)
    (by rw [f2.1, f2.2.1]; exact hfin)
  exact ⟨rn, s1, l2, l3, en, e1, e2, e3, by simp only [NewLevel, en, e1, e2, e3], f1, w1,
    c2, c3⟩

end Maze

/-- C11: for every size of at least 5x5 and every sequence of random outcomes, the grid
of the level that the maze variant's `NewLevel` returns has a fully open 2x2 block in the
interior: there are `x`, `y` with `1 ≤ x ≤ Width-3` and `1 ≤ y ≤ Height-3` such that the
cells `(x,y)`, `(x+1,y)`, `(x,y+1)`, `(x+1,y+1)` are all non-wall. -/
theorem NewLevel_open_block (size : Maze.LevelSize) (rng : RandSource)
    (hW : 5 ≤ size.Width) (hH : 5 ≤ size.Height) :
    ∃ l rng1, Maze.NewLevel size rng = some (l, rng1) ∧
      ∃ x y, 1 ≤ x ∧ x ≤ size.Width - 3 ∧ 1 ≤ y ∧ y ≤ size.Height - 3 ∧
        Maze.isOpen l.Cells x y = true ∧ Maze.isOpen l.Cells (x + 1) y = true ∧
        Maze.isOpen l.Cells x (y + 1) = true ∧ Maze.isOpen l.Cells (x + 1) (y + 1) = true := by
  obtain ⟨rn, s1, l2, l3, -, e1, -, -, e4, f1, -, c2, c3⟩ :=
    Maze.NewLevel_stages size rng hW hH
  have hfin : Maze.InGrid (Maze.blankLevel size (rn.1 + 1)).Size.Width
      (Maze.blankLevel size (rn.1 + 1)).Size.Height (Maze.blankLevel size (rn.1 + 1)).Finish.X
      (Maze.blankLevel size (rn.1 + 1)).Finish.Y := by
    simp only [Maze.blankLevel]
    exact ⟨by omega, by omega, by omega, by omega⟩
  obtain ⟨t1, t2, t3, t4, l5, -, -, -, g4, -, g6, h1, -, k2, k3, -, k5⟩ :=
    Maze.GenerateMaze_stages (l := Maze.blankLevel size (rn.1 + 1)) rn.2 hW hH hfin
      (by simp only [Maze.blankLevel]; omega)
  have hs1 : s1 = (l5, t4.2) := by
    rw [e1] at g6
    exact Option.some.inj g6
  have hsize3 : t3.1.Size = size :=
    (k3.1.1.trans (k2.1.1.trans h1.1))
  obtain ⟨u4, b4, -, x, y, hx2, hx3, hy2, hy3, o1, o2, o3, o4⟩ :=
    Maze.createOpenSpace2x2_block t3.2 k3.2.1 (by rw [hsize3]; exact hW)
      (by rw [hsize3]; exact hH)
  have hu4 : u4 = t4 := by
    rw [g4] at b4
    exact (Option.some.inj b4).symm
  subst hu4
  rw [hsize3] at hx3 hy3
  have hmono : ∀ a b, Maze.isOpen u4.1.Cells a b = true → Maze.isOpen l3.Cells a b = true := by
    intro a b h
    have h5 := k5.2.2 a b h
    have h6 : Maze.isOpen s1.1.Cells a b = true := by rw [hs1]; exact h5
    exact c3.2.2 a b (c2.2.2 a b h6)
  exact ⟨{ l3 with Won := false }, s1.2, e4, x, y, by omega, hx3, by omega, hy3,
    hmono _ _ o1, hmono _ _ o2, hmono _ _ o3, hmono _ _ o4⟩

/-- Witness of C11: the 5x5 level generated from the all-zero random outcomes. -/
theorem NewLevel_open_block_witness :
    ∃ l rng1, Maze.NewLevel (Maze.presetSize 5 5) (constRand 0) = some (l, rng1) ∧
      ∃ x y, 1 ≤ x ∧ x ≤ (Maze.presetSize 5 5).Width - 3 ∧ 1 ≤ y ∧
        y ≤ (Maze.presetSize 5 5).Height - 3 ∧
        Maze.isOpen l.Cells x y = true ∧ Maze.isOpen l.Cells (x + 1) y = true ∧
        Maze.isOpen l.Cells x (y + 1) = true ∧ Maze.isOpen l.Cells (x + 1) (y + 1) = true :=
  NewLevel_open_block (Maze.presetSize 5 5) (constRand 0) (by decide) (by decide)

/-- C16: for every size of at least 5x5 and every sequence of random outcomes, the maze
variant's `NewLevel` runs to completion: every draw `rand.Intn` has a non-empty range,
every grid index is in range, the loops end, and so do the stages `GenerateMaze` (the
seeding phase and the three carving passes) and `EnsureConnectivity` that it calls.  The
bound matters: at the size 4x5 the draw `rand.Intn(Width-4)` panics. -/
theorem NewLevel_runs_to_completion (size : Maze.LevelSize) (rng : RandSource)
    (hW : 5 ≤ size.Width) (hH : 5 ≤ size.Height) :
    (∃ s, Maze.NewLevel size rng = some s) ∧
    (∃ rn s1 s2 s3 s4 s5 l6, Intn 6 rng = some rn ∧
      Maze.seedWalls (Maze.blankLevel size (rn.1 + 1)) rn.2 = some s1 ∧
      Maze.createGuaranteedPath s1.1 s1.2 = some s2 ∧
      Maze.connectIsolatedAreas s2.1 s2.2 = some s3 ∧
      Maze.createOpenSpace2x2 s3.1 s3.2 = some s4 ∧
      Maze.GenerateMaze (Maze.blankLevel size (rn.1 + 1)) rn.2 = some s5 ∧
      Maze.EnsureConnectivity s5.1 = some l6) ∧
    (Maze.NewLevel (Maze.presetSize 4 5) (constRand 0)).isSome = false := by
  obtain ⟨rn, s1, l2, l3, en, e1, e2, -, e4, -, -, -, -⟩ :=
    Maze.NewLevel_stages size rng hW hH
  have hfin : Maze.InGrid (Maze.blankLevel size (rn.1 + 1)).Size.Width
      (Maze.blankLevel size (rn.1 + 1)).Size.Height (Maze.blankLevel size (rn.1 + 1)).Finish.X
      (Maze.blankLevel size (rn.1 + 1)).Finish.Y := by
    simp only [Maze.blankLevel]
    exact ⟨by omega, by omega, by omega, by omega⟩
  obtain ⟨t1, t2, t3, t4, l5, g1, g2, g3, g4, -, -, -, -, -, -, -, -⟩ :=
    Maze.GenerateMaze_stages (l := Maze.blankLevel size (rn.1 + 1)) rn.2 hW hH hfin
      (by simp only [Maze.blankLevel]; omega)
  exact ⟨⟨_, e4⟩, ⟨rn, t1, t2, t3, t4, s1, l2, en, g1, g2, g3, g4, e1, e2⟩, by decide⟩

/-- Witness of C16: the size 9x6 and the random outcomes that are all 12345. -/
theorem NewLevel_runs_to_completion_witness :
    (∃ s, Maze.NewLevel (Maze.presetSize 9 6) (constRand 12345) = some s) ∧
    (∃ rn s1 s2 s3 s4 s5 l6, Intn 6 (constRand 12345) = some rn ∧
      Maze.seedWalls (Maze.blankLevel (Maze.presetSize 9 6) (rn.1 + 1)) rn.2 = some s1 ∧
      Maze.createGuaranteedPath s1.1 s1.2 = some s2 ∧
      Maze.connectIsolatedAreas s2.1 s2.2 = some s3 ∧
      Maze.createOpenSpace2x2 s3.1 s3.2 = some s4 ∧
      Maze.GenerateMaze (Maze.blankLevel (Maze.presetSize 9 6) (rn.1 + 1)) rn.2 = some s5 ∧
      Maze.EnsureConnectivity s5.1 = some l6) ∧
    (Maze.NewLevel (Maze.presetSize 4 5) (constRand 0)).isSome = false :=
  NewLevel_runs_to_completion (Maze.presetSize 9 6) (constRand 12345) (by decide) (by decide)

/-! ## The passes after the seeding only clear walls, on every grid -/

/-- A loop whose body, whenever it returns, relates the state before to the state after
by a reflexive and transitive relation, relates its start to its result whenever it
returns. -/
theorem forEach_rel {α σ : Type} (body : α → σ → Option σ) (R : σ → σ → Prop)
    (hrefl : ∀ s, R s s) (htrans : ∀ a b c, R a b → R b c → R a c) (is : List α)
    (hstep : ∀ i ∈ is, ∀ s s1, body i s = some s1 → R s s1) :
    ∀ s s1, forEach body is s = some s1 → R s s1 := by
  induction is with
  | nil =>
    intro s s1 h
    simp only [forEach, Option.some.injEq] at h
    subst h
    exact hrefl s
  | cons i rest ih =>
    intro s s1 h
    simp only [forEach] at h
    cases hb : body i s with
    | none => simp [hb] at h
    | some s2 =>
      simp only [hb] at h
      exact htrans _ _ _ (hstep i (List.mem_cons_self i rest) s s2 hb)
        (ih (fun j hj => hstep j (List.mem_cons_of_mem i hj)) s2 s1 h)

namespace Maze

/-- The relation `OpenMono` is reflexive. -/
theorem OpenMono.openRefl (g : Grid) : OpenMono g g :=
  fun _ _ h => h

/-- The relation `OpenMono` is transitive. -/
theorem OpenMono.openTrans {a b c : Grid} (h1 : OpenMono a b) (h2 : OpenMono b c) :
    OpenMono a c :=
  fun x y h => h2 x y (h1 x y h)

/-- On every grid, the statement `l.Cells[y][x].IsWall = false`, when it does not panic,
leaves every open cell open and changes no other field of the level. -/
theorem setWall_false_keeps {l l1 : Level} {x y : Int} (h : setWall l x y false = some l1) :
    OpenMono l.Cells l1.Cells ∧ l1.Size = l.Size ∧ l1.Finish = l.Finish := by
  unfold setWall at h
  cases hg : updateCell l.Cells x y (fun c => { c with IsWall := false }) with
  | none => simp [hg] at h
  | some g =>
    simp only [hg, Option.some.injEq] at h
    subst h
    refine ⟨?_, rfl, rfl⟩
    intro x1 y1 ho
    show isOpen g x1 y1 = true
    unfold isOpen at ho ⊢
    rw [cellAt_updateCell hg x1 y1]
    by_cases hxy : x1 = x ∧ y1 = y
    · obtain ⟨rfl, rfl⟩ := hxy
      cases hc : cellAt l.Cells x1 y1 with
      | none => simp [hc] at ho
      | some c => simp
    · simpa [hxy] using ho

/-- On every grid, the statement `l.Cells[y][x].Visited = b`, when it does not panic,
leaves every open cell open and changes no other field of the level. -/
theorem setVisited_keeps {l l1 : Level} {x y : Int} {b : Bool}
    (h : setVisited l x y b = some l1) :
    OpenMono l.Cells l1.Cells ∧ l1.Size = l.Size ∧ l1.Finish = l.Finish := by
  unfold setVisited at h
  cases hg : updateCell l.Cells x y (fun c => { c with Visited := b }) with
  | none => simp [hg] at h
  | some g =>
    simp only [hg, Option.some.injEq] at h
    subst h
    refine ⟨?_, rfl, rfl⟩
    intro x1 y1 ho
    show isOpen g x1 y1 = true
    unfold isOpen at ho ⊢
    rw [cellAt_updateCell hg x1 y1]
    by_cases hxy : x1 = x ∧ y1 = y
    · obtain ⟨rfl, rfl⟩ := hxy
      cases hc : cellAt l.Cells x1 y1 with
      | none => simp [hc] at ho
      | some c => simpa [hc] using ho
    · simpa [hxy] using ho

/-- On every grid, a loop of statements `IsWall = false` leaves every open cell open. -/
theorem forEach_setWall_keeps {α : Type} (fx fy : α → Level → Int) (is : List α) :
    ∀ l l1, forEach (fun i t => setWall t (fx i t) (fy i t) false) is l = some l1 →
      OpenMono l.Cells l1.Cells :=
  forEach_rel _ (fun a b : Level => OpenMono a.Cells b.Cells)
    (fun s => OpenMono.openRefl s.Cells) (fun _ _ _ h1 h2 => h1.openTrans h2) is
    (fun _ _ _ _ h => (setWall_false_keeps h).1)

/-- On every grid, the loop of `createGuaranteedPath`, when it returns, leaves every open
cell open. -/
theorem guaranteedPathLoop_keeps :
    ∀ (n : Nat) (x y : Int) (l : Level) (rng : RandSource) (r : Level × RandSource),
      guaranteedPathLoop n x y l rng = some r → OpenMono l.Cells r.1.Cells := by
  intro n
  induction n with
  | zero =>
    intro x y l rng r h
    rw [guaranteedPathLoop] at h
    split at h
    · cases h
    · injection h with h
      subst h
      exact OpenMono.openRefl _
  | succ n ih =>
    intro x y l rng r h
    have key : ∀ draw : Bool × RandSource,
        (if draw.1 = true then
            match carveRight x y l with
            | none => none
            | some l1 => guaranteedPathLoop n (x + 1) y l1 draw.2
          else if y < l.Finish.Y then
            match carveDown x y l with
            | none => none
            | some l1 => guaranteedPathLoop n x (y + 1) l1 draw.2
          else guaranteedPathLoop n x y l draw.2) = some r →
        OpenMono l.Cells r.1.Cells := by
      intro draw hd
      by_cases h1 : draw.1 = true
      · rw [if_pos h1] at hd
        cases hc : carveRight x y l with
        | none => simp [hc] at hd
        | some l1 =>
          simp only [hc] at hd
          exact (forEach_setWall_keeps (fun dx _ => x + dx) (fun _ _ => y) _ l l1 hc).openTrans
            (ih _ _ _ _ _ hd)
      · rw [if_neg h1] at hd
        by_cases h2 : y < l.Finish.Y
        · rw [if_pos h2] at hd
          cases hc : carveDown x y l with
          | none => simp [hc] at hd
          | some l1 =>
            simp only [hc] at hd
            exact (forEach_setWall_keeps (fun _ _ => x) (fun dy _ => y + dy) _ l l1
              hc).openTrans (ih _ _ _ _ _ hd)
        · rw [if_neg h2] at hd
          exact ih _ _ _ _ _ hd
    rw [guaranteedPathLoop] at h
    by_cases hcond : x < l.Finish.X ∨ y < l.Finish.Y
    · rw [if_pos hcond] at h
      exact key _ h
    · rw [if_neg hcond] at h
      injection h with h
      subst h
      exact OpenMono.openRefl _

end Maze

namespace Maze

/-- On every grid, `createGuaranteedPath`, when it returns, leaves every open cell open. -/
theorem createGuaranteedPath_keeps {l : Level} {rng : RandSource} {r : Level × RandSource}
    (h : createGuaranteedPath l rng = some r) : OpenMono l.Cells r.1.Cells :=
  guaranteedPathLoop_keeps _ 0 0 l rng r h

/-- On every grid, one cell of a plus-shaped opening leaves every open cell open. -/
theorem crossStep_keeps {x y dy dx : Int} {s s1 : Level × RandSource}
    (h : crossStep x y dy dx s = some s1) : OpenMono s.1.Cells s1.1.Cells := by
  unfold crossStep at h
  split at h
  · simp only at h
    split at h
    · split at h
      · cases hw : setWall s.1 (x + dx) (y + dy) false with
        | none => simp [hw] at h
        | some l1 =>
          simp only [hw, Option.some.injEq] at h
          subst h
          exact (setWall_false_keeps hw).1
      · injection h with h
        subst h
        exact OpenMono.openRefl _
    · injection h with h
      subst h
      exact OpenMono.openRefl _
  · injection h with h
    subst h
    exact OpenMono.openRefl _

/-- On every grid, `connectIsolatedAreas`, when it returns, leaves every open cell open. -/
theorem connectIsolatedAreas_keeps {l : Level} {rng : RandSource} {r : Level × RandSource}
    (h : connectIsolatedAreas l rng = some r) : OpenMono l.Cells r.1.Cells := by
  unfold connectIsolatedAreas at h
  refine forEach_rel connectStep (fun a b : Level × RandSource => OpenMono a.1.Cells b.1.Cells)
    (fun s => OpenMono.openRefl _) (fun _ _ _ h1 h2 => h1.openTrans h2) _ ?_ (l, rng) r h
  intro i _ s s1 hs
  unfold connectStep at hs
  cases hx : Intn (s.1.Size.Width - 2) s.2 with
  | none => simp [hx] at hs
  | some rx =>
    simp only [hx] at hs
    cases hy : Intn (s.1.Size.Height - 2) rx.2 with
    | none => simp [hy] at hs
    | some ry =>
      simp only [hy] at hs
      refine forEach_rel _ (fun a b : Level × RandSource => OpenMono a.1.Cells b.1.Cells)
        (fun s => OpenMono.openRefl _) (fun _ _ _ h1 h2 => h1.openTrans h2) _ ?_
        (s.1, ry.2) s1 hs
      intro dy _ t t1 ht
      refine forEach_rel _ (fun a b : Level × RandSource => OpenMono a.1.Cells b.1.Cells)
        (fun s => OpenMono.openRefl _) (fun _ _ _ h1 h2 => h1.openTrans h2) _ ?_ t t1 ht
      intro dx _ u u1 hu
      exact crossStep_keeps hu

/-- On every grid, one cell of the 2x2 block leaves every open cell open. -/
theorem openBlockStep_keeps {x y dy dx : Int} {l l1 : Level}
    (h : openBlockStep x y dy dx l = some l1) : OpenMono l.Cells l1.Cells := by
  unfold openBlockStep at h
  split at h
  · exact (setWall_false_keeps h).1
  · injection h with h
    subst h
    exact OpenMono.openRefl _

/-- On every grid, one cell of the ring around the block leaves every open cell open. -/
theorem openRingStep_keeps {x y dy dx : Int} {s s1 : Level × RandSource}
    (h : openRingStep x y dy dx s = some s1) : OpenMono s.1.Cells s1.1.Cells := by
  unfold openRingStep at h
  simp only at h
  split at h
  · split at h
    · split at h
      · cases hw : setWall s.1 (x + dx) (y + dy) false with
        | none => simp [hw] at h
        | some l1 =>
          simp only [hw, Option.some.injEq] at h
          subst h
          exact (setWall_false_keeps hw).1
      · injection h with h
        subst h
        exact OpenMono.openRefl _
    · injection h with h
      subst h
      exact OpenMono.openRefl _
  · injection h with h
    subst h
    exact OpenMono.openRefl _

/-- On every grid, `createOpenSpace2x2`, when it returns, leaves every open cell open. -/
theorem createOpenSpace2x2_keeps {l : Level} {rng : RandSource} {r : Level × RandSource}
    (h : createOpenSpace2x2 l rng = some r) : OpenMono l.Cells r.1.Cells := by
  unfold createOpenSpace2x2 at h
  cases hx : Intn (l.Size.Width - 4) rng with
  | none => simp [hx] at h
  | some rx =>
    simp only [hx] at h
    cases hy : Intn (l.Size.Height - 4) rx.2 with
    | none => simp [hy] at h
    | some ry =>
      simp only [hy] at h
      cases hb : forEach
          (fun dy l1 => forEach (fun dx l2 => openBlockStep (rx.1 + 2) (ry.1 + 2) dy dx l2)
            (intRange 0 2) l1)
          (intRange 0 2) l with
      | none => simp [hb] at h
      | some l1 =>
        simp only [hb] at h
        have h1 : OpenMono l.Cells l1.Cells := by
          refine forEach_rel _ (fun a b : Level => OpenMono a.Cells b.Cells)
            (fun s => OpenMono.openRefl _) (fun _ _ _ h1 h2 => h1.openTrans h2) _ ?_ l l1 hb
          intro dy _ t t1 ht
          refine forEach_rel _ (fun a b : Level => OpenMono a.Cells b.Cells)
            (fun s => OpenMono.openRefl _) (fun _ _ _ h1 h2 => h1.openTrans h2) _ ?_ t t1 ht
          intro dx _ u u1 hu
          exact openBlockStep_keeps hu
        have h2 : OpenMono l1.Cells r.1.Cells := by
          refine forEach_rel _
            (fun a b : Level × RandSource => OpenMono a.1.Cells b.1.Cells)
            (fun s => OpenMono.openRefl _) (fun _ _ _ h1 h2 => h1.openTrans h2) _ ?_
            (l1, ry.2) r h
          intro dy _ t t1 ht
          refine forEach_rel _
            (fun a b : Level × RandSource => OpenMono a.1.Cells b.1.Cells)
            (fun s => OpenMono.openRefl _) (fun _ _ _ h1 h2 => h1.openTrans h2) _ ?_ t t1 ht
          intro dx _ u u1 hu
          exact openRingStep_keeps hu
        exact h1.openTrans h2

/-- On every grid, `createDirectPathToFinish`, when it returns, leaves every open cell
open. -/
theorem createDirectPathToFinish_keeps {l r : Level}
    (h : createDirectPathToFinish l = some r) : OpenMono l.Cells r.Cells := by
  unfold createDirectPathToFinish at h
  cases h1 : forEach (fun x l1 => setWall l1 x 0 false) (intRange 0 l.Size.Width) l with
  | none => simp [h1] at h
  | some l1 =>
    simp only [h1] at h
    exact (forEach_setWall_keeps (fun x _ => x) (fun _ _ => 0) _ l l1 h1).openTrans
      (forEach_setWall_keeps (fun _ t => t.Size.Width - 1) (fun y _ => y) _ l1 r h)

/-- On every grid, one neighbour of the dequeued cell leaves every open cell open. -/
theorem visitNeighbor_keeps {cur dir : Int × Int} {s s1 : Level × List (Int × Int)}
    (h : visitNeighbor cur dir s = some s1) : OpenMono s.1.Cells s1.1.Cells := by
  unfold visitNeighbor at h
  simp only at h
  split at h
  · cases hc : cellAt s.1.Cells (cur.1 + dir.1) (cur.2 + dir.2) with
    | none => simp [hc] at h
    | some c =>
      simp only [hc] at h
      split at h
      · cases hv : setVisited s.1 (cur.1 + dir.1) (cur.2 + dir.2) true with
        | none => simp [hv] at h
        | some l1 =>
          simp only [hv, Option.some.injEq] at h
          subst h
          exact (setVisited_keeps hv).1
      · injection h with h
        subst h
        exact OpenMono.openRefl _
  · injection h with h
    subst h
    exact OpenMono.openRefl _

/-- On every grid, the search loop, when it returns, leaves every open cell open. -/
theorem searchLoop_keeps :
    ∀ (n : Nat) (l : Level) (q : List (Int × Int)) (r : Level),
      searchLoop n l q = some r → OpenMono l.Cells r.Cells := by
  intro n
  induction n with
  | zero =>
    intro l q r h
    cases q with
    | nil =>
      simp only [searchLoop, Option.some.injEq] at h
      subst h
      exact OpenMono.openRefl _
    | cons cur rest => simp [searchLoop] at h
  | succ n ih =>
    intro l q r h
    cases q with
    | nil =>
      simp only [searchLoop, Option.some.injEq] at h
      subst h
      exact OpenMono.openRefl _
    | cons cur rest =>
      simp only [searchLoop] at h
      cases hn : forEach (visitNeighbor cur) directions (l, rest) with
      | none => simp [hn] at h
      | some s =>
        simp only [hn] at h
        have h1 : OpenMono l.Cells s.1.Cells :=
          forEach_rel _
            (fun a b : Level × List (Int × Int) => OpenMono a.1.Cells b.1.Cells)
            (fun s => OpenMono.openRefl _) (fun _ _ _ h1 h2 => h1.openTrans h2) _
            (fun _ _ _ _ hs => visitNeighbor_keeps hs) (l, rest) s hn
        exact h1.openTrans (ih _ _ _ h)

/-- On every grid, the search of `EnsureConnectivity`, when it returns, leaves every open
cell open. -/
theorem searchFromStart_keeps {l r : Level} (h : searchFromStart l = some r) :
    OpenMono l.Cells r.Cells := by
  unfold searchFromStart at h
  cases h1 : resetVisited l with
  | none => simp [h1] at h
  | some l1 =>
    simp only [h1] at h
    cases h2 : setVisited l1 0 0 true with
    | none => simp [h2] at h
    | some l2 =>
      simp only [h2] at h
      have k1 : OpenMono l.Cells l1.Cells := by
        unfold resetVisited at h1
        refine forEach_rel _ (fun a b : Level => OpenMono a.Cells b.Cells)
          (fun s => OpenMono.openRefl _) (fun _ _ _ h1 h2 => h1.openTrans h2) _ ?_ l l1 h1
        intro y _ t t1 ht
        refine forEach_rel _ (fun a b : Level => OpenMono a.Cells b.Cells)
          (fun s => OpenMono.openRefl _) (fun _ _ _ h1 h2 => h1.openTrans h2) _ ?_ t t1 ht
        intro x _ u u1 hu
        exact (setVisited_keeps hu).1
      exact k1.openTrans ((setVisited_keeps h2).1.openTrans (searchLoop_keeps _ _ _ _ h))

/-- On every grid, `EnsureConnectivity`, when it returns, leaves every open cell open. -/
theorem EnsureConnectivity_keeps {l r : Level} (h : EnsureConnectivity l = some r) :
    OpenMono l.Cells r.Cells := by
  unfold EnsureConnectivity at h
  cases h1 : searchFromStart l with
  | none => simp [h1] at h
  | some l3 =>
    simp only [h1] at h
    cases hc : cellAt l3.Cells l3.Finish.X l3.Finish.Y with
    | none => simp [hc] at h
    | some c =>
      simp only [hc] at h
      split at h
      · exact (searchFromStart_keeps h1).openTrans (createDirectPathToFinish_keeps h)
      · injection h with h
        subst h
        exact searchFromStart_keeps h1

end Maze

/-- C17: in the maze variant, for every level (every grid, also one whose rows do not
match `Size`) and every sequence of random outcomes, each of `createGuaranteedPath`,
`connectIsolatedAreas`, `createOpenSpace2x2`, `EnsureConnectivity` and
`createDirectPathToFinish`, when it returns, leaves every cell that was non-wall before
the pass non-wall after it; and on a grid of `Height` rows of `Width` cells, of at least
5x5 and with the finish inside the grid, each of the five passes returns. -/
theorem passes_only_clear_walls (l : Maze.Level) (rng : RandSource) :
    ((∀ r, Maze.createGuaranteedPath l rng = some r → Maze.OpenMono l.Cells r.1.Cells) ∧
      (∀ r, Maze.connectIsolatedAreas l rng = some r → Maze.OpenMono l.Cells r.1.Cells) ∧
      (∀ r, Maze.createOpenSpace2x2 l rng = some r → Maze.OpenMono l.Cells r.1.Cells) ∧
      (∀ r, Maze.EnsureConnectivity l = some r → Maze.OpenMono l.Cells r.Cells) ∧
      (∀ r, Maze.createDirectPathToFinish l = some r → Maze.OpenMono l.Cells r.Cells)) ∧
    (Maze.RowsCols l.Cells l.Size.Width l.Size.Height →
      5 ≤ l.Size.Width → 5 ≤ l.Size.Height →
      Maze.InGrid l.Size.Width l.Size.Height l.Finish.X l.Finish.Y →
      (∃ r, Maze.createGuaranteedPath l rng = some r) ∧
      (∃ r, Maze.connectIsolatedAreas l rng = some r) ∧
      (∃ r, Maze.createOpenSpace2x2 l rng = some r) ∧
      (∃ r, Maze.EnsureConnectivity l = some r) ∧
      (∃ r, Maze.createDirectPathToFinish l = some r)) := by
  refine ⟨⟨fun r h => Maze.createGuaranteedPath_keeps h,
    fun r h => Maze.connectIsolatedAreas_keeps h,
    fun r h => Maze.createOpenSpace2x2_keeps h,
    fun r h => Maze.EnsureConnectivity_keeps h,
    fun r h => Maze.createDirectPathToFinish_keeps h⟩, ?_⟩
  intro hrows hW hH hfin
  have hwf := Maze.wellFormed_of_rowsCols hrows
  obtain ⟨hX0, hXW, hY0, hYH⟩ := hfin
  obtain ⟨r1, e1, -, -⟩ := Maze.guaranteedPathLoop_spec
    (l.Finish.X.toNat + l.Finish.Y.toNat) 0 0 l rng hwf (le_refl 0) hX0 hXW (le_refl 0)
    hY0 hYH (by omega)
  obtain ⟨r2, e2, -⟩ := Maze.connectIsolatedAreas_spec rng hwf (by omega) (by omega)
  obtain ⟨r3, e3, -⟩ := Maze.createOpenSpace2x2_spec rng hwf hW hH
  obtain ⟨r4, e4, -⟩ := Maze.EnsureConnectivity_spec hwf (by omega) (by omega)
    ⟨hX0, hXW, hY0, hYH⟩
  obtain ⟨r5, e5, -⟩ := Maze.createDirectPathToFinish_spec hwf (by omega) (by omega)
  exact ⟨⟨r1, e1⟩, ⟨r2, e2⟩, ⟨r3, e3⟩, ⟨r4, e4⟩, ⟨r5, e5⟩⟩

/-- Witness of C17: the 5x5 level without walls; the five passes return on it. -/
theorem passes_only_clear_walls_witness :
    Maze.RowsCols (Maze.freshLevel 5 5).Cells (Maze.freshLevel 5 5).Size.Width
        (Maze.freshLevel 5 5).Size.Height ∧
      (∃ r, Maze.createGuaranteedPath (Maze.freshLevel 5 5) (constRand 7) = some r) ∧
      (∃ r, Maze.connectIsolatedAreas (Maze.freshLevel 5 5) (constRand 7) = some r) ∧
      (∃ r, Maze.createOpenSpace2x2 (Maze.freshLevel 5 5) (constRand 7) = some r) ∧
      (∃ r, Maze.EnsureConnectivity (Maze.freshLevel 5 5) = some r) ∧
      (∃ r, Maze.createDirectPathToFinish (Maze.freshLevel 5 5) = some r) :=
  have hrows : Maze.RowsCols (Maze.freshLevel 5 5).Cells (Maze.freshLevel 5 5).Size.Width
      (Maze.freshLevel 5 5).Size.Height := by
    unfold Maze.RowsCols
    decide
  ⟨hrows, (passes_only_clear_walls (Maze.freshLevel 5 5) (constRand 7)).2 hrows
    (by decide) (by decide) (by unfold Maze.InGrid; decide)⟩

/-! ## `EnsureConnectivity` decides reachability -/

namespace Maze

/-- A path can be extended at its end by an adjacent open cell. -/
theorem validPath_snoc {cells : Grid} {b c : Int × Int} (hadj : adjacent b c = true)
    (hc : isOpen cells c.1 c.2 = true) :
    ∀ (rest : List (Int × Int)) (a : Int × Int), validPath cells a rest b = true →
      validPath cells a (rest ++ [c]) c = true := by
  intro rest
  induction rest with
  | nil =>
    intro a h
    simp only [validPath, Bool.and_eq_true, beq_iff_eq] at h
    obtain ⟨rfl, ho⟩ := h
    simp [validPath, ho, hadj, hc]
  | cons p rest ih =>
    intro a h
    simp only [validPath, Bool.and_eq_true] at h
    simp only [List.cons_append, validPath, Bool.and_eq_true]
    exact ⟨h.1, ih p h.2⟩

/-- Connectivity extends by an adjacent open cell at the end. -/
theorem Connected.snoc {cells : Grid} {a b c : Int × Int} (h : Connected cells a b)
    (hadj : adjacent b c = true) (hc : isOpen cells c.1 c.2 = true) : Connected cells a c := by
  obtain ⟨rest, hr⟩ := h
  exact ⟨rest ++ [c], validPath_snoc hadj hc rest a hr⟩

/-- The search reaches every open cell adjacent to a cell it reaches. -/
theorem ReachedFromStart.step {cells : Grid} {b c : Int × Int}
    (h : ReachedFromStart cells b) (hadj : adjacent b c = true)
    (hc : isOpen cells c.1 c.2 = true) : ReachedFromStart cells c := by
  rcases h with rfl | ⟨n, hn, hp⟩
  · exact Or.inr ⟨c, hadj, Connected.self hc⟩
  · exact Or.inr ⟨n, hn, hp.snoc hadj hc⟩

/-- Reachability depends on the wall flags only. -/
theorem ReachedFromStart.congr {g g1 : Grid} (ho : ∀ x y, isOpen g1 x y = isOpen g x y)
    {b : Int × Int} (h : ReachedFromStart g b) : ReachedFromStart g1 b := by
  rcases h with rfl | ⟨n, hn, hp⟩
  · exact Or.inl rfl
  · exact Or.inr ⟨n, hn, hp.mono (fun x y h => by rw [ho]; exact h)⟩

/-- When the start is open, the search reaches exactly the cells connected to it. -/
theorem reachedFromStart_iff_connected {cells : Grid} (hstart : isOpen cells 0 0 = true)
    (b : Int × Int) : ReachedFromStart cells b ↔ Connected cells (0, 0) b := by
  constructor
  · rintro (rfl | ⟨n, hn, hp⟩)
    · exact Connected.self hstart
    · exact Connected.cons hstart hn hp
  · rintro ⟨rest, hr⟩
    cases rest with
    | nil =>
      simp only [validPath, Bool.and_eq_true, beq_iff_eq] at hr
      exact Or.inl hr.1.symm
    | cons p rest =>
      simp only [validPath, Bool.and_eq_true] at hr
      exact Or.inr ⟨p, hr.1.2, rest, hr.2⟩

/-- Each of the four `directions` leads to a 4-adjacent cell. -/
theorem adjacent_of_direction {d : Int × Int} (hd : d ∈ directions) (p : Int × Int) :
    adjacent p (p.1 + d.1, p.2 + d.2) = true := by
  simp only [directions, List.mem_cons, List.mem_singleton, List.not_mem_nil, or_false] at hd
  rcases hd with rfl | rfl | rfl | rfl <;> simp [adjacent]

end Maze

namespace Maze

/-- One neighbour of the dequeued cell keeps the soundness invariant of the search. -/
theorem visitNeighbor_sound {g0 : Grid} {cur dir : Int × Int}
    {s s1 : Level × List (Int × Int)} (hs : SearchSound g0 s.1 s.2)
    (hcur : ReachedFromStart g0 cur) (hdir : dir ∈ directions)
    (h : visitNeighbor cur dir s = some s1) : SearchSound g0 s1.1 s1.2 := by
  obtain ⟨hwf, hopen, hq, hv⟩ := hs
  unfold visitNeighbor at h
  simp only at h
  split at h
  · rename_i hin
    have hin1 : InGrid s.1.Size.Width s.1.Size.Height (cur.1 + dir.1) (cur.2 + dir.2) :=
      ⟨hin.1, hin.2.1, hin.2.2.1, hin.2.2.2⟩
    cases hc : cellAt s.1.Cells (cur.1 + dir.1) (cur.2 + dir.2) with
    | none => simp [hc] at h
    | some c =>
      simp only [hc] at h
      split at h
      · rename_i hp
        obtain ⟨l1, e1, c1, o1, v1⟩ := setVisited_flags true hwf hin1
        rw [e1] at h
        simp only [Option.some.injEq] at h
        subst h
        have hcopen : isOpen g0 (cur.1 + dir.1) (cur.2 + dir.2) = true := by
          rw [← hopen]
          unfold isOpen
          simp only [hc]
          simp only [Bool.and_eq_true, Bool.not_eq_true'] at hp
          simp [hp.1]
        have hnew : ReachedFromStart g0 (cur.1 + dir.1, cur.2 + dir.2) :=
          hcur.step (adjacent_of_direction hdir cur) hcopen
        refine ⟨c1.2.1, fun x y => by rw [o1, hopen], ?_, ?_⟩
        · intro p hp1
          show isVisited l1.Cells p.1 p.2 = true
          rw [v1]
          rcases List.mem_append.mp hp1 with h1 | h1
          · by_cases hxy : p.1 = cur.1 + dir.1 ∧ p.2 = cur.2 + dir.2
            · simp [hxy]
            · simp only [hxy, if_false]
              exact hq p h1
          · rw [List.mem_singleton] at h1
            subst h1
            simp
        · intro x y hvis
          have hvis1 : isVisited l1.Cells x y = true := hvis
          rw [v1] at hvis1
          by_cases hxy : x = cur.1 + dir.1 ∧ y = cur.2 + dir.2
          · obtain ⟨rfl, rfl⟩ := hxy
            exact hnew
          · simp only [hxy, if_false] at hvis1
            exact hv x y hvis1
      · injection h with h
        subst h
        exact ⟨hwf, hopen, hq, hv⟩
  · injection h with h
    subst h
    exact ⟨hwf, hopen, hq, hv⟩

/-- The loop over the neighbours of the dequeued cell keeps the soundness invariant. -/
theorem visitNeighbors_sound {g0 : Grid} {cur : Int × Int} (hcur : ReachedFromStart g0 cur)
    (dirs : List (Int × Int)) (hdirs : ∀ d ∈ dirs, d ∈ directions) :
    ∀ (s s1 : Level × List (Int × Int)), SearchSound g0 s.1 s.2 →
      forEach (visitNeighbor cur) dirs s = some s1 → SearchSound g0 s1.1 s1.2 := by
  induction dirs with
  | nil =>
    intro s s1 hs h
    simp only [forEach, Option.some.injEq] at h
    subst h
    exact hs
  | cons d rest ih =>
    intro s s1 hs h
    simp only [forEach] at h
    cases hb : visitNeighbor cur d s with
    | none => simp [hb] at h
    | some s2 =>
      simp only [hb] at h
      exact ih (fun e he => hdirs e (List.mem_cons_of_mem d he)) s2 s1
        (visitNeighbor_sound hs hcur (hdirs d (List.mem_cons_self d rest)) hb) h

/-- The search loop marks only cells that are reached from the start. -/
theorem searchLoop_sound {g0 : Grid} :
    ∀ (n : Nat) (l : Level) (q : List (Int × Int)) (r : Level), SearchSound g0 l q →
      searchLoop n l q = some r →
      ∀ x y, isVisited r.Cells x y = true → ReachedFromStart g0 (x, y) := by
  intro n
  induction n with
  | zero =>
    intro l q r hs h
    cases q with
    | nil =>
      simp only [searchLoop, Option.some.injEq] at h
      subst h
      exact hs.2.2.2
    | cons cur rest => simp [searchLoop] at h
  | succ n ih =>
    intro l q r hs h
    cases q with
    | nil =>
      simp only [searchLoop, Option.some.injEq] at h
      subst h
      exact hs.2.2.2
    | cons cur rest =>
      simp only [searchLoop] at h
      cases hn : forEach (visitNeighbor cur) directions (l, rest) with
      | none => simp [hn] at h
      | some s =>
        simp only [hn] at h
        have hcur : ReachedFromStart g0 cur :=
          hs.2.2.2 cur.1 cur.2 (hs.2.2.1 cur (List.mem_cons_self cur rest))
        have hs0 : SearchSound g0 l rest :=
          ⟨hs.1, hs.2.1, fun p hp => hs.2.2.1 p (List.mem_cons_of_mem cur hp), hs.2.2.2⟩
        exact ih s.1 s.2 r
          (visitNeighbors_sound hcur directions (fun _ hd => hd) (l, rest) s hs0 hn) h

/-- The search of `EnsureConnectivity` on a well-formed non-empty grid: it does not
panic, its loop ends, it changes no wall flag, and it marks exactly the cells that it
reaches from the start. -/
theorem searchFromStart_exact {l : Level} (hwf : WellFormed l)
    (hW : 1 ≤ l.Size.Width) (hH : 1 ≤ l.Size.Height) :
    ∃ l3, searchFromStart l = some l3 ∧ Carves l l3 ∧
      (∀ x y, isOpen l3.Cells x y = isOpen l.Cells x y) ∧
      ∀ x y, isVisited l3.Cells x y = true ↔ ReachedFromStart l.Cells (x, y) := by
  unfold searchFromStart
  obtain ⟨l1, e1, c1, o1, v1⟩ := resetVisited_spec hwf
  obtain ⟨l2, e2, c2, o2, v2⟩ := setVisited_flags (x := 0) (y := 0) true c1.2.1
    (by rw [c1.1.1]; exact ⟨by omega, by omega, by omega, by omega⟩)
  have honly : ∀ x y, isVisited l2.Cells x y = true → x = 0 ∧ y = 0 := by
    intro x y hv
    rw [v2 x y] at hv
    by_cases hxy : x = 0 ∧ y = 0
    · exact hxy
    · simp only [hxy, if_false] at hv
      rw [v1 x y] at hv
      cases hv
  have hcl2 : SearchClosed l2 [(0, 0)] := by
    intro x y hv hq
    exfalso
    obtain ⟨rfl, rfl⟩ := honly x y hv
    exact hq (List.mem_singleton.mpr rfl)
  have hsound2 : SearchSound l.Cells l2 [(0, 0)] := by
    refine ⟨c2.2.1, fun x y => by rw [o2, o1], ?_, ?_⟩
    · intro p hp
      rw [List.mem_singleton] at hp
      subst hp
      rw [v2]
      simp
    · intro x y hv
      obtain ⟨rfl, rfl⟩ := honly x y hv
      exact Or.inl rfl
  obtain ⟨l3, e3, c3, o3, v3, k3⟩ := searchLoop_spec (cellCount l2.Cells + 1) l2 [(0, 0)]
    c2.2.1 hcl2 (by
      have := unvisitedOpen_le_cellCount l2.Cells
      simp only [List.length_singleton]
      omega)
  have hopen : ∀ x y, isOpen l3.Cells x y = isOpen l.Cells x y := by
    intro x y
    rw [o3, o2, o1]
  have hstart : isVisited l3.Cells 0 0 = true := by
    apply v3
    rw [v2 0 0]
    simp
  refine ⟨l3, ?_, c1.carvesTrans (c2.carvesTrans c3), hopen, ?_⟩
  · simp only [e1, e2]
    exact e3
  · intro x y
    constructor
    · exact searchLoop_sound _ l2 [(0, 0)] l3 hsound2 e3 x y
    · rintro (hxy | ⟨n, hn, rest, hrest⟩)
      · simp only [Prod.mk.injEq] at hxy
        obtain ⟨rfl, rfl⟩ := hxy
        exact hstart
      · have hpath : validPath l3.Cells n rest (x, y) = true :=
          validPath_mono (fun a b h => by rw [hopen]; exact h) (x, y) rest n hrest
        obtain ⟨d, hd, hnd⟩ := adjacent_direction hn
        have hnopen := validPath_head_open hpath
        have hnv : isVisited l3.Cells n.1 n.2 = true := by
          have := k3 0 0 hstart (List.not_mem_nil _) d hd
          rw [hnd] at hnopen ⊢
          exact this hnopen
        exact visited_of_validPath k3 (x, y) rest n hpath hnv

end Maze

namespace Maze

/-- Clearing a wall inside the grid: no panic, the cell is open afterwards and every
other cell is as it was. -/
theorem setWall_false_flags {l : Level} {x y : Int} (hwf : WellFormed l)
    (hin : InGrid l.Size.Width l.Size.Height x y) :
    ∃ l1, setWall l x y false = some l1 ∧ Carves l l1 ∧
      ∀ x1 y1, isOpen l1.Cells x1 y1
        = if x1 = x ∧ y1 = y then true else isOpen l.Cells x1 y1 := by
  obtain ⟨l1, h1, hf, hw, hc⟩ := setWall_spec false hwf hin
  obtain ⟨c, hcell⟩ := Option.isSome_iff_exists.mp ((hwf x y).mpr hin)
  have hflags : ∀ x1 y1, isOpen l1.Cells x1 y1
      = if x1 = x ∧ y1 = y then true else isOpen l.Cells x1 y1 := by
    intro x1 y1
    unfold isOpen
    rw [hc x1 y1]
    by_cases hxy : x1 = x ∧ y1 = y
    · simp [hxy, hcell]
    · simp [hxy]
  refine ⟨l1, h1, ⟨hf, hw, ?_⟩, hflags⟩
  intro x1 y1 ho
  rw [hflags]
  by_cases hxy : x1 = x ∧ y1 = y
  · simp [hxy]
  · simpa [hxy] using ho

/-- The fallback corridor on a well-formed non-empty grid: it does not panic, it opens
every cell of the top row and of the right column, and changes no other wall flag. -/
theorem createDirectPathToFinish_exact {l : Level} (hwf : WellFormed l)
    (hW : 1 ≤ l.Size.Width) (hH : 1 ≤ l.Size.Height) :
    ∃ l1, createDirectPathToFinish l = some l1 ∧ Carves l l1 ∧
      (∀ x y, OnCorridor l.Size.Width l.Size.Height x y → isOpen l1.Cells x y = true) ∧
      ∀ x y, ¬ OnCorridor l.Size.Width l.Size.Height x y →
        isOpen l1.Cells x y = isOpen l.Cells x y := by
  unfold createDirectPathToFinish
  obtain ⟨l1, e1, ⟨c1, n1⟩, hQ1, -⟩ := forEach_acc (fun x l1 => setWall l1 x 0 false)
    (fun t => Carves l t ∧ ∀ x y, ¬ OnCorridor l.Size.Width l.Size.Height x y →
      isOpen t.Cells x y = isOpen l.Cells x y)
    (fun x t => isOpen t.Cells x 0 = true)
    (intRange 0 l.Size.Width)
    (by
      intro x hx t ht
      have hxb := mem_intRange.mp hx
      obtain ⟨t1, e1, c1, o1⟩ := setWall_false_flags (x := x) (y := 0) ht.1.2.1
        (by rw [ht.1.1.1]; exact ⟨by omega, by omega, by omega, by omega⟩)
      refine ⟨t1, e1, ⟨ht.1.carvesTrans c1, ?_⟩, ?_, ?_⟩
      · intro x1 y1 hn
        rw [o1]
        by_cases hxy : x1 = x ∧ y1 = 0
        · exfalso
          obtain ⟨rfl, rfl⟩ := hxy
          exact hn ⟨⟨by omega, by omega, by omega, by omega⟩, Or.inl rfl⟩
        · simp only [hxy, if_false]
          exact ht.2 x1 y1 hn
      · show isOpen t1.Cells x 0 = true
        rw [o1]
        simp
      · intro j hj
        exact c1.2.2 _ _ hj)
    l ⟨Carves.carvesRefl hwf, fun _ _ _ => rfl⟩
  obtain ⟨l2, e2, ⟨c2, n2, m2⟩, hQ2, -⟩ := forEach_acc
    (fun y l2 => setWall l2 (l2.Size.Width - 1) y false)
    (fun t => Carves l t ∧ (∀ x y, ¬ OnCorridor l.Size.Width l.Size.Height x y →
      isOpen t.Cells x y = isOpen l.Cells x y) ∧ OpenMono l1.Cells t.Cells)
    (fun y t => isOpen t.Cells (l.Size.Width - 1) y = true)
    (intRange 0 l1.Size.Height)
    (by
      intro y hy t ht
      have hyb := mem_intRange.mp hy
      rw [c1.1.1] at hyb
      obtain ⟨t1, e1, c1, o1⟩ := setWall_false_flags (x := t.Size.Width - 1) (y := y)
        ht.1.2.1 (by rw [ht.1.1.1]; exact ⟨by omega, by omega, by omega, by omega⟩)
      refine ⟨t1, e1, ⟨ht.1.carvesTrans c1, ?_, fun a b h => c1.2.2 a b (ht.2.2 a b h)⟩,
        ?_, ?_⟩
      · intro x1 y1 hn
        rw [o1]
        by_cases hxy : x1 = t.Size.Width - 1 ∧ y1 = y
        · exfalso
          obtain ⟨rfl, rfl⟩ := hxy
          rw [ht.1.1.1] at hn
          exact hn ⟨⟨by omega, by omega, by omega, by omega⟩, Or.inr rfl⟩
        · simp only [hxy, if_false]
          exact ht.2.1 x1 y1 hn
      · show isOpen t1.Cells (l.Size.Width - 1) y = true
        rw [o1, ht.1.1.1]
        simp
      · intro j hj
        exact c1.2.2 _ _ hj)
    l1 ⟨c1, n1, fun _ _ h => h⟩
  refine ⟨l2, ?_, c2, ?_, n2⟩
  · simp only [e1]
    exact e2
  · rintro x y ⟨⟨hx0, hxW, hy0, hyH⟩, hc⟩
    rcases hc with rfl | rfl
    · exact m2 _ _ (hQ1 x (mem_intRange.mpr (by omega)))
    · exact hQ2 y (mem_intRange.mpr (by rw [c1.1.1]; omega))

/-- When the top row and the right column are open, a path of open cells joins the start
to every cell of the corridor, hence to the bottom-right corner. -/
theorem corridor_connected {cells : Grid} {W H : Int} (hW : 1 ≤ W) (hH : 1 ≤ H)
    (hc : ∀ x y, OnCorridor W H x y → isOpen cells x y = true) :
    Connected cells (0, 0) (W - 1, H - 1) := by
  have hrow : ∀ k : Nat, (k : Int) < W → Connected cells (0, 0) ((k : Int), 0) := by
    intro k
    induction k with
    | zero =>
      intro _
      exact Connected.self (hc 0 0 ⟨⟨by omega, by omega, by omega, by omega⟩, Or.inl rfl⟩)
    | succ k ih =>
      intro hk
      have h1 := ih (by omega)
      refine h1.snoc ?_ (hc _ _ ⟨⟨by omega, hk, by omega, by omega⟩, Or.inl rfl⟩)
      simp [adjacent]
  have hcol : ∀ k : Nat, (k : Int) < H → Connected cells (0, 0) (W - 1, (k : Int)) := by
    intro k
    induction k with
    | zero =>
      intro _
      have h1 := hrow (W - 1).toNat (by omega)
      have e : (((W - 1).toNat : Nat) : Int) = W - 1 := by omega
      rw [e] at h1
      exact h1
    | succ k ih =>
      intro hk
      have h1 := ih (by omega)
      refine h1.snoc ?_ (hc _ _ ⟨⟨by omega, by omega, by omega, hk⟩, Or.inr rfl⟩)
      simp [adjacent]
  have h1 := hcol (H - 1).toNat (by omega)
  have e : (((H - 1).toNat : Nat) : Int) = H - 1 := by omega
  rw [e] at h1
  exact h1

/-- On two grids of the same dimensions, a cell that is open in both or in neither has
the same wall flag in both. -/
theorem isWallAt_eq_of_isOpen_eq {g g1 : Grid} {W H : Int} (hd : Dims g W H)
    (hd1 : Dims g1 W H) {x y : Int} (h : isOpen g1 x y = isOpen g x y) :
    isWallAt g1 x y = isWallAt g x y := by
  have hsome : (cellAt g1 x y).isSome = (cellAt g x y).isSome := by
    rw [Bool.eq_iff_iff, hd x y, hd1 x y]
  unfold isOpen at h
  unfold isWallAt
  cases hc : cellAt g x y with
  | none =>
    cases hc1 : cellAt g1 x y with
    | none => rfl
    | some c1 => simp [hc, hc1] at hsome
  | some c =>
    cases hc1 : cellAt g1 x y with
    | none => simp [hc, hc1] at hsome
    | some c1 =>
      simp only [hc, hc1] at h ⊢
      cases hw : c.IsWall <;> cases hw1 : c1.IsWall <;> simp [hw, hw1] at h ⊢

/-- On a well-formed grid, an open cell is not a wall. -/
theorem isWallAt_of_isOpen {g : Grid} {x y : Int} (h : isOpen g x y = true) :
    isWallAt g x y = false := by
  unfold isOpen at h
  unfold isWallAt
  cases hc : cellAt g x y with
  | none => rfl
  | some c =>
    simp only [hc] at h ⊢
    simpa using h

end Maze

namespace Maze

/-- The method `EnsureConnectivity` on a well-formed non-empty grid that contains the
finish: it does not panic; when the search reaches the finish no wall flag changes;
otherwise every cell of the top row and of the right column is opened and no other wall
flag changes. -/
theorem EnsureConnectivity_exact {l : Level} (hwf : WellFormed l)
    (hW : 1 ≤ l.Size.Width) (hH : 1 ≤ l.Size.Height)
    (hfin : InGrid l.Size.Width l.Size.Height l.Finish.X l.Finish.Y) :
    ∃ l1, EnsureConnectivity l = some l1 ∧ Carves l l1 ∧
      (ReachedFromStart l.Cells (l.Finish.X, l.Finish.Y) →
        ∀ x y, isOpen l1.Cells x y = isOpen l.Cells x y) ∧
      (¬ ReachedFromStart l.Cells (l.Finish.X, l.Finish.Y) →
        (∀ x y, OnCorridor l.Size.Width l.Size.Height x y → isOpen l1.Cells x y = true) ∧
        ∀ x y, ¬ OnCorridor l.Size.Width l.Size.Height x y →
          isOpen l1.Cells x y = isOpen l.Cells x y) := by
  unfold EnsureConnectivity
  obtain ⟨l3, e3, c3, o3, v3⟩ := searchFromStart_exact hwf hW hH
  obtain ⟨c, hc⟩ := Option.isSome_iff_exists.mp ((c3.2.1 l3.Finish.X l3.Finish.Y).mpr
    (by rw [c3.1.1, c3.1.2.1]; exact hfin))
  have hvis : isVisited l3.Cells l.Finish.X l.Finish.Y = c.Visited := by
    rw [← c3.1.2.1]
    unfold isVisited
    rw [hc]
  simp only [e3, hc]
  by_cases hv : c.Visited = true
  · have hreach : ReachedFromStart l.Cells (l.Finish.X, l.Finish.Y) :=
      (v3 _ _).mp (by rw [hvis]; exact hv)
    refine ⟨l3, by simp [hv], c3, fun _ => o3, fun hn => absurd hreach hn⟩
  · have hnreach : ¬ ReachedFromStart l.Cells (l.Finish.X, l.Finish.Y) := by
      intro hr
      have := (v3 _ _).mpr hr
      rw [hvis] at this
      exact hv this
    obtain ⟨l4, e4, c4, k4, n4⟩ := createDirectPathToFinish_exact c3.2.1
      (by rw [c3.1.1]; exact hW) (by rw [c3.1.1]; exact hH)
    rw [c3.1.1] at k4 n4
    refine ⟨l4, by simp [hv, e4], c3.carvesTrans c4, fun hr => absurd hr hnreach,
      fun _ => ⟨k4, fun x y hn => by rw [n4 x y hn, o3]⟩⟩

end Maze

/-- C20, as stated, fails: in the 2x2 grid whose start cell `(0,0)` is a wall and whose
other cells are open, no path of non-wall cells leaves `(0,0)`, so the finish `(1,1)` is
not reachable from `(0,0)` through non-wall cells; yet `EnsureConnectivity` changes no
wall flag, and the cell `(0,0)` of the top row is still a wall afterwards. -/
theorem EnsureConnectivity_wall_start_counterexample :
    Maze.RowsCols Maze.wallStartLevel.Cells Maze.wallStartLevel.Size.Width
      Maze.wallStartLevel.Size.Height ∧
    ¬ Maze.Connected Maze.wallStartLevel.Cells (0, 0)
      (Maze.wallStartLevel.Finish.X, Maze.wallStartLevel.Finish.Y) ∧
    (Maze.EnsureConnectivity Maze.wallStartLevel).map
      (fun r => (Maze.isWallAt r.Cells 0 0, Maze.isWallAt r.Cells 1 0,
        Maze.isWallAt r.Cells 0 1, Maze.isWallAt r.Cells 1 1))
      = some (true, false, false, false) := by
  refine ⟨?_, ?_, by decide⟩
  · unfold Maze.RowsCols
    decide
  · rintro ⟨rest, hrest⟩
    have := Maze.validPath_head_open hrest
    revert this
    decide

/-- C20, amended: in the maze variant, for every grid of `Height` rows of `Width` cells
(`Width`, `Height` at least 1) whose start cell `(0,0)` is non-wall and whose finish is
the bottom-right corner, `EnsureConnectivity` returns; if the finish is reachable from
`(0,0)` through 4-adjacent non-wall cells, no wall flag changes; if it is not, afterwards
every cell of the top row and of the right column is non-wall, no other wall flag
changes, and the finish is reachable from `(0,0)`. -/
theorem EnsureConnectivity_decides (l : Maze.Level)
    (hrows : Maze.RowsCols l.Cells l.Size.Width l.Size.Height)
    (hW : 1 ≤ l.Size.Width) (hH : 1 ≤ l.Size.Height)
    (hfx : l.Finish.X = l.Size.Width - 1) (hfy : l.Finish.Y = l.Size.Height - 1)
    (hstart : Maze.isOpen l.Cells 0 0 = true) :
    ∃ l1, Maze.EnsureConnectivity l = some l1 ∧
      (Maze.Connected l.Cells (0, 0) (l.Finish.X, l.Finish.Y) →
        ∀ x y, Maze.isWallAt l1.Cells x y = Maze.isWallAt l.Cells x y) ∧
      (¬ Maze.Connected l.Cells (0, 0) (l.Finish.X, l.Finish.Y) →
        (∀ x y, 0 ≤ x ∧ x < l.Size.Width ∧ 0 ≤ y ∧ y < l.Size.Height →
          y = 0 ∨ x = l.Size.Width - 1 →
          Maze.isOpen l1.Cells x y = true ∧ Maze.isWallAt l1.Cells x y = false) ∧
        (∀ x y, ¬ (y = 0 ∨ x = l.Size.Width - 1) →
          Maze.isWallAt l1.Cells x y = Maze.isWallAt l.Cells x y) ∧
        Maze.Connected l1.Cells (0, 0) (l.Finish.X, l.Finish.Y)) := by
  have hwf := Maze.wellFormed_of_rowsCols hrows
  obtain ⟨l1, e1, c1, hyes, hno⟩ := Maze.EnsureConnectivity_exact hwf hW hH
    (by rw [hfx, hfy]; exact ⟨by omega, by omega, by omega, by omega⟩)
  have hd1 : Maze.Dims l1.Cells l.Size.Width l.Size.Height := by
    have := c1.2.1
    unfold Maze.WellFormed at this
    rw [c1.1.1] at this
    exact this
  have hiff := Maze.reachedFromStart_iff_connected hstart (l.Finish.X, l.Finish.Y)
  refine ⟨l1, e1, ?_, ?_⟩
  · intro hconn x y
    exact Maze.isWallAt_eq_of_isOpen_eq hwf hd1 (hyes (hiff.mpr hconn) x y)
  · intro hnconn
    obtain ⟨k1, n1⟩ := hno (fun h => hnconn (hiff.mp h))
    refine ⟨?_, ?_, ?_⟩
    · intro x y hin hc
      have ho := k1 x y ⟨hin, hc⟩
      exact ⟨ho, Maze.isWallAt_of_isOpen ho⟩
    · intro x y hc
      exact Maze.isWallAt_eq_of_isOpen_eq hwf hd1
        (n1 x y (fun h => hc h.2))
    · rw [hfx, hfy]
      exact Maze.corridor_connected hW hH k1

/-- Witness of the amended C20: the 3x3 level whose middle row is all wall; the search
does not reach the finish and the corridor opens the cell `(2,1)` only. -/
theorem EnsureConnectivity_decides_witness :
    Maze.RowsCols Maze.blockedLevel.Cells Maze.blockedLevel.Size.Width
        Maze.blockedLevel.Size.Height ∧
      Maze.isOpen Maze.blockedLevel.Cells 0 0 = true ∧
      (Maze.EnsureConnectivity Maze.blockedLevel).map
        (fun r => (Maze.isWallAt r.Cells 0 1, Maze.isWallAt r.Cells 1 1,
          Maze.isWallAt r.Cells 2 1)) = some (true, true, false) ∧
      ∃ l1, Maze.EnsureConnectivity Maze.blockedLevel = some l1 ∧
        (Maze.Connected Maze.blockedLevel.Cells (0, 0)
            (Maze.blockedLevel.Finish.X, Maze.blockedLevel.Finish.Y) →
          ∀ x y, Maze.isWallAt l1.Cells x y = Maze.isWallAt Maze.blockedLevel.Cells x y) ∧
        (¬ Maze.Connected Maze.blockedLevel.Cells (0, 0)
            (Maze.blockedLevel.Finish.X, Maze.blockedLevel.Finish.Y) →
          (∀ x y, 0 ≤ x ∧ x < Maze.blockedLevel.Size.Width ∧ 0 ≤ y
              ∧ y < Maze.blockedLevel.Size.Height →
            y = 0 ∨ x = Maze.blockedLevel.Size.Width - 1 →
            Maze.isOpen l1.Cells x y = true ∧ Maze.isWallAt l1.Cells x y = false) ∧
          (∀ x y, ¬ (y = 0 ∨ x = Maze.blockedLevel.Size.Width - 1) →
            Maze.isWallAt l1.Cells x y = Maze.isWallAt Maze.blockedLevel.Cells x y) ∧
          Maze.Connected l1.Cells (0, 0)
            (Maze.blockedLevel.Finish.X, Maze.blockedLevel.Finish.Y)) :=
  have hrows : Maze.RowsCols Maze.blockedLevel.Cells Maze.blockedLevel.Size.Width
      Maze.blockedLevel.Size.Height := by
    unfold Maze.RowsCols
    decide
  ⟨hrows, by decide, by decide,
    EnsureConnectivity_decides Maze.blockedLevel hrows (by decide) (by decide)
      (by decide) (by decide) (by decide)⟩

/-! ## The fallback corridor is never needed in `NewLevel` -/

namespace Maze

/-- Two grids of the same dimensions with the same open cells have the same wall flags. -/
theorem wallFlags_eq_of_isOpen_eq {g g1 : Grid} {W H : Int} (hd : Dims g W H)
    (hd1 : Dims g1 W H) (h : ∀ x y, isOpen g1 x y = isOpen g x y) (x y : Int) :
    (cellAt g1 x y).map Cell.IsWall = (cellAt g x y).map Cell.IsWall := by
  have hsome : (cellAt g1 x y).isSome = (cellAt g x y).isSome := by
    rw [Bool.eq_iff_iff, hd x y, hd1 x y]
  have ho := h x y
  unfold isOpen at ho
  cases hc : cellAt g x y with
  | none =>
    cases hc1 : cellAt g1 x y with
    | none => rfl
    | some c1 => simp [hc, hc1] at hsome
  | some c =>
    cases hc1 : cellAt g1 x y with
    | none => simp [hc, hc1] at hsome
    | some c1 =>
      simp only [hc, hc1] at ho
      simp only [Option.map_some']
      congr 1
      cases hw : c.IsWall <;> cases hw1 : c1.IsWall <;> simp [hw, hw1] at ho ⊢

/-- Reopening the start and the finish of a well-formed level in which both are open
changes no wall flag. -/
theorem openStartFinish_noop {l : Level} (hwf : WellFormed l)
    (hW : 1 ≤ l.Size.Width) (hH : 1 ≤ l.Size.Height)
    (hfin : InGrid l.Size.Width l.Size.Height l.Finish.X l.Finish.Y)
    (hs : isOpen l.Cells 0 0 = true) (hf : isOpen l.Cells l.Finish.X l.Finish.Y = true) :
    ∃ l1, openStartFinish l = some l1 ∧ Carves l l1 ∧
      ∀ x y, isOpen l1.Cells x y = isOpen l.Cells x y := by
  unfold openStartFinish
  obtain ⟨l1, e1, c1, o1⟩ := setWall_false_flags (x := 0) (y := 0) hwf
    ⟨le_refl 0, by omega, le_refl 0, by omega⟩
  obtain ⟨l2, e2, c2, o2⟩ := setWall_false_flags (x := l1.Finish.X) (y := l1.Finish.Y) c1.2.1
    (by rw [c1.1.1, c1.1.2.1]; exact hfin)
  refine ⟨l2, ?_, c1.carvesTrans c2, ?_⟩
  · simp only [e1]
    exact e2
  · intro x y
    rw [o2 x y, o1 x y, c1.1.2.1]
    by_cases h2 : x = l.Finish.X ∧ y = l.Finish.Y
    · rw [if_pos h2, h2.1, h2.2, hf]
    · rw [if_neg h2]
      by_cases h1 : x = 0 ∧ y = 0
      · rw [if_pos h1, h1.1, h1.2, hs]
      · rw [if_neg h1]

/-- On a well-formed grid whose start is open and joined to the finish by a path of open
cells, the search of `EnsureConnectivity` marks the finish, and `EnsureConnectivity`
returns the level of the search without the fallback corridor. -/
theorem EnsureConnectivity_no_fallback {l : Level} (hwf : WellFormed l)
    (hW : 1 ≤ l.Size.Width) (hH : 1 ≤ l.Size.Height)
    (hp : Connected l.Cells (0, 0) (l.Finish.X, l.Finish.Y)) :
    ∃ l3, searchFromStart l = some l3 ∧
      isVisited l3.Cells l3.Finish.X l3.Finish.Y = true ∧
      EnsureConnectivity l = some l3 ∧ Carves l l3 ∧
      ∀ x y, isOpen l3.Cells x y = isOpen l.Cells x y := by
  obtain ⟨l3, e3, c3, o3, v3⟩ := searchFromStart_spec hwf hW hH
  have hv : isVisited l3.Cells l3.Finish.X l3.Finish.Y = true := by
    rw [c3.1.2.1]
    exact v3 _ hp
  refine ⟨l3, e3, hv, ?_, c3, o3⟩
  unfold EnsureConnectivity
  simp only [e3]
  unfold isVisited at hv
  cases hc : cellAt l3.Cells l3.Finish.X l3.Finish.Y with
  | none => simp [hc] at hv
  | some c =>
    simp only [hc] at hv
    simp [hv]

end Maze

/-- C21: in the maze variant's `NewLevel`, for every size of at least 5x5 and every
sequence of random outcomes, the grid produced by `GenerateMaze` contains a path of
4-adjacent non-wall cells from `(0,0)` to the finish; the search of `EnsureConnectivity`
marks the finish, so `EnsureConnectivity` returns the level of the search without the
fallback corridor; and the wall flags of the level that `NewLevel` returns equal the
wall flags right after `GenerateMaze`. -/
theorem NewLevel_no_fallback (size : Maze.LevelSize) (rng : RandSource)
    (hW : 5 ≤ size.Width) (hH : 5 ≤ size.Height) :
    ∃ rn s1 l2 s, Intn 6 rng = some rn ∧
      Maze.GenerateMaze (Maze.blankLevel size (rn.1 + 1)) rn.2 = some s1 ∧
      s1.1.Finish.X = size.Width - 1 ∧ s1.1.Finish.Y = size.Height - 1 ∧
      Maze.Connected s1.1.Cells (0, 0) (s1.1.Finish.X, s1.1.Finish.Y) ∧
      Maze.searchFromStart s1.1 = some l2 ∧
      Maze.isVisited l2.Cells l2.Finish.X l2.Finish.Y = true ∧
      Maze.EnsureConnectivity s1.1 = some l2 ∧
      Maze.NewLevel size rng = some s ∧
      ∀ x y, (Maze.cellAt s.1.Cells x y).map Maze.Cell.IsWall
        = (Maze.cellAt s1.1.Cells x y).map Maze.Cell.IsWall := by
  obtain ⟨rn, en, -, -⟩ := Maze.Intn_spec rng (n := 6) (by decide)
  have hfin : Maze.InGrid (Maze.blankLevel size (rn.1 + 1)).Size.Width
      (Maze.blankLevel size (rn.1 + 1)).Size.Height (Maze.blankLevel size (rn.1 + 1)).Finish.X
      (Maze.blankLevel size (rn.1 + 1)).Finish.Y := by
    simp only [Maze.blankLevel]
    exact ⟨by omega, by omega, by omega, by omega⟩
  obtain ⟨s1, e1, f1, w1, os, ofin, hp⟩ :=
    Maze.GenerateMaze_spec (l := Maze.blankLevel size (rn.1 + 1)) rn.2 hW hH hfin
      (by simp only [Maze.blankLevel]; omega)
  have hsz : s1.1.Size = size := f1.1
  have hfx : s1.1.Finish.X = size.Width - 1 := by rw [f1.2.1]; rfl
  have hfy : s1.1.Finish.Y = size.Height - 1 := by rw [f1.2.1]; rfl
  have hbx : (Maze.blankLevel size (rn.1 + 1)).Finish.X = size.Width - 1 := rfl
  have hby : (Maze.blankLevel size (rn.1 + 1)).Finish.Y = size.Height - 1 := by rfl
  rw [hbx, hby] at hp ofin
  have hfin1 : Maze.InGrid s1.1.Size.Width s1.1.Size.Height s1.1.Finish.X s1.1.Finish.Y := by
    rw [hsz, hfx, hfy]
    exact ⟨by omega, by omega, by omega, by omega⟩
  obtain ⟨l2, e2, hv, e3, c2, o2⟩ := Maze.EnsureConnectivity_no_fallback w1
    (by rw [hsz]; omega) (by rw [hsz]; omega) (by rw [hfx, hfy]; exact hp)
  have hfin2 : Maze.InGrid l2.Size.Width l2.Size.Height l2.Finish.X l2.Finish.Y := by
    rw [c2.1.1, c2.1.2.1]
    exact hfin1
  obtain ⟨l3, e4, c3, o3⟩ := Maze.openStartFinish_noop c2.2.1
    (by rw [c2.1.1, hsz]; omega) (by rw [c2.1.1, hsz]; omega) hfin2
    (by rw [o2]; exact os) (by rw [o2, c2.1.2.1, hfx, hfy]; exact ofin)
  have enew : Maze.NewLevel size rng = some ({ l3 with Won := false }, s1.2) := by
    unfold Maze.NewLevel
    simp only [en, e1, e3, e4]
  have hd3 : Maze.Dims l3.Cells s1.1.Size.Width s1.1.Size.Height := by
    have := c3.2.1
    unfold Maze.WellFormed at this
    rw [c3.1.1, c2.1.1] at this
    exact this
  refine ⟨rn, s1, l2, _, en, e1, hfx, hfy, by rw [hfx, hfy]; exact hp, e2, hv, e3, enew, ?_⟩
  intro x y
  exact Maze.wallFlags_eq_of_isOpen_eq w1 hd3 (fun a b => by rw [o3, o2]) x y

/-- Witness of C21: the 5x5 level generated from the all-zero random outcomes. -/
theorem NewLevel_no_fallback_witness :
    ∃ rn s1 l2 s, Intn 6 (constRand 0) = some rn ∧
      Maze.GenerateMaze (Maze.blankLevel (Maze.presetSize 5 5) (rn.1 + 1)) rn.2 = some s1 ∧
      s1.1.Finish.X = (Maze.presetSize 5 5).Width - 1 ∧
      s1.1.Finish.Y = (Maze.presetSize 5 5).Height - 1 ∧
      Maze.Connected s1.1.Cells (0, 0) (s1.1.Finish.X, s1.1.Finish.Y) ∧
      Maze.searchFromStart s1.1 = some l2 ∧
      Maze.isVisited l2.Cells l2.Finish.X l2.Finish.Y = true ∧
      Maze.EnsureConnectivity s1.1 = some l2 ∧
      Maze.NewLevel (Maze.presetSize 5 5) (constRand 0) = some s ∧
      ∀ x y, (Maze.cellAt s.1.Cells x y).map Maze.Cell.IsWall
        = (Maze.cellAt s1.1.Cells x y).map Maze.Cell.IsWall :=
  NewLevel_no_fallback (Maze.presetSize 5 5) (constRand 0) (by decide) (by decide)

/-! ## The fixed level of the simple variant can be won -/

/-- A level that is played to a win has a final level in which `CheckWin` holds. -/
theorem Simple.play_of_winsBy {dirs : List Direction} {l : Simple.Level}
    (h : Simple.winsBy dirs l = true) :
    ∃ t, Simple.play dirs l = some t ∧ Simple.CheckWin t = true := by
  unfold Simple.winsBy at h
  cases hp : Simple.play dirs l with
  | none => simp [hp] at h
  | some t =>
    simp only [hp] at h
    exact ⟨t, rfl, h⟩

/-- In a frame that asks for a move in the direction `dir` only, on a level that is not
won, `HandleInput` of the simple variant commits the move that `tryMove` accepts. -/
theorem Simple.HandleInput_of_tryMove {keys : Keys} {dir : Direction} {l l1 : Simple.Level}
    (rng : RandSource) (hone : OnlyMove keys dir) (hwon : l.Won = false)
    (h : Simple.tryMove l dir = some l1) :
    Simple.HandleInput keys l rng = some (l1, rng) := by
  unfold Simple.tryMove at h
  split at h
  · rename_i hv
    have hm := (Simple.simpleMovePhase_single keys dir l hone).1 hv
    simp only [Option.some.injEq] at h
    subst h
    simp only [Simple.HandleInput, hwon, hm, Simple.Move]
    rfl
  · cases h

/-- The level of `NewLevel` of the simple variant: the target is the draw plus one, a
number of `1..6`, and nothing else depends on the random source. -/
theorem Simple.NewLevel_eq (rng : RandSource) :
    ∃ m : Int, 0 ≤ m ∧ m < 6 ∧
      Simple.NewLevel rng = (Simple.NewLevel (constRand m.toNat)).map
        (fun s => (s.1, rng.next.2)) ∧
      ((Simple.NewLevel rng).map (fun s => s.1.Finish.Number)) = some (m + 1) := by
  refine ⟨(rng.next.1 : Int) % 6, Int.emod_nonneg _ (by decide),
    Int.emod_lt_of_pos _ (by decide), ?_, ?_⟩
  · have h0 : (0 : Int) ≤ (rng.draws 0 : Int) % 6 := Int.emod_nonneg _ (by decide)
    simp [Simple.NewLevel, Intn, constRand, RandSource.next]
    rw [max_eq_left h0]
    omega
  · simp [Simple.NewLevel, Intn]

/-- The moves of `winningMoves` are among the four named directions. -/
theorem Simple.winningMoves_named (n : Int) :
    ∀ d ∈ Simple.winningMoves n, IsNamedDirection d := by
  unfold Simple.winningMoves
  split_ifs <;> simp [IsNamedDirection]

/-- For each draw `k` of `rand.Intn(6)`, the level of `NewLevel` has the player at `(1,1)`
with the die of `NewDie`, the finish `(10,6)` with the target `k+1`, and the moves
`winningMoves (k+1)` win it. -/
theorem Simple.winningMoves_win :
    ∀ k : Nat, k < 6 →
      (Simple.NewLevel (constRand k)).map (fun s =>
        (decide (s.1.Player = { X := 1, Y := 1, Die := NewDie }) && s.1.Finish.X == 10
          && s.1.Finish.Y == 6 && s.1.Finish.Number == (k : Int) + 1
          && Simple.winsBy (Simple.winningMoves ((k : Int) + 1)) s.1)) = some true := by
  decide

/-- C24: the fixed level of the simple variant can be won for every target.  For each
`n` of `1..6`, some outcome of the draw makes `NewLevel` return the level with the target
`n`; and every level that `NewLevel` returns with the target `n` has the player at `(1,1)`
with the die of `NewDie`, the finish at `(10,6)`, and a finite sequence of named
directions, each step accepted by `IsValidMove` from the position of the player at that
time, that leads to a level in which `CheckWin` returns true. -/
theorem fixed_level_winnable (n : Int) (h1 : 1 ≤ n) (h6 : n ≤ 6) :
    (∃ rng s, Simple.NewLevel rng = some s ∧ s.1.Finish.Number = n) ∧
    ∀ rng s, Simple.NewLevel rng = some s → s.1.Finish.Number = n →
      s.1.Player = { X := 1, Y := 1, Die := NewDie } ∧ s.1.Finish.X = 10 ∧
      s.1.Finish.Y = 6 ∧
      ∃ dirs t, (∀ d ∈ dirs, IsNamedDirection d) ∧
        Simple.play dirs s.1 = some t ∧ Simple.CheckWin t = true := by
  have hlevel : ∀ k : Nat, k < 6 → ∃ s, Simple.NewLevel (constRand k) = some s ∧
      s.1.Player = { X := 1, Y := 1, Die := NewDie } ∧ s.1.Finish.X = 10 ∧
      s.1.Finish.Y = 6 ∧ s.1.Finish.Number = (k : Int) + 1 ∧
      Simple.winsBy (Simple.winningMoves ((k : Int) + 1)) s.1 = true := by
    intro k hk
    have h := Simple.winningMoves_win k hk
    cases hs : Simple.NewLevel (constRand k) with
    | none => simp [hs] at h
    | some s =>
      simp only [hs, Option.map_some', Option.some.injEq, Bool.and_eq_true, decide_eq_true_eq,
        beq_iff_eq] at h
      exact ⟨s, rfl, h.1.1.1.1, h.1.1.1.2, h.1.1.2, h.1.2, h.2⟩
  constructor
  · obtain ⟨s, es, -, -, -, hn, -⟩ := hlevel (n - 1).toNat (by omega)
    exact ⟨constRand (n - 1).toNat, s, es, by rw [hn]; omega⟩
  · intro rng s hs hnum
    obtain ⟨m, hm0, hm6, e, enum⟩ := Simple.NewLevel_eq rng
    rw [hs] at e enum
    simp only [Option.map_some', Option.some.injEq] at enum
    obtain ⟨s1, es1, hp, hx, hy, hn, hw⟩ := hlevel m.toNat (by omega)
    rw [es1] at e
    simp only [Option.map_some', Option.some.injEq] at e
    have hs1 : s.1 = s1.1 := by rw [e]
    have hmn : ((m.toNat : Nat) : Int) + 1 = n := by omega
    rw [hmn] at hw
    rw [hs1]
    obtain ⟨t, ht, hc⟩ := Simple.play_of_winsBy hw
    exact ⟨hp, hx, hy, Simple.winningMoves n, t, Simple.winningMoves_named n, ht, hc⟩

/-- Witness of C24: the target 3. -/
theorem fixed_level_winnable_witness :
    (∃ rng s, Simple.NewLevel rng = some s ∧ s.1.Finish.Number = 3) ∧
    ∀ rng s, Simple.NewLevel rng = some s → s.1.Finish.Number = 3 →
      s.1.Player = { X := 1, Y := 1, Die := NewDie } ∧ s.1.Finish.X = 10 ∧
      s.1.Finish.Y = 6 ∧
      ∃ dirs t, (∀ d ∈ dirs, IsNamedDirection d) ∧
        Simple.play dirs s.1 = some t ∧ Simple.CheckWin t = true :=
  fixed_level_winnable 3 (by decide) (by decide)

/-! ## The walk of `createGuaranteedPath` -/

namespace Maze

/-- The ghost results do not change the loop: forgetting them gives `guaranteedPathLoop`. -/
theorem guaranteedPathTrace_erase :
    ∀ (n : Nat) (x y : Int) (l : Level) (rng : RandSource),
      (guaranteedPathTrace n x y l rng).map (fun r => r.1) = guaranteedPathLoop n x y l rng := by
  intro n
  induction n with
  | zero =>
    intro x y l rng
    rw [guaranteedPathTrace, guaranteedPathLoop]
    split <;> rfl
  | succ n ih =>
    intro x y l rng
    rw [guaranteedPathTrace, guaranteedPathLoop]
    by_cases hcond : x < l.Finish.X ∨ y < l.Finish.Y
    · rw [if_pos hcond, if_pos hcond]
      have key : ∀ draw : Bool × RandSource,
          (if draw.1 then
              match carveRight x y l with
              | none => none
              | some l1 =>
                (guaranteedPathTrace n (x + 1) y l1 draw.2).map
                  (fun r => (r.1, r.2.1 + 1, (x, y) :: r.2.2))
            else if y < l.Finish.Y then
              match carveDown x y l with
              | none => none
              | some l1 =>
                (guaranteedPathTrace n x (y + 1) l1 draw.2).map
                  (fun r => (r.1, r.2.1 + 1, (x, y) :: r.2.2))
            else (guaranteedPathTrace n x y l draw.2).map
              (fun r => (r.1, r.2.1 + 1, r.2.2))).map (fun r => r.1)
          = (if draw.1 then
              match carveRight x y l with
              | none => none
              | some l1 => guaranteedPathLoop n (x + 1) y l1 draw.2
            else if y < l.Finish.Y then
              match carveDown x y l with
              | none => none
              | some l1 => guaranteedPathLoop n x (y + 1) l1 draw.2
            else guaranteedPathLoop n x y l draw.2) := by
        intro draw
        by_cases hd : draw.1 = true
        · rw [if_pos hd, if_pos hd]
          cases carveRight x y l with
          | none => rfl
          | some l1 =>
            simp only [Option.map_map]
            rw [← ih (x + 1) y l1 draw.2]
            rfl
        · rw [if_neg hd, if_neg hd]
          by_cases hy : y < l.Finish.Y
          · rw [if_pos hy, if_pos hy]
            cases carveDown x y l with
            | none => rfl
            | some l1 =>
              simp only [Option.map_map]
              rw [← ih x (y + 1) l1 draw.2]
              rfl
          · rw [if_neg hy, if_neg hy]
            simp only [Option.map_map]
            rw [← ih x y l draw.2]
            rfl
      exact key _
    · rw [if_neg hcond, if_neg hcond]
      rfl

/-- Putting the position `(x,y)` in front of a walk that starts one step further. -/
theorem walk_cons {a b f : Int × Int} {w : List (Int × Int)} (hh : w.head? = some b)
    (hl : w.getLast? = some f) (hc : List.Chain' walkStep w) (hs : walkStep a b) :
    (a :: w).head? = some a ∧ (a :: w).getLast? = some f ∧ List.Chain' walkStep (a :: w) := by
  cases w with
  | nil => simp at hh
  | cons c t =>
    simp only [List.head?_cons, Option.some.injEq] at hh
    subst hh
    refine ⟨rfl, ?_, List.Chain'.cons hs hc⟩
    rw [List.getLast?_cons_cons]
    exact hl

/-- The loop of `createGuaranteedPath` from a position `(x,y)` that is not past the
finish, with enough fuel: it ends after exactly `(Finish.X - x) + (Finish.Y - y)`
iterations, each of which moves the position one cell to the right or one cell down; the
walk starts at `(x,y)` and ends at the finish, and every cell of it is open afterwards
(`(x,y)` itself is cleared by the first step, if any). -/
theorem guaranteedPathTrace_spec :
    ∀ (n : Nat) (x y : Int) (l : Level) (rng : RandSource), WellFormed l →
      0 ≤ x → x ≤ l.Finish.X → l.Finish.X < l.Size.Width →
      0 ≤ y → y ≤ l.Finish.Y → l.Finish.Y < l.Size.Height →
      (l.Finish.X - x).toNat + (l.Finish.Y - y).toNat ≤ n →
      ∃ s1 walk, guaranteedPathTrace n x y l rng
          = some (s1, (l.Finish.X - x).toNat + (l.Finish.Y - y).toNat, walk) ∧
        Carves l s1.1 ∧ walk.head? = some (x, y) ∧
        walk.getLast? = some (l.Finish.X, l.Finish.Y) ∧ List.Chain' walkStep walk ∧
        walk.length = (l.Finish.X - x).toNat + (l.Finish.Y - y).toNat + 1 ∧
        ((x < l.Finish.X ∨ y < l.Finish.Y) ∨ isOpen s1.1.Cells x y = true →
          ∀ p ∈ walk, isOpen s1.1.Cells p.1 p.2 = true) := by
  intro n
  induction n with
  | zero =>
    intro x y l rng hwf hx0 hxF hFW hy0 hyF hFH hfuel
    have hx : x = l.Finish.X := by omega
    have hy : y = l.Finish.Y := by omega
    have hz : (l.Finish.X - x).toNat + (l.Finish.Y - y).toNat = 0 := by omega
    refine ⟨(l, rng), [(x, y)], ?_, Carves.carvesRefl hwf, rfl, ?_, List.chain'_singleton _,
      ?_, ?_⟩
    · rw [guaranteedPathTrace, if_neg (by omega), hz]
    · rw [hx, hy]
      rfl
    · rw [hz]
      rfl
    · intro ho p hp
      rcases ho with ho | ho
      · omega
      · simp only [List.mem_singleton] at hp
        subst hp
        exact ho
  | succ n ih =>
    intro x y l rng hwf hx0 hxF hFW hy0 hyF hFH hfuel
    by_cases hcond : x < l.Finish.X ∨ y < l.Finish.Y
    · have hright : ∀ rng1, x < l.Finish.X →
          ∃ s1 walk, (match carveRight x y l with
              | none => none
              | some l1 =>
                (guaranteedPathTrace n (x + 1) y l1 rng1).map
                  (fun r => (r.1, r.2.1 + 1, (x, y) :: r.2.2)))
              = some (s1, (l.Finish.X - x).toNat + (l.Finish.Y - y).toNat, walk) ∧
            Carves l s1.1 ∧ walk.head? = some (x, y) ∧
            walk.getLast? = some (l.Finish.X, l.Finish.Y) ∧ List.Chain' walkStep walk ∧
            walk.length = (l.Finish.X - x).toNat + (l.Finish.Y - y).toNat + 1 ∧
            ((x < l.Finish.X ∨ y < l.Finish.Y) ∨ isOpen s1.1.Cells x y = true →
              ∀ p ∈ walk, isOpen s1.1.Cells p.1 p.2 = true) := by
        intro rng1 hlt
        obtain ⟨l1, e1, c1, o1, o2⟩ := carveRight_spec hwf hx0 (by omega) hy0 (by omega)
        obtain ⟨s1, w, e2, c2, hh, hl, hc, hlen, hp⟩ := ih (x + 1) y l1 rng1 c1.2.1 (by omega)
          (by rw [c1.1.2.1]; omega) (by rw [c1.1.2.1, c1.1.1]; omega) hy0
          (by rw [c1.1.2.1]; omega) (by rw [c1.1.2.1, c1.1.1]; omega)
          (by rw [c1.1.2.1]; omega)
        rw [c1.1.2.1] at e2 hl hlen
        obtain ⟨k1, k2, k3⟩ := walk_cons (a := (x, y)) hh hl hc (Or.inl ⟨rfl, rfl⟩)
        refine ⟨s1, (x, y) :: w, ?_, c1.carvesTrans c2, k1, k2, k3, ?_, ?_⟩
        · simp only [e1, e2, Option.map_some']
          congr 3
          omega
        · rw [List.length_cons, hlen]
          omega
        · intro _ p hmem
          rcases List.mem_cons.mp hmem with rfl | hmem
          · exact c2.2.2 _ _ o1
          · exact hp (Or.inr (c2.2.2 _ _ o2)) p hmem
      have hdown : ∀ rng1, y < l.Finish.Y →
          ∃ s1 walk, (match carveDown x y l with
              | none => none
              | some l1 =>
                (guaranteedPathTrace n x (y + 1) l1 rng1).map
                  (fun r => (r.1, r.2.1 + 1, (x, y) :: r.2.2)))
              = some (s1, (l.Finish.X - x).toNat + (l.Finish.Y - y).toNat, walk) ∧
            Carves l s1.1 ∧ walk.head? = some (x, y) ∧
            walk.getLast? = some (l.Finish.X, l.Finish.Y) ∧ List.Chain' walkStep walk ∧
            walk.length = (l.Finish.X - x).toNat + (l.Finish.Y - y).toNat + 1 ∧
            ((x < l.Finish.X ∨ y < l.Finish.Y) ∨ isOpen s1.1.Cells x y = true →
              ∀ p ∈ walk, isOpen s1.1.Cells p.1 p.2 = true) := by
        intro rng1 hlt
        obtain ⟨l1, e1, c1, o1, o2⟩ := carveDown_spec hwf hx0 (by omega) hy0 (by omega)
        obtain ⟨s1, w, e2, c2, hh, hl, hc, hlen, hp⟩ := ih x (y + 1) l1 rng1 c1.2.1 hx0
          (by rw [c1.1.2.1]; omega) (by rw [c1.1.2.1, c1.1.1]; omega) (by omega)
          (by rw [c1.1.2.1]; omega) (by rw [c1.1.2.1, c1.1.1]; omega)
          (by rw [c1.1.2.1]; omega)
        rw [c1.1.2.1] at e2 hl hlen
        obtain ⟨k1, k2, k3⟩ := walk_cons (a := (x, y)) hh hl hc (Or.inr ⟨rfl, rfl⟩)
        refine ⟨s1, (x, y) :: w, ?_, c1.carvesTrans c2, k1, k2, k3, ?_, ?_⟩
        · simp only [e1, e2, Option.map_some']
          congr 3
          omega
        · rw [List.length_cons, hlen]
          omega
        · intro _ p hmem
          rcases List.mem_cons.mp hmem with rfl | hmem
          · exact c2.2.2 _ _ o1
          · exact hp (Or.inr (c2.2.2 _ _ o2)) p hmem
      by_cases hxlt : x < l.Finish.X
      · by_cases hyge : y ≥ l.Finish.Y
        · have e : guaranteedPathTrace (n + 1) x y l rng
              = (match carveRight x y l with
                | none => none
                | some l1 =>
                  (guaranteedPathTrace n (x + 1) y l1 rng).map
                    (fun r => (r.1, r.2.1 + 1, (x, y) :: r.2.2))) := by
            rw [guaranteedPathTrace, if_pos hcond]
            simp only [hxlt, hyge, if_true]
          rw [e]
          exact hright rng hxlt
        · have hylt : y < l.Finish.Y := by omega
          by_cases hr : ltTenths (Float64 rng).1 5 = true
          · have e : guaranteedPathTrace (n + 1) x y l rng
                = (match carveRight x y l with
                  | none => none
                  | some l1 =>
                    (guaranteedPathTrace n (x + 1) y l1 (Float64 rng).2).map
                      (fun r => (r.1, r.2.1 + 1, (x, y) :: r.2.2))) := by
              rw [guaranteedPathTrace, if_pos hcond]
              simp only [hxlt, hyge, hr, if_true, if_false]
            rw [e]
            exact hright _ hxlt
          · have e : guaranteedPathTrace (n + 1) x y l rng
                = (match carveDown x y l with
                  | none => none
                  | some l1 =>
                    (guaranteedPathTrace n x (y + 1) l1 (Float64 rng).2).map
                      (fun r => (r.1, r.2.1 + 1, (x, y) :: r.2.2))) := by
              rw [guaranteedPathTrace, if_pos hcond]
              simp only [hxlt, hyge, hr, hylt, if_true, if_false, Bool.false_eq_true]
            rw [e]
            exact hdown _ hylt
      · have hylt : y < l.Finish.Y := by omega
        have e : guaranteedPathTrace (n + 1) x y l rng
            = (match carveDown x y l with
              | none => none
              | some l1 =>
                (guaranteedPathTrace n x (y + 1) l1 rng).map
                  (fun r => (r.1, r.2.1 + 1, (x, y) :: r.2.2))) := by
          rw [guaranteedPathTrace, if_pos hcond]
          simp only [hxlt, hylt, if_true, if_false, Bool.false_eq_true]
        rw [e]
        exact hdown rng hylt
    · have hx : x = l.Finish.X := by omega
      have hy : y = l.Finish.Y := by omega
      have hz : (l.Finish.X - x).toNat + (l.Finish.Y - y).toNat = 0 := by omega
      refine ⟨(l, rng), [(x, y)], ?_, Carves.carvesRefl hwf, rfl, ?_,
        List.chain'_singleton _, ?_, ?_⟩
      · rw [guaranteedPathTrace, if_neg hcond, hz]
      · rw [hx, hy]
        rfl
      · rw [hz]
        rfl
      · intro ho p hp
        rcases ho with ho | ho
        · exact absurd ho hcond
        · simp only [List.mem_singleton] at hp
          subst hp
          exact ho

/-- More fuel does not change the result of the loop of `createGuaranteedPath`. -/
theorem guaranteedPathTrace_fuel_succ :
    ∀ (n : Nat) (x y : Int) (l : Level) (rng : RandSource)
      (r : (Level × RandSource) × Nat × List (Int × Int)),
      guaranteedPathTrace n x y l rng = some r →
      guaranteedPathTrace (n + 1) x y l rng = some r := by
  intro n
  induction n with
  | zero =>
    intro x y l rng r h
    rw [guaranteedPathTrace] at h
    by_cases hcond : x < l.Finish.X ∨ y < l.Finish.Y
    · rw [if_pos hcond] at h
      cases h
    · rw [if_neg hcond] at h
      rw [guaranteedPathTrace, if_neg hcond]
      exact h
  | succ n ih =>
    intro x y l rng r h
    rw [guaranteedPathTrace] at h
    rw [guaranteedPathTrace]
    by_cases hcond : x < l.Finish.X ∨ y < l.Finish.Y
    · rw [if_pos hcond] at h
      rw [if_pos hcond]
      have key : ∀ draw : Bool × RandSource,
          (if draw.1 then
              match carveRight x y l with
              | none => none
              | some l1 =>
                (guaranteedPathTrace n (x + 1) y l1 draw.2).map
                  (fun r => (r.1, r.2.1 + 1, (x, y) :: r.2.2))
            else if y < l.Finish.Y then
              match carveDown x y l with
              | none => none
              | some l1 =>
                (guaranteedPathTrace n x (y + 1) l1 draw.2).map
                  (fun r => (r.1, r.2.1 + 1, (x, y) :: r.2.2))
            else (guaranteedPathTrace n x y l draw.2).map
              (fun r => (r.1, r.2.1 + 1, r.2.2))) = some r →
          (if draw.1 then
              match carveRight x y l with
              | none => none
              | some l1 =>
                (guaranteedPathTrace (n + 1) (x + 1) y l1 draw.2).map
                  (fun r => (r.1, r.2.1 + 1, (x, y) :: r.2.2))
            else if y < l.Finish.Y then
              match carveDown x y l with
              | none => none
              | some l1 =>
                (guaranteedPathTrace (n + 1) x (y + 1) l1 draw.2).map
                  (fun r => (r.1, r.2.1 + 1, (x, y) :: r.2.2))
            else (guaranteedPathTrace (n + 1) x y l draw.2).map
              (fun r => (r.1, r.2.1 + 1, r.2.2))) = some r := by
        intro draw hd
        by_cases hb : draw.1 = true
        · rw [if_pos hb] at hd
          rw [if_pos hb]
          cases hc : carveRight x y l with
          | none => simp [hc] at hd
          | some l1 =>
            simp only [hc] at hd ⊢
            obtain ⟨r1, hr1, hr⟩ := Option.map_eq_some'.mp hd
            rw [ih _ _ _ _ _ hr1]
            exact congrArg some hr
        · rw [if_neg hb] at hd
          rw [if_neg hb]
          by_cases hy : y < l.Finish.Y
          · rw [if_pos hy] at hd
            rw [if_pos hy]
            cases hc : carveDown x y l with
            | none => simp [hc] at hd
            | some l1 =>
              simp only [hc] at hd ⊢
              obtain ⟨r1, hr1, hr⟩ := Option.map_eq_some'.mp hd
              rw [ih _ _ _ _ _ hr1]
              exact congrArg some hr
          · rw [if_neg hy] at hd
            rw [if_neg hy]
            obtain ⟨r1, hr1, hr⟩ := Option.map_eq_some'.mp hd
            rw [ih _ _ _ _ _ hr1]
            exact congrArg some hr
      exact key _ h
    · rw [if_neg hcond] at h
      rw [if_neg hcond]
      exact h

/-- Any larger fuel gives the same result of the loop of `createGuaranteedPath`. -/
theorem guaranteedPathTrace_fuel {m n : Nat} (hmn : m ≤ n) {x y : Int} {l : Level}
    {rng : RandSource} {r : (Level × RandSource) × Nat × List (Int × Int)}
    (h : guaranteedPathTrace m x y l rng = some r) :
    guaranteedPathTrace n x y l rng = some r := by
  induction n with
  | zero =>
    have hm : m = 0 := by omega
    subst hm
    exact h
  | succ n ih =>
    by_cases hm : m = n + 1
    · subst hm
      exact h
    · exact guaranteedPathTrace_fuel_succ n x y l rng r (ih (by omega))

end Maze

/-- C23, as stated, fails for the finish `(0,0)`: in the 1x1 grid whose only cell is a
wall, the finish `(0,0)` has non-negative coordinates inside the grid, the loop of
`createGuaranteedPath` runs `Finish.X + Finish.Y = 0` iterations and clears nothing, and
the only cell of the walk, `(0,0)`, is still a wall afterwards. -/
theorem createGuaranteedPath_wall_start_counterexample :
    Maze.RowsCols Maze.wallCellLevel.Cells Maze.wallCellLevel.Size.Width
      Maze.wallCellLevel.Size.Height ∧
    0 ≤ Maze.wallCellLevel.Finish.X ∧
    Maze.wallCellLevel.Finish.X < Maze.wallCellLevel.Size.Width ∧
    0 ≤ Maze.wallCellLevel.Finish.Y ∧
    Maze.wallCellLevel.Finish.Y < Maze.wallCellLevel.Size.Height ∧
    (Maze.createGuaranteedPath Maze.wallCellLevel (constRand 0)).map
      (fun r => (r.1, Maze.isOpen r.1.Cells 0 0, Maze.isWallAt r.1.Cells 0 0))
      = some (Maze.wallCellLevel, false, true) ∧
    (Maze.guaranteedPathTrace
        (Maze.wallCellLevel.Finish.X.toNat + Maze.wallCellLevel.Finish.Y.toNat) 0 0
        Maze.wallCellLevel (constRand 0)).map
      (fun r => (r.2.1, r.2.2, r.2.2.map (fun p => Maze.isOpen r.1.1.Cells p.1 p.2)))
      = some (0, [(0, 0)], [false]) := by
  refine ⟨?_, by decide, by decide, by decide, by decide, by decide, by decide⟩
  unfold Maze.RowsCols
  decide

/-- C23, amended: in the maze variant, for every grid of `Height` rows of `Width` cells
whose finish has non-negative coordinates inside the grid, and every sequence of random
draws, `createGuaranteedPath` returns; its loop ends after exactly `Finish.X + Finish.Y`
iterations, whatever larger bound is put on their number, and each iteration moves the
position one cell to the right or one cell down, from `(0,0)` to the finish; and if the
finish is not `(0,0)`, or the cell `(0,0)` is non-wall beforehand, every cell of the walk
is non-wall afterwards. -/
theorem createGuaranteedPath_walk (l : Maze.Level) (rng : RandSource)
    (hrows : Maze.RowsCols l.Cells l.Size.Width l.Size.Height)
    (hX0 : 0 ≤ l.Finish.X) (hXW : l.Finish.X < l.Size.Width)
    (hY0 : 0 ≤ l.Finish.Y) (hYH : l.Finish.Y < l.Size.Height) :
    ∃ s1 walk, Maze.createGuaranteedPath l rng = some s1 ∧
      (∀ n, l.Finish.X.toNat + l.Finish.Y.toNat ≤ n →
        Maze.guaranteedPathLoop n 0 0 l rng = some s1 ∧
        Maze.guaranteedPathTrace n 0 0 l rng
          = some (s1, (l.Finish.X + l.Finish.Y).toNat, walk)) ∧
      walk.head? = some (0, 0) ∧ walk.getLast? = some (l.Finish.X, l.Finish.Y) ∧
      List.Chain' Maze.walkStep walk ∧
      walk.length = (l.Finish.X + l.Finish.Y).toNat + 1 ∧
      (0 < l.Finish.X ∨ 0 < l.Finish.Y ∨ Maze.isOpen l.Cells 0 0 = true →
        ∀ p ∈ walk, Maze.isOpen s1.1.Cells p.1 p.2 = true) := by
  have hwf := Maze.wellFormed_of_rowsCols hrows
  obtain ⟨s1, walk, e, c, hh, hl, hc, hlen, hp⟩ :=
    Maze.guaranteedPathTrace_spec (l.Finish.X.toNat + l.Finish.Y.toNat) 0 0 l rng hwf
      (le_refl 0) hX0 hXW (le_refl 0) hY0 hYH (by omega)
  have hcount : (l.Finish.X - 0).toNat + (l.Finish.Y - 0).toNat
      = (l.Finish.X + l.Finish.Y).toNat := by omega
  rw [hcount] at e hlen
  have hfuel : ∀ n, l.Finish.X.toNat + l.Finish.Y.toNat ≤ n →
      Maze.guaranteedPathTrace n 0 0 l rng
        = some (s1, (l.Finish.X + l.Finish.Y).toNat, walk) :=
    fun n hn => Maze.guaranteedPathTrace_fuel hn e
  have hloop : ∀ n, l.Finish.X.toNat + l.Finish.Y.toNat ≤ n →
      Maze.guaranteedPathLoop n 0 0 l rng = some s1 := by
    intro n hn
    rw [← Maze.guaranteedPathTrace_erase, hfuel n hn]
    rfl
  refine ⟨s1, walk, hloop _ (le_refl _), fun n hn => ⟨hloop n hn, hfuel n hn⟩, hh, hl, hc,
    hlen, ?_⟩
  intro ho
  apply hp
  rcases ho with ho | ho | ho
  · exact Or.inl (Or.inl ho)
  · exact Or.inl (Or.inr ho)
  · exact Or.inr (c.2.2 _ _ ho)

/-- Witness of the amended C23: the 3x3 level without walls, whose finish is `(2,2)`,
and the all-zero random outcomes. -/
theorem createGuaranteedPath_walk_witness :
    Maze.RowsCols (Maze.freshLevel 3 3).Cells (Maze.freshLevel 3 3).Size.Width
        (Maze.freshLevel 3 3).Size.Height ∧
      (Maze.guaranteedPathTrace 4 0 0 (Maze.freshLevel 3 3) (constRand 0)).map
        (fun r => (r.2.1, r.2.2)) = some (4, [(0, 0), (1, 0), (2, 0), (2, 1), (2, 2)]) ∧
      ∃ s1 walk, Maze.createGuaranteedPath (Maze.freshLevel 3 3) (constRand 0) = some s1 ∧
        (∀ n, (Maze.freshLevel 3 3).Finish.X.toNat + (Maze.freshLevel 3 3).Finish.Y.toNat ≤ n →
          Maze.guaranteedPathLoop n 0 0 (Maze.freshLevel 3 3) (constRand 0) = some s1 ∧
          Maze.guaranteedPathTrace n 0 0 (Maze.freshLevel 3 3) (constRand 0)
            = some (s1, ((Maze.freshLevel 3 3).Finish.X
                + (Maze.freshLevel 3 3).Finish.Y).toNat, walk)) ∧
        walk.head? = some (0, 0) ∧
        walk.getLast? = some ((Maze.freshLevel 3 3).Finish.X, (Maze.freshLevel 3 3).Finish.Y) ∧
        List.Chain' Maze.walkStep walk ∧
        walk.length
          = ((Maze.freshLevel 3 3).Finish.X + (Maze.freshLevel 3 3).Finish.Y).toNat + 1 ∧
        (0 < (Maze.freshLevel 3 3).Finish.X ∨ 0 < (Maze.freshLevel 3 3).Finish.Y ∨
            Maze.isOpen (Maze.freshLevel 3 3).Cells 0 0 = true →
          ∀ p ∈ walk, Maze.isOpen s1.1.Cells p.1 p.2 = true) :=
  have hrows : Maze.RowsCols (Maze.freshLevel 3 3).Cells (Maze.freshLevel 3 3).Size.Width
      (Maze.freshLevel 3 3).Size.Height := by
    unfold Maze.RowsCols
    decide
  ⟨hrows, by decide,
    createGuaranteedPath_walk (Maze.freshLevel 3 3) (constRand 0) hrows (by decide) (by decide)
      (by decide) (by decide)⟩

/-! ## `NewLevel` returns a level only for sizes of at least 5x5 -/

namespace Maze

/-- On every grid, the statement `l.Cells[y][x].IsWall = b`, when it does not panic,
leaves the field `Size` as it was. -/
theorem setWall_size {l l1 : Level} {x y : Int} {b : Bool} (h : setWall l x y b = some l1) :
    l1.Size = l.Size := by
  unfold setWall at h
  cases hg : updateCell l.Cells x y (fun c => { c with IsWall := b }) with
  | none => simp [hg] at h
  | some g =>
    simp only [hg, Option.some.injEq] at h
    subst h
    rfl

/-- A loop over levels whose body keeps `Size` keeps `Size`. -/
theorem forEach_size {α : Type} (body : α → Level → Option Level)
    (hbody : ∀ i s s1, body i s = some s1 → s1.Size = s.Size) (is : List α) :
    ∀ l l1, forEach body is l = some l1 → l1.Size = l.Size :=
  forEach_rel body (fun a b : Level => b.Size = a.Size) (fun _ => rfl)
    (fun _ _ _ h1 h2 => h2.trans h1) is (fun i _ s s1 h => hbody i s s1 h)

/-- A loop over levels with the random source whose body keeps `Size` keeps `Size`. -/
theorem forEach_size_pair {α : Type}
    (body : α → Level × RandSource → Option (Level × RandSource))
    (hbody : ∀ i s s1, body i s = some s1 → s1.1.Size = s.1.Size) (is : List α) :
    ∀ s s1, forEach body is s = some s1 → s1.1.Size = s.1.Size :=
  forEach_rel body (fun a b : Level × RandSource => b.1.Size = a.1.Size) (fun _ => rfl)
    (fun _ _ _ h1 h2 => h2.trans h1) is (fun i _ s s1 h => hbody i s s1 h)

/-- On every grid, one statement of the lattice loops keeps `Size`. -/
theorem seedWallStep_size {x y : Int} {s s1 : Level × RandSource}
    (h : seedWallStep x y s = some s1) : s1.1.Size = s.1.Size := by
  unfold seedWallStep at h
  simp only at h
  split at h
  · cases hw : setWall s.1 x y true with
    | none => simp [hw] at h
    | some l1 =>
      simp only [hw, Option.some.injEq] at h
      subst h
      exact setWall_size hw
  · injection h with h
    subst h
    rfl

/-- The seeding phase of `GenerateMaze`, when it returns, keeps `Size`. -/
theorem seedWalls_size {l : Level} {rng : RandSource} {r : Level × RandSource}
    (h : seedWalls l rng = some r) : r.1.Size = l.Size := by
  unfold seedWalls at h
  cases h1 : initCells l with
  | none => simp [h1] at h
  | some l1 =>
    simp only [h1] at h
    have e1 : l1.Size = l.Size := by
      unfold initCells at h1
      split at h1
      · cases h1
      · split at h1
        · cases h1
        · injection h1 with h1
          subst h1
          rfl
    cases h2 : addOuterWalls l1 with
    | none => simp [h2] at h
    | some l2 =>
      simp only [h2] at h
      have e2 : l2.Size = l1.Size := by
        unfold addOuterWalls at h2
        cases ha : forEach outerWallsRowStep (intRange 0 l1.Size.Width) l1 with
        | none => simp [ha] at h2
        | some la =>
          simp only [ha] at h2
          have ea : la.Size = l1.Size := by
            refine forEach_size _ ?_ _ _ _ ha
            intro i s s1 hs
            unfold outerWallsRowStep at hs
            cases hw : setWall s i 0 true with
            | none => simp [hw] at hs
            | some t =>
              simp only [hw] at hs
              exact (setWall_size hs).trans (setWall_size hw)
          have eb : l2.Size = la.Size := by
            refine forEach_size _ ?_ _ _ _ h2
            intro i s s1 hs
            unfold outerWallsColStep at hs
            cases hw : setWall s 0 i true with
            | none => simp [hw] at hs
            | some t =>
              simp only [hw] at hs
              exact (setWall_size hs).trans (setWall_size hw)
          exact eb.trans ea
      cases h3 : seedRowWalls (l2, rng) with
      | none => simp [h3] at h
      | some s3 =>
        simp only [h3] at h
        have e3 : s3.1.Size = l2.Size := by
          unfold seedRowWalls at h3
          refine forEach_size_pair _ ?_ _ _ _ h3
          intro y s s1 hs
          exact forEach_size_pair _ (fun x t t1 ht => seedWallStep_size ht) _ _ _ hs
        have e4 : r.1.Size = s3.1.Size := by
          unfold seedColWalls at h
          refine forEach_size_pair _ ?_ _ _ _ h
          intro x s s1 hs
          exact forEach_size_pair _ (fun y t t1 ht => seedWallStep_size ht) _ _ _ hs
        rw [e4, e3, e2, e1]

/-- On every grid, the loop of `createGuaranteedPath`, when it returns, keeps `Size`. -/
theorem guaranteedPathLoop_size :
    ∀ (n : Nat) (x y : Int) (l : Level) (rng : RandSource) (r : Level × RandSource),
      guaranteedPathLoop n x y l rng = some r → r.1.Size = l.Size := by
  intro n
  induction n with
  | zero =>
    intro x y l rng r h
    rw [guaranteedPathLoop] at h
    split at h
    · cases h
    · injection h with h
      subst h
      rfl
  | succ n ih =>
    intro x y l rng r h
    have key : ∀ draw : Bool × RandSource,
        (if draw.1 = true then
            match carveRight x y l with
            | none => none
            | some l1 => guaranteedPathLoop n (x + 1) y l1 draw.2
          else if y < l.Finish.Y then
            match carveDown x y l with
            | none => none
            | some l1 => guaranteedPathLoop n x (y + 1) l1 draw.2
          else guaranteedPathLoop n x y l draw.2) = some r →
        r.1.Size = l.Size := by
      intro draw hd
      by_cases h1 : draw.1 = true
      · rw [if_pos h1] at hd
        cases hc : carveRight x y l with
        | none => simp [hc] at hd
        | some l1 =>
          simp only [hc] at hd
          exact (ih _ _ _ _ _ hd).trans
            (forEach_size _ (fun _ _ _ hs => setWall_size hs) _ l l1 hc)
      · rw [if_neg h1] at hd
        by_cases h2 : y < l.Finish.Y
        · rw [if_pos h2] at hd
          cases hc : carveDown x y l with
          | none => simp [hc] at hd
          | some l1 =>
            simp only [hc] at hd
            exact (ih _ _ _ _ _ hd).trans
              (forEach_size _ (fun _ _ _ hs => setWall_size hs) _ l l1 hc)
        · rw [if_neg h2] at hd
          exact ih _ _ _ _ _ hd
    rw [guaranteedPathLoop] at h
    by_cases hcond : x < l.Finish.X ∨ y < l.Finish.Y
    · rw [if_pos hcond] at h
      exact key _ h
    · rw [if_neg hcond] at h
      injection h with h
      subst h
      rfl

/-- On every grid, one cell of a plus-shaped opening keeps `Size`. -/
theorem crossStep_size {x y dy dx : Int} {s s1 : Level × RandSource}
    (h : crossStep x y dy dx s = some s1) : s1.1.Size = s.1.Size := by
  unfold crossStep at h
  split at h
  · simp only at h
    split at h
    · split at h
      · cases hw : setWall s.1 (x + dx) (y + dy) false with
        | none => simp [hw] at h
        | some l1 =>
          simp only [hw, Option.some.injEq] at h
          subst h
          exact setWall_size hw
      · injection h with h
        subst h
        rfl
    · injection h with h
      subst h
      rfl
  · injection h with h
    subst h
    rfl

/-- On every grid, `connectIsolatedAreas`, when it returns, keeps `Size`. -/
theorem connectIsolatedAreas_size {l : Level} {rng : RandSource} {r : Level × RandSource}
    (h : connectIsolatedAreas l rng = some r) : r.1.Size = l.Size := by
  unfold connectIsolatedAreas at h
  refine forEach_size_pair connectStep ?_ _ (l, rng) r h
  intro i s s1 hs
  unfold connectStep at hs
  cases hx : Intn (s.1.Size.Width - 2) s.2 with
  | none => simp [hx] at hs
  | some rx =>
    simp only [hx] at hs
    cases hy : Intn (s.1.Size.Height - 2) rx.2 with
    | none => simp [hy] at hs
    | some ry =>
      simp only [hy] at hs
      refine forEach_size_pair _ ?_ _ (s.1, ry.2) s1 hs
      intro dy t t1 ht
      exact forEach_size_pair _ (fun dx u u1 hu => crossStep_size hu) _ t t1 ht

/-- A call `rand.Intn(n)` that does not panic has `n > 0`. -/
theorem Intn_pos {n : Int} {r : RandSource} {v : Int × RandSource} (h : Intn n r = some v) :
    0 < n := by
  unfold Intn at h
  split at h
  · cases h
  · omega

/-- The function `NewLevel` returns a level only for sizes of at least 5x5: at a smaller
size one of the draws `rand.Intn(Width-4)`, `rand.Intn(Height-4)` of `createOpenSpace2x2`,
or an earlier statement, panics. -/
theorem NewLevel_size_of_some {size : LevelSize} {rng : RandSource} {s : Level × RandSource}
    (h : NewLevel size rng = some s) : 5 ≤ size.Width ∧ 5 ≤ size.Height := by
  unfold NewLevel at h
  cases hn : Intn 6 rng with
  | none => simp [hn] at h
  | some rn =>
    simp only [hn] at h
    cases hg : GenerateMaze (blankLevel size (rn.1 + 1)) rn.2 with
    | none => simp [hg] at h
    | some s1 =>
      unfold GenerateMaze at hg
      cases h1 : seedWalls (blankLevel size (rn.1 + 1)) rn.2 with
      | none => simp [h1] at hg
      | some t1 =>
        simp only [h1] at hg
        cases h2 : createGuaranteedPath t1.1 t1.2 with
        | none => simp [h2] at hg
        | some t2 =>
          simp only [h2] at hg
          cases h3 : connectIsolatedAreas t2.1 t2.2 with
          | none => simp [h3] at hg
          | some t3 =>
            simp only [h3] at hg
            cases h4 : createOpenSpace2x2 t3.1 t3.2 with
            | none => simp [h4] at hg
            | some t4 =>
              have hsz : t3.1.Size = size :=
                (connectIsolatedAreas_size h3).trans
                  ((guaranteedPathLoop_size _ 0 0 _ _ _ h2).trans (seedWalls_size h1))
              unfold createOpenSpace2x2 at h4
              cases hx : Intn (t3.1.Size.Width - 4) t3.2 with
              | none => simp [hx] at h4
              | some rx =>
                simp only [hx] at h4
                cases hy : Intn (t3.1.Size.Height - 4) rx.2 with
                | none => simp [hy] at h4
                | some ry =>
                  have px := Intn_pos hx
                  have py := Intn_pos hy
                  rw [hsz] at px py
                  exact ⟨by omega, by omega⟩

end Maze

/-! ## The player stays on open cells -/

namespace Simple

/-- A position that `IsValidMove` accepts is inside the grid and not a wall. -/
theorem simplePlayerOnFloor_of_valid {l : Level}
    (h : IsValidMove l l.Player.X l.Player.Y = true) : PlayerOnFloor l := by
  have h0 := h
  unfold IsValidMove at h
  by_cases hout : (decide (l.Player.X < 0) || decide (l.Player.X ≥ GridCols)
      || decide (l.Player.Y < 0) || decide (l.Player.Y ≥ GridRows)) = true
  · simp [hout] at h
  · rw [if_neg hout] at h
    simp only [Bool.or_eq_true, decide_eq_true_eq, not_or, not_lt, ge_iff_le, not_le] at hout
    by_cases hw : IsWall l l.Player.X l.Player.Y = true
    · simp [hw] at h
    · exact ⟨hout.1.1.1, hout.1.1.2, hout.1.2, hout.2, by simpa using hw, h0⟩

/-- A movement block keeps the player on a position that `IsValidMove` accepts: the player
moves only to a cell that `IsValidMove` accepts, and the walls do not change. -/
theorem simpleMove_valid {l : Level} {tx ty dx dy : Int} (dir : Direction)
    (hx : l.Player.X + dx = tx) (hy : l.Player.Y + dy = ty)
    (h : IsValidMove l l.Player.X l.Player.Y = true) :
    IsValidMove
        (if IsValidMove l tx ty = true then { l with Player := Move l.Player dx dy dir } else l)
        (if IsValidMove l tx ty = true then { l with Player := Move l.Player dx dy dir }
          else l).Player.X
        (if IsValidMove l tx ty = true then { l with Player := Move l.Player dx dy dir }
          else l).Player.Y = true := by
  by_cases hv : IsValidMove l tx ty = true
  · simp only [hv, if_true]
    show IsValidMove l (l.Player.X + dx) (l.Player.Y + dy) = true
    rw [hx, hy]
    exact hv
  · simp only [hv, if_false]
    exact h

/-- The four movement blocks keep the player on a position that `IsValidMove` accepts. -/
theorem simpleMovePhase_valid (keys : Keys) {l : Level}
    (h : IsValidMove l l.Player.X l.Player.Y = true) :
    IsValidMove (movePhase keys l) (movePhase keys l).Player.X (movePhase keys l).Player.Y
      = true := by
  have h1 : IsValidMove (moveUp keys l) (moveUp keys l).Player.X (moveUp keys l).Player.Y
      = true := by
    unfold moveUp
    split
    · exact simpleMove_valid Up (by omega) (by omega) h
    · exact h
  have h2 : IsValidMove (moveDown keys (moveUp keys l))
      (moveDown keys (moveUp keys l)).Player.X (moveDown keys (moveUp keys l)).Player.Y
      = true := by
    generalize moveUp keys l = a at h1 ⊢
    unfold moveDown
    split
    · exact simpleMove_valid Down (by omega) (by omega) h1
    · exact h1
  have h3 : IsValidMove (moveLeft keys (moveDown keys (moveUp keys l)))
      (moveLeft keys (moveDown keys (moveUp keys l))).Player.X
      (moveLeft keys (moveDown keys (moveUp keys l))).Player.Y = true := by
    generalize moveDown keys (moveUp keys l) = a at h2 ⊢
    unfold moveLeft
    split
    · exact simpleMove_valid Left (by omega) (by omega) h2
    · exact h2
  unfold movePhase
  generalize moveLeft keys (moveDown keys (moveUp keys l)) = a at h3 ⊢
  unfold moveRight
  split
  · exact simpleMove_valid Right (by omega) (by omega) h3
  · exact h3

/-- The function `NewLevel` of the simple variant returns, and `IsValidMove` accepts the
start position `(1,1)` of the player. -/
theorem simpleNewLevel_valid (rng : RandSource) :
    ∃ s, NewLevel rng = some s ∧ IsValidMove s.1 s.1.Player.X s.1.Player.Y = true := by
  obtain ⟨rn, hn, -, -⟩ := Maze.Intn_spec rng (n := 6) (by decide)
  unfold NewLevel
  simp only [hn]
  exact ⟨_, rfl, rfl⟩

/-- The function `HandleInput` of the simple variant returns and keeps the player on a
position that `IsValidMove` accepts, whatever keys are pressed. -/
theorem simpleHandleInput_valid (keys : Keys) {l : Level} (rng : RandSource)
    (h : IsValidMove l l.Player.X l.Player.Y = true) :
    ∃ t, HandleInput keys l rng = some t ∧
      IsValidMove t.1 t.1.Player.X t.1.Player.Y = true := by
  unfold HandleInput
  by_cases hw : l.Won = true
  · rw [if_pos hw]
    by_cases hr : keys Key.KeyR = true
    · rw [if_pos hr]
      exact simpleNewLevel_valid rng
    · rw [if_neg hr]
      exact ⟨_, rfl, h⟩
  · rw [if_neg hw]
    exact ⟨_, rfl, simpleMovePhase_valid keys h⟩

/-- One iteration of the loop of `main` returns and keeps the player on a position that
`IsValidMove` accepts. -/
theorem simpleMainStep_valid (keys : Keys) {s : Level × RandSource}
    (h : IsValidMove s.1 s.1.Player.X s.1.Player.Y = true) :
    ∃ t, mainStep keys s = some t ∧ IsValidMove t.1 t.1.Player.X t.1.Player.Y = true := by
  obtain ⟨t, e, ht⟩ := simpleHandleInput_valid keys s.2 h
  unfold mainStep
  simp only [e]
  refine ⟨_, rfl, ?_⟩
  split
  · exact ht
  · exact ht

end Simple

namespace Maze

/-- A position that `IsValidMove` accepts is inside the grid and not a wall. -/
theorem mazePlayerOnFloor_of_valid {l : Level}
    (h : IsValidMove l l.Player.X l.Player.Y = some true) : PlayerOnFloor l := by
  have h0 := h
  unfold IsValidMove at h
  by_cases hout : (decide (l.Player.X < 0) || decide (l.Player.X ≥ l.Size.Width)
      || decide (l.Player.Y < 0) || decide (l.Player.Y ≥ l.Size.Height)) = true
  · simp [hout] at h
  · rw [if_neg hout] at h
    simp only [Bool.or_eq_true, decide_eq_true_eq, not_or, not_lt, ge_iff_le, not_le] at hout
    cases hc : cellAt l.Cells l.Player.X l.Player.Y with
    | none => simp [hc] at h
    | some c =>
      simp only [hc] at h
      by_cases hw : c.IsWall = true
      · simp [hw] at h
      · refine ⟨⟨hout.1.1.1, hout.1.1.2, hout.1.2, hout.2⟩, ?_, ?_, h0⟩
        · unfold isOpen
          simp [hc, hw]
        · unfold isWallAt
          simpa [hc] using hw

/-- An open cell inside the grid is a position that `IsValidMove` accepts. -/
theorem IsValidMove_of_isOpen {l : Level} {x y : Int}
    (hin : InGrid l.Size.Width l.Size.Height x y) (ho : isOpen l.Cells x y = true) :
    IsValidMove l x y = some true := by
  obtain ⟨a, b, c, d⟩ := hin
  unfold IsValidMove
  have hcond : (decide (x < 0) || decide (x ≥ l.Size.Width) || decide (y < 0)
      || decide (y ≥ l.Size.Height)) = false := by
    simp; omega
  unfold isOpen at ho
  cases hc : cellAt l.Cells x y with
  | none => simp [hc] at ho
  | some c =>
    simp only [hc] at ho
    simp [hcond, hc, ho]
    simpa using ho

/-- A movement block of the maze variant does not panic on a well-formed grid and keeps
the player on a position that `IsValidMove` accepts: the player moves only to a cell that
`IsValidMove` accepts, and the grid does not change. -/
theorem mazeMove_valid {l : Level} {tx ty dx dy : Int} (dir : Direction) (hwf : WellFormed l)
    (hx : l.Player.X + dx = tx) (hy : l.Player.Y + dy = ty)
    (h : IsValidMove l l.Player.X l.Player.Y = some true) :
    ∃ l1, (match IsValidMove l tx ty with
        | none => none
        | some ok =>
          if ok = true then some { l with Player := Move l.Player dx dy dir } else some l)
        = some l1 ∧
      WellFormed l1 ∧ IsValidMove l1 l1.Player.X l1.Player.Y = some true := by
  obtain ⟨b, hb⟩ := IsValidMove_total hwf tx ty
  simp only [hb]
  cases b with
  | true =>
    refine ⟨_, rfl, hwf, ?_⟩
    show IsValidMove l (l.Player.X + dx) (l.Player.Y + dy) = some true
    rw [hx, hy]
    exact hb
  | false => exact ⟨l, by simp, hwf, h⟩

/-- The four movement blocks of the maze variant do not panic on a well-formed grid and
keep the player on a position that `IsValidMove` accepts. -/
theorem mazeMovePhase_valid (keys : Keys) {l : Level} (hwf : WellFormed l)
    (h : IsValidMove l l.Player.X l.Player.Y = some true) :
    ∃ m, movePhase keys l = some m ∧ WellFormed m ∧
      IsValidMove m m.Player.X m.Player.Y = some true := by
  have h1 : ∃ l1, moveUp keys l = some l1 ∧ WellFormed l1 ∧
      IsValidMove l1 l1.Player.X l1.Player.Y = some true := by
    unfold moveUp
    split
    · exact mazeMove_valid Up hwf (by omega) (by omega) h
    · exact ⟨l, rfl, hwf, h⟩
  obtain ⟨l1, e1, w1, v1⟩ := h1
  have h2 : ∃ l2, moveDown keys l1 = some l2 ∧ WellFormed l2 ∧
      IsValidMove l2 l2.Player.X l2.Player.Y = some true := by
    unfold moveDown
    split
    · exact mazeMove_valid Down w1 (by omega) (by omega) v1
    · exact ⟨l1, rfl, w1, v1⟩
  obtain ⟨l2, e2, w2, v2⟩ := h2
  have h3 : ∃ l3, moveLeft keys l2 = some l3 ∧ WellFormed l3 ∧
      IsValidMove l3 l3.Player.X l3.Player.Y = some true := by
    unfold moveLeft
    split
    · exact mazeMove_valid Left w2 (by omega) (by omega) v2
    · exact ⟨l2, rfl, w2, v2⟩
  obtain ⟨l3, e3, w3, v3⟩ := h3
  have h4 : ∃ l4, moveRight keys l3 = some l4 ∧ WellFormed l4 ∧
      IsValidMove l4 l4.Player.X l4.Player.Y = some true := by
    unfold moveRight
    split
    · exact mazeMove_valid Right w3 (by omega) (by omega) v3
    · exact ⟨l3, rfl, w3, v3⟩
  obtain ⟨l4, e4, w4, v4⟩ := h4
  refine ⟨l4, ?_, w4, v4⟩
  unfold movePhase
  simp only [e1, e2, e3]
  exact e4

/-- Latching the win keeps the grid and the player. -/
theorem latchWin_valid {m : Level} (hwf : WellFormed m)
    (h : IsValidMove m m.Player.X m.Player.Y = some true) :
    WellFormed (latchWin m) ∧
      IsValidMove (latchWin m) (latchWin m).Player.X (latchWin m).Player.Y = some true := by
  unfold latchWin
  split
  · exact ⟨hwf, h⟩
  · exact ⟨hwf, h⟩

/-- In a frame without the key R, `HandleInput` of the maze variant does not panic on a
well-formed grid and keeps the player on a position that `IsValidMove` accepts. -/
theorem mazeHandleInput_valid {keys : Keys} (hR : keys Key.KeyR = false) {g : Game}
    (rng : RandSource) (hwf : WellFormed g.level)
    (h : IsValidMove g.level g.level.Player.X g.level.Player.Y = some true) :
    ∃ t, HandleInput keys g rng = some t ∧ WellFormed t.1.level ∧
      IsValidMove t.1.level t.1.level.Player.X t.1.level.Player.Y = some true := by
  unfold HandleInput
  simp only [hR, Bool.false_eq_true, if_false]
  by_cases hw : g.level.Won = true
  · rw [if_pos hw]
    exact ⟨_, rfl, hwf, h⟩
  · rw [if_neg hw]
    obtain ⟨m, em, wm, vm⟩ := mazeMovePhase_valid keys hwf h
    simp only [em]
    exact ⟨_, rfl, latchWin_valid wm vm⟩

/-- A frame in which only movement keys are pressed does not have the key R. -/
theorem movementOnly_noR {keys : Keys} (h : MovementOnly keys) : keys Key.KeyR = false := by
  cases hk : keys Key.KeyR with
  | false => rfl
  | true =>
    have := h Key.KeyR hk
    revert this
    decide

/-- Every level that `NewLevel` of the maze variant returns has a well-formed grid, and
`IsValidMove` accepts the start position `(0,0)` of the player. -/
theorem mazeNewLevel_valid {size : LevelSize} {rng : RandSource} {s : Level × RandSource}
    (h : NewLevel size rng = some s) :
    WellFormed s.1 ∧ IsValidMove s.1 s.1.Player.X s.1.Player.Y = some true := by
  obtain ⟨hW, hH⟩ := NewLevel_size_of_some h
  obtain ⟨rn, s1, l2, l3, -, -, -, -, e4, f1, -, c2, c3⟩ := NewLevel_stages size rng hW hH
  obtain ⟨s0, e0, hsz, -, -, hwf, ho, -, -⟩ := NewLevel_spec size rng hW hH
  have hs0 : s0 = s := by
    rw [e0] at h
    exact Option.some.inj h
  subst hs0
  have hpl : s0.1.Player = NewPlayer 0 0 := by
    rw [e4] at e0
    have e5 := Option.some.inj e0
    rw [← e5]
    show l3.Player = NewPlayer 0 0
    rw [c3.1.2.2.1, c2.1.2.2.1, f1.2.2.1]
    rfl
  refine ⟨hwf, ?_⟩
  rw [hpl]
  show IsValidMove s0.1 0 0 = some true
  exact IsValidMove_of_isOpen (by rw [hsz]; exact ⟨le_refl 0, by omega, le_refl 0, by omega⟩) ho

end Maze

/-- The frame in which the keys of a list of movement keys are pressed has only movement
keys pressed. -/
theorem movementOnly_pressedKeys {ks : List Key} (h : ∀ k ∈ ks, k ∈ movementKeys) :
    MovementOnly (pressedKeys ks) := by
  intro k hk
  unfold pressedKeys at hk
  exact h k (by simpa using hk)

/-- C22: in both variants the player never stands on a wall or outside the grid.  For
every level that `NewLevel` returns and every finite sequence of frames, after each call
of `HandleInput` (the call for the frame `keys` that follows the frames of `frames`) the
position of the player is inside the grid, is not a wall, and is accepted by
`IsValidMove`; the loop of `main` does not panic on the way.  In the simple variant this
holds whatever keys the frames press; in the maze variant the frames press movement keys
only, so that the level is not generated anew. -/
theorem player_never_on_wall (frames : List Keys) (keys : Keys) :
    (∀ rng s, Simple.NewLevel rng = some s →
      ∃ t u, Simple.runFrames frames s = some t ∧
        Simple.HandleInput keys t.1 t.2 = some u ∧ Simple.PlayerOnFloor u.1) ∧
    (∀ size rng s g rng1, Maze.NewLevel size rng = some s → g.level = s.1 →
      (∀ k ∈ frames, MovementOnly k) → MovementOnly keys →
      ∃ t u, Maze.runFrames frames (g, rng1) = some t ∧
        Maze.HandleInput keys t.1 t.2 = some u ∧ Maze.PlayerOnFloor u.1.level) := by
  constructor
  · intro rng s hs
    obtain ⟨s0, e0, v0⟩ := Simple.simpleNewLevel_valid rng
    have hs0 : s0 = s := by
      rw [e0] at hs
      exact Option.some.inj hs
    subst hs0
    obtain ⟨t, et, vt⟩ := forEach_inv Simple.mainStep
      (fun s => Simple.IsValidMove s.1 s.1.Player.X s.1.Player.Y = true) frames
      (fun i _ s h => Simple.simpleMainStep_valid i h) s0 v0
    obtain ⟨u, eu, vu⟩ := Simple.simpleHandleInput_valid keys t.2 vt
    exact ⟨t, u, et, eu, Simple.simplePlayerOnFloor_of_valid vu⟩
  · intro size rng s g rng1 hs hg hframes hkeys
    obtain ⟨w0, v0⟩ := Maze.mazeNewLevel_valid hs
    rw [← hg] at w0 v0
    obtain ⟨t, et, wt, vt⟩ := forEach_inv (fun keys t => Maze.HandleInput keys t.1 t.2)
      (fun s : Maze.Game × RandSource => Maze.WellFormed s.1.level ∧
        Maze.IsValidMove s.1.level s.1.level.Player.X s.1.level.Player.Y = some true) frames
      (fun i hi s h => Maze.mazeHandleInput_valid (Maze.movementOnly_noR (hframes i hi)) s.2
        h.1 h.2) (g, rng1) ⟨w0, v0⟩
    obtain ⟨u, eu, -, vu⟩ := Maze.mazeHandleInput_valid (Maze.movementOnly_noR hkeys) t.2 wt vt
    exact ⟨t, u, et, eu, Maze.mazePlayerOnFloor_of_valid vu⟩

/-- Witness of C22: the simple level and the 5x5 maze generated from the all-zero random
outcomes, two frames that press D, and S with D, then a frame that presses W. -/
theorem player_never_on_wall_witness :
    (∃ s t u, Simple.NewLevel (constRand 0) = some s ∧
      Simple.runFrames [pressedKeys [Key.KeyD], pressedKeys [Key.KeyS, Key.KeyD]] s = some t ∧
      Simple.HandleInput (pressedKeys [Key.KeyW]) t.1 t.2 = some u ∧
      Simple.PlayerOnFloor u.1 ∧ (u.1.Player.X, u.1.Player.Y) = (2, 1)) ∧
    (∃ s t u, Maze.NewLevel (Maze.presetSize 5 5) (constRand 0) = some s ∧
      Maze.runFrames [pressedKeys [Key.KeyD], pressedKeys [Key.KeyS, Key.KeyD]]
        (Maze.gameOf s.1, s.2) = some t ∧
      Maze.HandleInput (pressedKeys [Key.KeyW]) t.1 t.2 = some u ∧
      Maze.PlayerOnFloor u.1.level) :=
  have h := player_never_on_wall [pressedKeys [Key.KeyD], pressedKeys [Key.KeyS, Key.KeyD]]
    (pressedKeys [Key.KeyW])
  have ⟨s1, e1⟩ := Option.isSome_iff_exists.mp
    (by decide : (Simple.NewLevel (constRand 0)).isSome = true)
  have ⟨s2, e2⟩ := Option.isSome_iff_exists.mp
    (by decide : (Maze.NewLevel (Maze.presetSize 5 5) (constRand 0)).isSome = true)
  have ⟨t1, u1, a1, b1, c1⟩ := h.1 (constRand 0) s1 e1
  have ⟨t2, u2, a2, b2, c2⟩ := h.2 (Maze.presetSize 5 5) (constRand 0) s2 (Maze.gameOf s2.1)
    s2.2 e2 rfl
    (by
      intro k hk
      simp only [List.mem_cons, List.mem_singleton, List.not_mem_nil, or_false] at hk
      rcases hk with rfl | rfl
      · exact movementOnly_pressedKeys (by decide)
      · exact movementOnly_pressedKeys (by decide))
    (movementOnly_pressedKeys (by decide))
  have hpos : (u1.1.Player.X, u1.1.Player.Y) = (2, 1) := by
    have hd : (Simple.NewLevel (constRand 0)).bind (fun s =>
        (Simple.runFrames [pressedKeys [Key.KeyD], pressedKeys [Key.KeyS, Key.KeyD]] s).bind
          (fun t => (Simple.HandleInput (pressedKeys [Key.KeyW]) t.1 t.2).map
            (fun u => (u.1.Player.X, u.1.Player.Y)))) = some (2, 1) := by decide
    rw [e1, Option.some_bind, a1, Option.some_bind, b1] at hd
    exact Option.some.inj hd
  ⟨⟨s1, t1, u1, e1, a1, b1, c1, hpos⟩, ⟨s2, t2, u2, e2, a2, b2, c2⟩⟩
